import Mathlib

/-!
# Single-particle measurement accumulation of DCA++

A shallow embedding of
`include/dca/phys/dca_step/cluster_solver/shared_tools/accumulation/sp/sp_accumulator.hpp`
(class `SpAccumulator`, CPU specialisation), of the measurement functions of
`SsCtHybAccumulator` from
`include/dca/phys/dca_step/cluster_solver/ss_ct_hyb/ss_ct_hyb_accumulator.hpp`, of the
distance computation and the selection of indices of `StatisticalTesting` from
`src/math/statistical_testing/statistical_testing.cpp`, of the frequency helpers, of
`execute_on_cluster` and of diagram 4J of `sigma_perturbation<4>` from
`4th_order_perturbation_sigma.h`, and of the step functions of `HDF5Reader` from
`src/io/hdf5/hdf5_reader.cpp`.

Conventions of the embedding:
* `Real` is the field of rationals, so every sum is taken in exact arithmetic;
* a `std::unique_ptr` member is an `Option`, the empty pointer being `none`;
* a member function that can throw returns `Except Error _`; dereferencing an empty
  pointer, which is undefined behaviour in the source, is the distinct error
  `Error.null_dereference`;
* a `std::array<T, 2>` indexed by the spin channel is a function on `Fin 2`;
* a counted `for` loop is a left fold over `List.range`, and a `continue` leaves the
  state of the loop as it is;
* an `int` is an integer, and the division of two `int` is `Int.tdiv`, which truncates
  towards zero;
* a read outside a `std::vector`, which is undefined behaviour in the source, is the
  distinct failure `Fault.out_of_bounds_read`.
-/

namespace DCA

/-! ## Values and errors -/

/-- The failures of the accumulator: a `std::logic_error` carrying its message, or the
dereference of an empty `unique_ptr`. -/
inductive Error where
  | logic_error (msg : String)
  | null_dereference
  deriving DecidableEq, Repr

/-- A complex number with rational parts, standing for `std::complex<double>`. -/
structure Cplx where
  re : ℚ
  im : ℚ
  deriving DecidableEq, Repr

/-- The complex zero, the value a new `func::function` holds at every index. -/
def Cplx.zero : Cplx := ⟨0, 0⟩

/-- Complex addition, the `+=` on function entries. -/
def Cplx.add (x y : Cplx) : Cplx := ⟨x.re + y.re, x.im + y.im⟩

/-- Product of a complex number with a real scalar: `tmp(...) * normalization`. -/
def Cplx.scale (x : Cplx) (c : ℚ) : Cplx := ⟨x.re * c, x.im * c⟩

/-! ## Collaborators that are not part of the sources at hand -/

/-- Modelled from the spec: the state of the binner `Dnfft1D`
(`dca/math/nfft/dnfft_1d.hpp` is absent), "a mapping from (composite spatial/orbital index,
oversampled time index) to a running sum". -/
abbrev Dnfft1D := Int → Int → ℚ

/-- The static domains and helpers the accumulator is instantiated with. None of them is
defined in the sources at hand, so they are parameters of the embedding.
* `beta`: `parameters_.get_beta()`;
* `b_size`, `r_size`, `w_size`: `BDmn::dmn_size()`, `RDmn::dmn_size()`, `WDmn::dmn_size()`;
* `subtract`: `RDmn::parameter_type::subtract`;
* `bbr_dmn`: the linear index of `func::dmn_variadic<PDmn>` at (band, band, site);
* `oversampling`, `time_index`, `kernel`: the window of the binner, that is the number of
  neighbouring grid points a sample is spread over, the first grid point of the window of a
  scaled time, and the interpolation weight of a window point;
* `transform`: the result `tmp(w, b1, b2, r)` of `Dnfft1D::finalize`, a function of the
  binner state. -/
structure Parameters where
  beta : ℚ
  b_size : Nat
  r_size : Nat
  w_size : Nat
  subtract : Int → Int → Int
  bbr_dmn : Int → Int → Int → Int
  oversampling : Nat
  time_index : ℚ → Int
  kernel : ℚ → Nat → ℚ
  transform : Dnfft1D → Nat → Nat → Nat → Nat → Cplx

/-- Modelled from the spec: a newly constructed or reset binner `Dnfft1D` (absent from the
sources) holds the zero sum in every bin. -/
def Dnfft1D.resetAccumulation : Dnfft1D := fun _ _ => 0

/-- Modelled from the spec: the share of a unit weight at scaled time `t` that the binner
`Dnfft1D` (absent from the sources) puts on grid point `g`: the kernel weight inside the
window of `oversampling` neighbouring grid points around `t`, nothing outside. -/
def Dnfft1D.weight (P : Parameters) (t : ℚ) (g : Int) : ℚ :=
  if P.time_index t ≤ g ∧ g < P.time_index t + P.oversampling then
    P.kernel t (g - P.time_index t).toNat
  else 0

/-- Modelled from the spec: `Dnfft1D::accumulate(index, t_val, f_val)` (absent from the
sources) distributes the weight `f_val` over the window of `t_val` in the row of bin
`index`; samples landing on the same bin add up. -/
def Dnfft1D.accumulate (P : Parameters) (b : Dnfft1D) (index : Int) (t_val f_val : ℚ) :
    Dnfft1D :=
  fun p g => if p = index then b p g + Dnfft1D.weight P t_val g * f_val else b p g

/-- Modelled from the spec: `Dnfft1D::operator+=` (absent from the sources) is the
element-wise addition of the raw bin state. -/
def Dnfft1D.add (b other_one : Dnfft1D) : Dnfft1D := fun p g => b p g + other_one p g

/-! ## Inputs of a measurement -/

/-- A vertex operator of a configuration, with the accessors `accumulate` reads. -/
structure Vertex where
  left_band : Int
  right_band : Int
  left_site : Int
  right_site : Int
  tau : ℚ
  deriving DecidableEq, Repr, Inhabited

/-- A configuration of one spin channel: `size()` is the length, `config[i]` the entry. -/
abbrev Configuration := List Vertex

/-- The matrix `linalg::Matrix<Real, CPU>`, read through `operator()(i, j)`. -/
abbrev Matrix := Nat → Nat → ℚ

/-- The frequency-domain function `MFunction`, indexed by (b1, s1, b2, s2, r, w). -/
abbrev MFunction := Nat × Nat × Nat × Nat × Nat × Nat → Cplx

/-- A new `MFunction`: every entry is zero. -/
def MFunction.new : MFunction := fun _ => Cplx.zero

/-- Two binners, one per spin channel: `std::array<NfftType, 2>`. -/
abbrev NfftPair := Fin 2 → Dnfft1D

/-- A default constructed `std::array<NfftType, 2>`. -/
def NfftPair.new : NfftPair := fun _ => Dnfft1D.resetAccumulation

/-! ## SpAccumulator -/

/-- The data members of `SpAccumulator<Parameters, linalg::CPU, Real>`. -/
structure SpAccumulator where
  initialized_ : Bool
  finalized_ : Bool
  accumulate_m_sqr_ : Bool
  M_r_w_ : Option MFunction
  M_r_w_sqr_ : Option MFunction
  single_measurement_M_r_w_ : Option MFunction
  cached_nfft_obj_ : Option NfftPair
  cached_nfft_sqr_obj_ : Option NfftPair
  single_measurement_M_r_t_ : Option NfftPair

/-- The constructor `SpAccumulator(parameters_ref, accumulate_m_squared)`. -/
def SpAccumulator.construct (accumulate_m_sqr : Bool) : SpAccumulator :=
  { initialized_ := false
    finalized_ := false
    accumulate_m_sqr_ := accumulate_m_sqr
    M_r_w_ := none
    M_r_w_sqr_ := none
    single_measurement_M_r_w_ := none
    cached_nfft_obj_ := none
    cached_nfft_sqr_obj_ := none
    single_measurement_M_r_t_ := none }

/-- The member function `SpAccumulator::resetAccumulation`. -/
def SpAccumulator.resetAccumulation (a : SpAccumulator) : SpAccumulator :=
  { a with
    cached_nfft_obj_ := some NfftPair.new
    cached_nfft_sqr_obj_ := if a.accumulate_m_sqr_ then some NfftPair.new
                            else a.cached_nfft_sqr_obj_
    single_measurement_M_r_t_ := some NfftPair.new
    M_r_w_ := none
    M_r_w_sqr_ := none
    single_measurement_M_r_w_ := none
    finalized_ := false
    initialized_ := true }

/-- The three binner pairs the loops of `accumulate` write to. -/
structure Binners where
  cached : NfftPair
  cached_sqr : NfftPair
  single : NfftPair

/-- The body of the innermost loop of `SpAccumulator::accumulate` for channel `s` and the
pair of loop variables `j` (outer) and `i` (inner). -/
def SpAccumulator.accumulateEntry (P : Parameters) (accumulate_m_sqr : Bool) (M : Matrix)
    (config : Configuration) (sign : Int) (s : Fin 2) (j i : Nat) (st : Binners) : Binners :=
  let one_div_two_beta : ℚ := 1 / (2 * P.beta)
  let b_j := (config.getD j default).left_band
  let r_j := (config.getD j default).left_site
  let t_j := (config.getD j default).tau
  let b_i := (config.getD i default).right_band
  let r_i := (config.getD i default).right_site
  let t_i := (config.getD i default).tau
  let delta_r := P.subtract r_j r_i
  let scaled_tau := (t_i - t_j) * one_div_two_beta
  let index := P.bbr_dmn b_i b_j delta_r
  let f_val := M i j
  { cached := Function.update st.cached s
      (Dnfft1D.accumulate P (st.cached s) index scaled_tau (sign * f_val))
    cached_sqr :=
      if accumulate_m_sqr then
        Function.update st.cached_sqr s
          (Dnfft1D.accumulate P (st.cached_sqr s) index scaled_tau (sign * f_val * f_val))
      else st.cached_sqr
    single := Function.update st.single s
      (Dnfft1D.accumulate P (st.single s) index scaled_tau (sign * f_val)) }

/-- The loops over `j` and `i` of `SpAccumulator::accumulate` for one spin channel. -/
def SpAccumulator.accumulateChannel (P : Parameters) (accumulate_m_sqr : Bool) (M : Matrix)
    (config : Configuration) (sign : Int) (s : Fin 2) (st : Binners) : Binners :=
  (List.range config.length).foldl
    (fun st j =>
      (List.range config.length).foldl
        (fun st i => SpAccumulator.accumulateEntry P accumulate_m_sqr M config sign s j i st)
        st)
    st

/-- The loop over the spin channel of `SpAccumulator::accumulate`. -/
def SpAccumulator.accumulateLoops (P : Parameters) (accumulate_m_sqr : Bool)
    (Ms : Fin 2 → Matrix) (configs : Fin 2 → Configuration) (sign : Int) (st : Binners) :
    Binners :=
  (List.finRange 2).foldl
    (fun st s => SpAccumulator.accumulateChannel P accumulate_m_sqr (Ms s) (configs s) sign s st)
    st

/-- The member function `SpAccumulator::accumulate`. The binner pointers are dereferenced
before the loops; the squared binner only when `accumulate_m_sqr_` is set. -/
def SpAccumulator.accumulate (P : Parameters) (a : SpAccumulator) (Ms : Fin 2 → Matrix)
    (configs : Fin 2 → Configuration) (sign : Int) : Except Error SpAccumulator :=
  if !a.initialized_ then
    Except.error (Error.logic_error "The accumulator was not initialized.")
  else
    match a.single_measurement_M_r_t_, a.cached_nfft_obj_ with
    | some single, some cached =>
      let single := Function.update (Function.update single 0 Dnfft1D.resetAccumulation) 1
        Dnfft1D.resetAccumulation
      if a.accumulate_m_sqr_ then
        match a.cached_nfft_sqr_obj_ with
        | some cached_sqr =>
          let st := SpAccumulator.accumulateLoops P true Ms configs sign
            { cached := cached, cached_sqr := cached_sqr, single := single }
          Except.ok { a with
            cached_nfft_obj_ := some st.cached
            cached_nfft_sqr_obj_ := some st.cached_sqr
            single_measurement_M_r_t_ := some st.single }
        | none => Except.error Error.null_dereference
      else
        let st := SpAccumulator.accumulateLoops P false Ms configs sign
          { cached := cached, cached_sqr := NfftPair.new, single := single }
        Except.ok { a with
          cached_nfft_obj_ := some st.cached
          single_measurement_M_r_t_ := some st.single }
    | _, _ => Except.error Error.null_dereference

/-- The member function `SpAccumulator::finalizeFunction`: for each spin channel the
transform of the binner is added, scaled by `1 / RDmn::dmn_size()`, to the diagonal spin
block of `function`. -/
def SpAccumulator.finalizeFunction (P : Parameters) (ft_objs : NfftPair)
    (function : MFunction) : MFunction :=
  let normalization : ℚ := 1 / (P.r_size : ℚ)
  (List.finRange 2).foldl
    (fun function s =>
      let tmp := P.transform (ft_objs s)
      (List.range P.w_size).foldl
        (fun function w_ind =>
          (List.range P.r_size).foldl
            (fun function r_ind =>
              (List.range P.b_size).foldl
                (fun function b2_ind =>
                  (List.range P.b_size).foldl
                    (fun function b1_ind =>
                      Function.update function (b1_ind, s.val, b2_ind, s.val, r_ind, w_ind)
                        (Cplx.add (function (b1_ind, s.val, b2_ind, s.val, r_ind, w_ind))
                          (Cplx.scale (tmp w_ind b1_ind b2_ind r_ind) normalization)))
                    function)
                function)
            function)
        function)
    function

/-- The member function `SpAccumulator::finalize`. -/
def SpAccumulator.finalize (P : Parameters) (a : SpAccumulator) : Except Error SpAccumulator :=
  if a.finalized_ then
    Except.ok a
  else
    match a.cached_nfft_obj_ with
    | none => Except.error Error.null_dereference
    | some cached =>
      let M_r_w := SpAccumulator.finalizeFunction P cached MFunction.new
      if a.accumulate_m_sqr_ then
        match a.cached_nfft_sqr_obj_ with
        | none => Except.error Error.null_dereference
        | some cached_sqr =>
          Except.ok { a with
            M_r_w_ := some M_r_w
            M_r_w_sqr_ := some (SpAccumulator.finalizeFunction P cached_sqr MFunction.new)
            finalized_ := true
            initialized_ := false }
      else
        Except.ok { a with
          M_r_w_ := some M_r_w
          finalized_ := true
          initialized_ := false }

/-- The loop of `SpAccumulator::sumTo` over the spin channel, on the pair (main binners of
`other`, squared binners of `other`). -/
def SpAccumulator.sumToLoop (accumulate_m_sqr : Bool) (cached cached_sqr : NfftPair)
    (other : NfftPair × NfftPair) : NfftPair × NfftPair :=
  (List.finRange 2).foldl
    (fun o s =>
      (Function.update o.1 s (Dnfft1D.add (o.1 s) (cached s)),
        if accumulate_m_sqr then Function.update o.2 s (Dnfft1D.add (o.2 s) (cached_sqr s))
        else o.2))
    other

/-- The member function `SpAccumulator::sumTo`, a `const` member: it returns the source as
it was together with the new state of `other`. -/
def SpAccumulator.sumTo (self other : SpAccumulator) :
    Except Error (SpAccumulator × SpAccumulator) :=
  let other_cached : NfftPair := other.cached_nfft_obj_.getD NfftPair.new
  let other_cached_sqr : Option NfftPair :=
    if other.cached_nfft_sqr_obj_.isNone && self.accumulate_m_sqr_ then some NfftPair.new
    else other.cached_nfft_sqr_obj_
  match self.cached_nfft_obj_ with
  | none => Except.error Error.null_dereference
  | some cached =>
    if self.accumulate_m_sqr_ then
      match other_cached_sqr, self.cached_nfft_sqr_obj_ with
      | some o_sqr, some cached_sqr =>
        let r := SpAccumulator.sumToLoop true cached cached_sqr (other_cached, o_sqr)
        Except.ok (self, { other with
          cached_nfft_obj_ := some r.1
          cached_nfft_sqr_obj_ := some r.2 })
      | _, _ => Except.error Error.null_dereference
    else
      let r := SpAccumulator.sumToLoop false cached NfftPair.new (other_cached, NfftPair.new)
      Except.ok (self, { other with
        cached_nfft_obj_ := some r.1
        cached_nfft_sqr_obj_ := other_cached_sqr })

/-- The member function `SpAccumulator::get_sign_times_M_r_w`. -/
def SpAccumulator.get_sign_times_M_r_w (a : SpAccumulator) : Except Error MFunction :=
  if !a.finalized_ then
    Except.error (Error.logic_error "The accumulator was not finalized.")
  else
    match a.M_r_w_ with
    | some f => Except.ok f
    | none => Except.error Error.null_dereference

/-- The member function `SpAccumulator::get_sign_times_M_r_w_sqr`. -/
def SpAccumulator.get_sign_times_M_r_w_sqr (a : SpAccumulator) : Except Error MFunction :=
  if !a.finalized_ then
    Except.error (Error.logic_error "The accumulator was not finalized.")
  else if !a.accumulate_m_sqr_ then
    Except.error (Error.logic_error "M squared was not accumulated.")
  else
    match a.M_r_w_sqr_ with
    | some f => Except.ok f
    | none => Except.error Error.null_dereference

/-- The member function `SpAccumulator::get_single_measurement_sign_times_M_r_w`: it
returns the new accumulator state together with the function. -/
def SpAccumulator.get_single_measurement_sign_times_M_r_w (P : Parameters)
    (a : SpAccumulator) : Except Error (SpAccumulator × MFunction) :=
  match a.single_measurement_M_r_t_ with
  | none => Except.error Error.null_dereference
  | some single =>
    let f := SpAccumulator.finalizeFunction P single MFunction.new
    Except.ok ({ a with single_measurement_M_r_w_ := some f }, f)

/-! ## Protocol states of SpAccumulator -/

/-- The accumulator states that calls of the public member functions can produce, starting
from the constructor. The flag `wasReset` records whether `resetAccumulation` has been called
on the accumulator since its construction. The source of a `sumTo` into the accumulator is
arbitrary. -/
inductive SpAccumulator.Reachable (P : Parameters) : Bool → SpAccumulator → Prop where
  | construct (accumulate_m_sqr : Bool) :
      SpAccumulator.Reachable P false (SpAccumulator.construct accumulate_m_sqr)
  | resetAccumulation {wasReset : Bool} {a : SpAccumulator} :
      SpAccumulator.Reachable P wasReset a → SpAccumulator.Reachable P true a.resetAccumulation
  | accumulate {wasReset : Bool} {a a' : SpAccumulator} (Ms : Fin 2 → Matrix)
      (configs : Fin 2 → Configuration) (sign : Int) :
      SpAccumulator.Reachable P wasReset a →
      SpAccumulator.accumulate P a Ms configs sign = Except.ok a' →
      SpAccumulator.Reachable P wasReset a'
  | finalize {wasReset : Bool} {a a' : SpAccumulator} :
      SpAccumulator.Reachable P wasReset a → SpAccumulator.finalize P a = Except.ok a' →
      SpAccumulator.Reachable P wasReset a'
  | sumTo_other {wasReset : Bool} {a a' : SpAccumulator} (src src' : SpAccumulator) :
      SpAccumulator.Reachable P wasReset a →
      SpAccumulator.sumTo src a = Except.ok (src', a') →
      SpAccumulator.Reachable P wasReset a'
  | get_single_measurement {wasReset : Bool} {a a' : SpAccumulator} (f : MFunction) :
      SpAccumulator.Reachable P wasReset a →
      SpAccumulator.get_single_measurement_sign_times_M_r_w P a = Except.ok (a', f) →
      SpAccumulator.Reachable P wasReset a'

/-- The pointer invariant of the protocol states: an initialized accumulator owns its
binners, a finalized one owns its functions, and the two flags exclude each other. -/
def SpAccumulator.WellFormed (a : SpAccumulator) : Prop :=
  (a.initialized_ = true →
    a.cached_nfft_obj_.isSome = true ∧ a.single_measurement_M_r_t_.isSome = true) ∧
  (a.initialized_ = true → a.accumulate_m_sqr_ = true →
    a.cached_nfft_sqr_obj_.isSome = true) ∧
  (a.finalized_ = true → a.M_r_w_.isSome = true) ∧
  (a.finalized_ = true → a.accumulate_m_sqr_ = true → a.M_r_w_sqr_.isSome = true) ∧
  (a.finalized_ = true → a.initialized_ = false)

instance (a : SpAccumulator) : Decidable a.WellFormed := by
  unfold SpAccumulator.WellFormed
  infer_instance

/-! ## The contributions of one measurement, as the specification words them -/

/-- The contribution of the ordered pair (i, j) of vertex operators of one spin channel:
the bin index from (right band of i, left band of j, left site of j minus right site of i),
the scaled time (tau_i - tau_j) / (2 beta) and the weight sign times M(i, j). -/
def contribution (P : Parameters) (M : Matrix) (config : Configuration) (sign : Int)
    (i j : Nat) : Int × ℚ × ℚ :=
  (P.bbr_dmn (config.getD i default).right_band (config.getD j default).left_band
      (P.subtract (config.getD j default).left_site (config.getD i default).right_site),
    ((config.getD i default).tau - (config.getD j default).tau) / (2 * P.beta),
    (sign : ℚ) * M i j)

/-- The contributions of all ordered pairs (i, j) with i, j below the size of the
configuration, listed with j as the slow index. -/
def contributions (P : Parameters) (M : Matrix) (config : Configuration) (sign : Int) :
    List (Int × ℚ × ℚ) :=
  (List.range config.length).flatMap
    (fun j => (List.range config.length).map (fun i => contribution P M config sign i j))

/-- The contribution to the squared binner: the same bin and time, weight sign times
M(i, j) squared. -/
def contributionSqr (P : Parameters) (M : Matrix) (config : Configuration) (sign : Int)
    (i j : Nat) : Int × ℚ × ℚ :=
  ((contribution P M config sign i j).1, (contribution P M config sign i j).2.1,
    (sign : ℚ) * M i j * M i j)

/-- The squared contributions of all ordered pairs, listed with j as the slow index. -/
def contributionsSqr (P : Parameters) (M : Matrix) (config : Configuration) (sign : Int) :
    List (Int × ℚ × ℚ) :=
  (List.range config.length).flatMap
    (fun j => (List.range config.length).map (fun i => contributionSqr P M config sign i j))

/-- A binner after a list of calls of `Dnfft1D::accumulate`, one per contribution. -/
def Dnfft1D.accumulateList (P : Parameters) (b : Dnfft1D) (cs : List (Int × ℚ × ℚ)) :
    Dnfft1D :=
  cs.foldl (fun b c => Dnfft1D.accumulate P b c.1 c.2.1 c.2.2) b

/-- What one contribution adds to bin `p` at grid point `g`. -/
def binValue (P : Parameters) (c : Int × ℚ × ℚ) (p g : Int) : ℚ :=
  if p = c.1 then Dnfft1D.weight P c.2.1 g * c.2.2 else 0

/-! ## Measurement sequences -/

/-- One Monte Carlo measurement handed to `accumulate`. -/
structure Measurement where
  Ms : Fin 2 → Matrix
  configs : Fin 2 → Configuration
  sign : Int

/-- A sequence of `accumulate` calls, stopping at the first failure. -/
def SpAccumulator.accumulateAll (P : Parameters) (a : SpAccumulator) :
    List Measurement → Except Error SpAccumulator
  | [] => Except.ok a
  | m :: ms =>
    match SpAccumulator.accumulate P a m.Ms m.configs m.sign with
    | Except.ok a' => SpAccumulator.accumulateAll P a' ms
    | Except.error e => Except.error e

/-! ## Order and grouping of merges -/

/-- The calls `A.sumTo(T); B.sumTo(T)` and the calls `B.sumTo(T); A.sumTo(T)` all succeed
and leave the same main and squared binners in `T`. -/
def SpAccumulator.sumToCommutes (A B T : SpAccumulator) : Prop :=
  ∃ T1 T2 U1 U2,
    SpAccumulator.sumTo A T = Except.ok (A, T1) ∧ SpAccumulator.sumTo B T1 = Except.ok (B, T2) ∧
    SpAccumulator.sumTo B T = Except.ok (B, U1) ∧ SpAccumulator.sumTo A U1 = Except.ok (A, U2) ∧
    T2.cached_nfft_obj_ = U2.cached_nfft_obj_ ∧
    T2.cached_nfft_sqr_obj_ = U2.cached_nfft_sqr_obj_

/-- Merging `A` into `B` and then `B` into `T` succeeds, as does merging `A` and `B` into
`T` one after the other, and both leave the same main and squared binners in `T`. -/
def SpAccumulator.sumToReassociates (A B T : SpAccumulator) : Prop :=
  ∃ B' T1 T2 T3,
    SpAccumulator.sumTo A B = Except.ok (A, B') ∧ SpAccumulator.sumTo B' T = Except.ok (B', T1) ∧
    SpAccumulator.sumTo A T = Except.ok (A, T2) ∧ SpAccumulator.sumTo B T2 = Except.ok (B, T3) ∧
    T1.cached_nfft_obj_ = T3.cached_nfft_obj_ ∧
    T1.cached_nfft_sqr_obj_ = T3.cached_nfft_sqr_obj_

/-! ## A small instance -/

/-- A small set of domains: inverse temperature 1, one band, two sites with subtraction
modulo 2, one frequency, a window of 8 grid points starting at grid point 0 with the
weights 1, 2, ..., and as transform the value of the bin (b1, b2, r) at grid point 0. -/
def sampleParameters : Parameters :=
  { beta := 1
    b_size := 1
    r_size := 2
    w_size := 1
    subtract := fun x y => (x - y) % 2
    bbr_dmn := fun b1 b2 r => b1 + 1 * (b2 + 1 * r)
    oversampling := 8
    time_index := fun _ => 0
    kernel := fun _ k => (k : ℚ) + 1
    transform := fun b _ b1 b2 r => ⟨b ((b1 : Int) + 1 * ((b2 : Int) + 1 * (r : Int))) 0, 0⟩ }

/-- A measurement with two vertex operators in channel 0 and none in channel 1. -/
def sampleMeasurement : Measurement :=
  { Ms := fun _ i j => (i : ℚ) + 2 * (j : ℚ) + 1
    configs := fun s => if s = 0 then [⟨0, 0, 0, 1, 0⟩, ⟨0, 0, 1, 0, 1 / 2⟩] else []
    sign := -1 }

/-- A freshly reset accumulator. -/
def sampleAccumulator (accumulate_m_sqr : Bool) : SpAccumulator :=
  (SpAccumulator.construct accumulate_m_sqr).resetAccumulation

/-- The accumulator with M squared enabled after reset and one call of `accumulate` on the
sample measurement. -/
def sampleAccumulated : SpAccumulator :=
  match SpAccumulator.accumulate sampleParameters (sampleAccumulator true) sampleMeasurement.Ms
    sampleMeasurement.configs sampleMeasurement.sign with
  | Except.ok a => a
  | Except.error _ => sampleAccumulator true

/-- The target of the merge `sampleAccumulated.sumTo(T)`, where `T` is a reset accumulator
constructed without M squared. -/
def sampleMerged : SpAccumulator :=
  match SpAccumulator.sumTo sampleAccumulated (sampleAccumulator false) with
  | Except.ok r => r.2
  | Except.error _ => sampleAccumulator false

/-! ## Sequences of calls on one accumulator -/

/-- A call of a public member function that involves the accumulator under observation:
as the object of the call, or as the argument `other` of the `sumTo` of another accumulator
(`sumTo_from source`). -/
inductive SpAccumulator.Call where
  | resetAccumulation
  | accumulate (Ms : Fin 2 → Matrix) (configs : Fin 2 → Configuration) (sign : Int)
  | finalize
  | sumTo (other : SpAccumulator)
  | sumTo_from (source : SpAccumulator)
  | get_sign_times_M_r_w
  | get_sign_times_M_r_w_sqr
  | get_single_measurement_sign_times_M_r_w

/-- The accumulator after a call that returns; the error if the call throws. -/
def SpAccumulator.call (P : Parameters) (a : SpAccumulator) :
    SpAccumulator.Call → Except Error SpAccumulator
  | SpAccumulator.Call.resetAccumulation => Except.ok a.resetAccumulation
  | SpAccumulator.Call.accumulate Ms configs sign => SpAccumulator.accumulate P a Ms configs sign
  | SpAccumulator.Call.finalize => SpAccumulator.finalize P a
  | SpAccumulator.Call.sumTo other =>
    match SpAccumulator.sumTo a other with
    | Except.ok r => Except.ok r.1
    | Except.error e => Except.error e
  | SpAccumulator.Call.sumTo_from source =>
    match SpAccumulator.sumTo source a with
    | Except.ok r => Except.ok r.2
    | Except.error e => Except.error e
  | SpAccumulator.Call.get_sign_times_M_r_w =>
    match SpAccumulator.get_sign_times_M_r_w a with
    | Except.ok _ => Except.ok a
    | Except.error e => Except.error e
  | SpAccumulator.Call.get_sign_times_M_r_w_sqr =>
    match SpAccumulator.get_sign_times_M_r_w_sqr a with
    | Except.ok _ => Except.ok a
    | Except.error e => Except.error e
  | SpAccumulator.Call.get_single_measurement_sign_times_M_r_w =>
    match SpAccumulator.get_single_measurement_sign_times_M_r_w P a with
    | Except.ok r => Except.ok r.1
    | Except.error e => Except.error e

/-- A sequence of calls, up to the first one that throws. A call that throws a logic error
leaves the accumulator as it was, so a caller that catches the exception and goes on
reaches the states of the sequence without that call. -/
def SpAccumulator.calls (P : Parameters) (a : SpAccumulator) :
    List SpAccumulator.Call → Except Error SpAccumulator
  | [] => Except.ok a
  | c :: cs =>
    match SpAccumulator.call P a c with
    | Except.ok a' => SpAccumulator.calls P a' cs
    | Except.error e => Except.error e

/-- Whether the call merges a source that accumulates M squared into the accumulator. -/
def SpAccumulator.Call.mergesSquared : SpAccumulator.Call → Bool
  | SpAccumulator.Call.sumTo_from source => source.accumulate_m_sqr_
  | _ => false

/-! ## The statements of accumulate, one after the other -/

/-- The statements `fs` executed in order on an object; when one throws, the object is
returned as the statements before it have left it, together with the exception. -/
def runStatements {σ ε : Type} : List (σ → Except ε σ) → σ → σ × Option ε
  | [], a => (a, none)
  | f :: fs, a =>
    match f a with
    | Except.ok a' => runStatements fs a'
    | Except.error e => (a, some e)

/-- The first statement of `SpAccumulator::accumulate`: the test of `initialized_`. -/
def SpAccumulator.accumulate_check (a : SpAccumulator) : Except Error SpAccumulator :=
  if !a.initialized_ then
    Except.error (Error.logic_error "The accumulator was not initialized.")
  else Except.ok a

/-- The statement `(*single_measurement_M_r_t_)[s].resetAccumulation()`. -/
def SpAccumulator.accumulate_resetSingle (s : Fin 2) (a : SpAccumulator) :
    Except Error SpAccumulator :=
  match a.single_measurement_M_r_t_ with
  | none => Except.error Error.null_dereference
  | some single =>
    Except.ok { a with
      single_measurement_M_r_t_ := some (Function.update single s Dnfft1D.resetAccumulation) }

/-- Iteration `s` of the loop over the spin channel of `SpAccumulator::accumulate`. -/
def SpAccumulator.accumulate_channel (P : Parameters) (Ms : Fin 2 → Matrix)
    (configs : Fin 2 → Configuration) (sign : Int) (s : Fin 2) (a : SpAccumulator) :
    Except Error SpAccumulator :=
  match a.single_measurement_M_r_t_, a.cached_nfft_obj_ with
  | some single, some cached =>
    if a.accumulate_m_sqr_ then
      match a.cached_nfft_sqr_obj_ with
      | some cached_sqr =>
        let st := SpAccumulator.accumulateChannel P true (Ms s) (configs s) sign s
          { cached := cached, cached_sqr := cached_sqr, single := single }
        Except.ok { a with
          cached_nfft_obj_ := some st.cached
          cached_nfft_sqr_obj_ := some st.cached_sqr
          single_measurement_M_r_t_ := some st.single }
      | none => Except.error Error.null_dereference
    else
      let st := SpAccumulator.accumulateChannel P false (Ms s) (configs s) sign s
        { cached := cached, cached_sqr := NfftPair.new, single := single }
      Except.ok { a with
        cached_nfft_obj_ := some st.cached
        single_measurement_M_r_t_ := some st.single }
  | _, _ => Except.error Error.null_dereference

/-- The body of `SpAccumulator::accumulate` as the list of its statements: the test of
`initialized_`, the reset of the two single-measurement binners, the two iterations of the
loop over the spin channel. -/
def SpAccumulator.accumulate_statements (P : Parameters) (Ms : Fin 2 → Matrix)
    (configs : Fin 2 → Configuration) (sign : Int) :
    List (SpAccumulator → Except Error SpAccumulator) :=
  [SpAccumulator.accumulate_check, SpAccumulator.accumulate_resetSingle 0,
    SpAccumulator.accumulate_resetSingle 1,
    SpAccumulator.accumulate_channel P Ms configs sign 0,
    SpAccumulator.accumulate_channel P Ms configs sign 1]

/-! ## SsCtHybAccumulator -/

/-- Modelled from the spec: the data members of the base class `MC_accumulator_data`
(`mc_accumulator_data.hpp` is absent) that the accumulator uses: the iteration counter, the
number of measurements, the sign of the current sample and the accumulated sign, "accumulated
separately as the QMC average sign". Signs are rational numbers. -/
structure MC_accumulator_data where
  dca_iteration_ : Int
  number_of_measurements_ : Int
  current_phase_ : ℚ
  accumulated_phase_ : ℚ

/-- Modelled from the spec: `MC_accumulator_data::initialize(dca_iteration)`
(`mc_accumulator_data.hpp` is absent) starts the measurements of an iteration: no
measurement has been made and the accumulated sign is zero. -/
def MC_accumulator_data.initialize (d : MC_accumulator_data) (dca_iteration : Int) :
    MC_accumulator_data :=
  { d with
    dca_iteration_ := dca_iteration
    number_of_measurements_ := 0
    accumulated_phase_ := 0 }

/-- The data members of `SsCtHybAccumulator`, after those of its base class. The type `Sp`
of the member `single_particle_accumulator_obj` (class `SpAccumulatorNfft`), the type `F` of
the functions `G_r_w` and `GS_r_w`, the type `Cfg` of `configuration` and the type `Mat` of
`M_matrices` are not defined in the sources at hand. -/
structure SsCtHybAccumulator (Sp F Cfg Mat : Type) extends MC_accumulator_data where
  configuration : Cfg
  M_matrices : Mat
  visited_expansion_order_k : Nat → ℚ
  length : Nat → ℚ
  overlap : Nat → Nat → ℚ
  G_r_w : F
  GS_r_w : F
  single_particle_accumulator_obj : Sp
  finalized_ : Bool

/-- What `updateFrom` reads from the walker: `get_sign()`, `get_configuration()` and
`get_M_matrices()`. -/
structure SsCtHybWalker (Cfg Mat : Type) where
  sign : ℚ
  configuration : Cfg
  M_matrices : Mat

/-- The collaborators of `SsCtHybAccumulator` that are absent from the sources: the member
functions `initialize`, `accumulate` and `sumTo` of `SpAccumulatorNfft` (each returns the new
state of the objects it may write), `configuration.size()`, and the size of the domain of
`visited_expansion_order_k`. -/
structure SsCtHybRoutines (Sp F Cfg Mat : Type) where
  nfft_initialize : Sp → F → F → Sp × F × F
  nfft_accumulate : Sp → ℚ → Cfg → Mat → Sp
  nfft_sumTo : Sp → Sp → Sp × Sp
  configuration_size : Cfg → Nat
  expansion_order_size : Nat

/-- The member function `SsCtHybAccumulator::initialize`. -/
def SsCtHybAccumulator.initialize {Sp F Cfg Mat : Type} (R : SsCtHybRoutines Sp F Cfg Mat)
    (a : SsCtHybAccumulator Sp F Cfg Mat) (dca_iteration : Int) :
    SsCtHybAccumulator Sp F Cfg Mat :=
  let r := R.nfft_initialize a.single_particle_accumulator_obj a.G_r_w a.GS_r_w
  { a with
    toMC_accumulator_data := MC_accumulator_data.initialize a.toMC_accumulator_data dca_iteration
    visited_expansion_order_k := fun _ => 0
    single_particle_accumulator_obj := r.1
    G_r_w := r.2.1
    GS_r_w := r.2.2
    length := fun _ => 0
    overlap := fun _ _ => 0
    finalized_ := false }

/-- The member function `SsCtHybAccumulator::finalize`. The absent
`SpAccumulatorNfft::finalize(G_r_w, GS_r_w)` is the parameter `nfft_finalize`, which
returns the new state of the object and of its two reference arguments. -/
def SsCtHybAccumulator.finalize {Sp F Cfg Mat : Type}
    (nfft_finalize : Sp → F → F → Sp × F × F)
    (a : SsCtHybAccumulator Sp F Cfg Mat) : SsCtHybAccumulator Sp F Cfg Mat :=
  if a.finalized_ then a
  else
    let r := nfft_finalize a.single_particle_accumulator_obj a.G_r_w a.GS_r_w
    { a with
      single_particle_accumulator_obj := r.1
      G_r_w := r.2.1
      GS_r_w := r.2.2
      finalized_ := true }

/-- The member function `SsCtHybAccumulator::updateFrom`. -/
def SsCtHybAccumulator.updateFrom {Sp F Cfg Mat : Type} (a : SsCtHybAccumulator Sp F Cfg Mat)
    (walker : SsCtHybWalker Cfg Mat) : SsCtHybAccumulator Sp F Cfg Mat :=
  { a with
    current_phase_ := walker.sign
    configuration := walker.configuration
    M_matrices := walker.M_matrices }

/-- The member function `SsCtHybAccumulator::measure`. Modelled from the spec:
`accumulated_phase_.addSample(sign)` adds the sign of the sample to the accumulated sign. -/
def SsCtHybAccumulator.measure {Sp F Cfg Mat : Type} (R : SsCtHybRoutines Sp F Cfg Mat)
    (a : SsCtHybAccumulator Sp F Cfg Mat) : SsCtHybAccumulator Sp F Cfg Mat :=
  let k := R.configuration_size a.configuration
  { a with
    number_of_measurements_ := a.number_of_measurements_ + 1
    accumulated_phase_ := a.accumulated_phase_ + a.current_phase_
    visited_expansion_order_k :=
      if k < R.expansion_order_size then
        Function.update a.visited_expansion_order_k k (a.visited_expansion_order_k k + 1)
      else a.visited_expansion_order_k
    single_particle_accumulator_obj :=
      R.nfft_accumulate a.single_particle_accumulator_obj a.current_phase_ a.configuration
        a.M_matrices }

/-- The member function `SsCtHybAccumulator::sumTo`: it returns the new state of the source
and of `other`. Modelled from the spec: `+=` on the accumulated sign adds the sums. -/
def SsCtHybAccumulator.sumTo {Sp F Cfg Mat : Type} (R : SsCtHybRoutines Sp F Cfg Mat)
    (self other : SsCtHybAccumulator Sp F Cfg Mat) :
    SsCtHybAccumulator Sp F Cfg Mat × SsCtHybAccumulator Sp F Cfg Mat :=
  let r := R.nfft_sumTo self.single_particle_accumulator_obj
    other.single_particle_accumulator_obj
  ({ self with single_particle_accumulator_obj := r.1 },
    { other with
      accumulated_phase_ := other.accumulated_phase_ + self.accumulated_phase_
      number_of_measurements_ := other.number_of_measurements_ + self.number_of_measurements_
      visited_expansion_order_k := fun k =>
        other.visited_expansion_order_k k + self.visited_expansion_order_k k
      single_particle_accumulator_obj := r.2 })

/-- The calls `updateFrom(walker); measure();` for each walker sample in turn. -/
def SsCtHybAccumulator.measureAll {Sp F Cfg Mat : Type} (R : SsCtHybRoutines Sp F Cfg Mat)
    (a : SsCtHybAccumulator Sp F Cfg Mat) (walkers : List (SsCtHybWalker Cfg Mat)) :
    SsCtHybAccumulator Sp F Cfg Mat :=
  walkers.foldl (fun a walker => SsCtHybAccumulator.measure R (a.updateFrom walker)) a

/-- The average sign: the accumulated sign divided by the number of measurements. -/
def SsCtHybAccumulator.averageSign {Sp F Cfg Mat : Type}
    (a : SsCtHybAccumulator Sp F Cfg Mat) : ℚ :=
  a.accumulated_phase_ / (a.number_of_measurements_ : ℚ)

/-- A small accumulator: the single-particle object counts the calls made on it, the
functions and the configuration are numbers. -/
def sampleSsCtHyb : SsCtHybAccumulator Nat Nat Nat Unit :=
  { dca_iteration_ := 0
    number_of_measurements_ := 5
    current_phase_ := 1
    accumulated_phase_ := 3
    configuration := 0
    M_matrices := ()
    visited_expansion_order_k := fun _ => 0
    length := fun _ => 0
    overlap := fun _ _ => 0
    G_r_w := 0
    GS_r_w := 0
    single_particle_accumulator_obj := 0
    finalized_ := false }

/-- Collaborators for the small accumulator. -/
def sampleSsCtHybRoutines : SsCtHybRoutines Nat Nat Nat Unit :=
  { nfft_initialize := fun _ _ _ => (0, 0, 0)
    nfft_accumulate := fun n _ _ _ => n + 1
    nfft_sumTo := fun n m => (n, m + n)
    configuration_size := fun k => k
    expansion_order_size := 4 }

/-! ## StatisticalTesting -/

/-- The exceptions of `StatisticalTesting`: the `LapackException` of the LAPACK wrappers
with its info code, `std::logic_error` and `std::out_of_range` with their messages. -/
inductive Exception where
  | LapackException (info : Int)
  | logic_error (what : String)
  | out_of_range (what : String)
  deriving DecidableEq, Repr

/-- The linear algebra routines `StatisticalTesting` calls. -/
inductive Routine where
  | potrf
  | trsv
  | dot
  | syevd
  | gemv
  deriving DecidableEq, Repr

/-- The BLAS and LAPACK wrappers (`dca/linalg/blas`, `dca/linalg/lapack`), absent from the
sources, and the two floating point constants the code uses. A LAPACK routine works in
place and may throw: it returns the arrays as it leaves them and the exception, if any.
* `potrf n a`: Cholesky factorization of the lower triangle of the n x n array `a`;
* `trsv n a x`: solution of the triangular system, written to `x`;
* `dot n x y`: scalar product;
* `syevd n a`: eigenvectors (written to `a`) and eigenvalues of the symmetric array `a`;
* `gemv n a x`: product of the transpose of `a` with `x`;
* `sqrt`: `std::sqrt`; `epsilon`: `std::numeric_limits<double>::epsilon()`. -/
structure LinearAlgebra where
  potrf : Nat → List ℚ → List ℚ × Option Exception
  trsv : Nat → List ℚ → List ℚ → List ℚ
  dot : Nat → List ℚ → List ℚ → ℚ
  syevd : Nat → List ℚ → (List ℚ × List ℚ) × Option Exception
  gemv : Nat → List ℚ → List ℚ → List ℚ
  sqrt : ℚ → ℚ
  epsilon : ℚ

/-- The data members of `StatisticalTesting` used by the distance computation. -/
structure StatisticalTesting where
  df_ : List ℚ
  cov_ : List ℚ
  distance_ : ℚ
  dof_ : Int
  samples_ : Int
  pvalue_ : ℚ
  normalized_samples_ : List ℚ
  verbose_ : Bool

/-- The body of the loop over the eigenvalues in `computeMahalanobisDistanceSquared`, on the
triple (`result`, `normalized_samples_`, `dof_`). -/
def StatisticalTesting.eigenStep (L : LinearAlgebra) (eigenvalues df_primed : List ℚ)
    (threshold : ℚ) (st : ℚ × List ℚ × Int) (i : Nat) : ℚ × List ℚ × Int :=
  if eigenvalues.getD i 0 > threshold then
    (st.1 + df_primed.getD i 0 * df_primed.getD i 0 / eigenvalues.getD i 0,
      st.2.1 ++ [df_primed.getD i 0 / L.sqrt (eigenvalues.getD i 0)],
      st.2.2 + 1)
  else st

/-- The member function `StatisticalTesting::computeMahalanobisDistanceSquared`. It returns
the linear algebra routines it has called, in order, and the object it leaves or the
exception it throws. The output on the console is not modelled. -/
def StatisticalTesting.computeMahalanobisDistanceSquared (L : LinearAlgebra)
    (t : StatisticalTesting) : List Routine × Except Exception StatisticalTesting :=
  if t.distance_ ≠ -1 then ([], Except.ok t)
  else
    let n := t.df_.length
    match L.syevd n t.cov_ with
    | (_, some e) => ([Routine.syevd], Except.error e)
    | ((cov, eigenvalues), none) =>
      let df_primed := L.gemv n cov t.df_
      let leading := eigenvalues.getD (n - 1) 0
      let threshold := 10 * leading * L.epsilon
      let r := (List.range n).foldl
        (StatisticalTesting.eigenStep L eigenvalues df_primed threshold) (0, [], 0)
      ([Routine.syevd, Routine.gemv], Except.ok { t with
        cov_ := cov
        dof_ := r.2.2
        normalized_samples_ := r.2.1
        distance_ := r.1 })

/-- The member function `StatisticalTesting::computeFastMahalanobisDistanceSquared`. It
returns the linear algebra routines called, in order, and the object it leaves or the
exception it throws. The factorization works on the copy `cov_copy`; the handler catches a
`LapackException` only. The warning on `std::cerr` is not modelled. -/
def StatisticalTesting.computeFastMahalanobisDistanceSquared (L : LinearAlgebra)
    (t : StatisticalTesting) : List Routine × Except Exception StatisticalTesting :=
  if t.distance_ ≠ -1 then ([], Except.ok t)
  else
    let t1 := { t with dof_ := (t.df_.length : Int) }
    let cov_copy := t1.cov_
    match L.potrf t1.df_.length cov_copy with
    | (_, some (Exception.LapackException _)) =>
      let r := StatisticalTesting.computeMahalanobisDistanceSquared L t1
      (Routine.potrf :: r.1, r.2)
    | (_, some e) => ([Routine.potrf], Except.error e)
    | (cov_copy, none) =>
      let df := L.trsv t1.df_.length cov_copy t1.df_
      ([Routine.potrf, Routine.trsv, Routine.dot], Except.ok { t1 with
        df_ := df
        distance_ := L.dot t1.df_.length df df })

/-- A linear algebra whose factorization fails with `LapackException` and whose
eigen-decomposition returns the eigenvalues 1 and 2. -/
def sampleLinearAlgebra : LinearAlgebra :=
  { potrf := fun _ a => (a.map (fun x => x + 1), some (Exception.LapackException 2))
    trsv := fun _ _ x => x
    dot := fun _ x y => (List.zipWith (fun u v => u * v) x y).sum
    syevd := fun _ a => ((a, [1, 2]), none)
    gemv := fun _ _ x => x
    sqrt := fun x => x
    epsilon := 1 / 1000 }

/-- A test on two degrees of freedom whose distance has not been computed. -/
def sampleStatisticalTesting : StatisticalTesting :=
  { df_ := [1, 2]
    cov_ := [1, 0, 0, 2]
    distance_ := -1
    dof_ := 0
    samples_ := 0
    pvalue_ := -1
    normalized_samples_ := []
    verbose_ := false }

/-! ## Selection of indices in StatisticalTesting -/

/-- The ways a member function of `StatisticalTesting` fails: it throws an exception, or it
reads a vector outside its bounds, which is undefined behaviour in the source. -/
inductive Fault where
  | thrown (e : Exception)
  | out_of_bounds_read
  deriving DecidableEq, Repr

/-- The list `std::unique` leaves behind a first element `a`: of each run of equal
neighbours the first one is kept. -/
def uniqueFrom (a : Int) : List Int → List Int
  | [] => [a]
  | b :: l => if a = b then uniqueFrom a l else a :: uniqueFrom b l

/-- The elements `std::unique` keeps, that is the list after
`indices.resize(end - indices.begin())`. -/
def unique : List Int → List Int
  | [] => []
  | a :: l => uniqueFrom a l

/-- The first three statements of `selectIndices` and of `discardIndices`: `std::sort`,
`std::unique` and `resize`. -/
def sortUnique (indices : List Int) : List Int :=
  unique (indices.insertionSort (fun a b => a ≤ b))

/-- The two nested loops of `selectIndices` over the iterators `it1`, `it2` and the counters
`i`, `j`, on the pair (`new_df`, `new_cov`). A read outside a vector gives 0 here; the
caller tests the positions first. -/
def StatisticalTesting.selectLoops (df_ cov_ : List ℚ) (indices : List Int) :
    List ℚ × List ℚ :=
  let new_size := indices.length
  (List.range new_size).foldl
    (fun st i =>
      let it1 := indices.getD i 0
      let new_df := st.1.set i (df_.getD it1.toNat 0)
      (List.range new_size).foldl
        (fun st j =>
          let it2 := indices.getD j 0
          (st.1, st.2.set (i * new_size + j)
            (cov_.getD (it1 * (df_.length : Int) + it2).toNat 0)))
        (new_df, st.2))
    (List.replicate new_size 0, List.replicate (new_size * new_size) 0)

/-- Whether every read `df_[*it1]` and `cov_[(*it1) * df_.size() + (*it2)]` of the loops of
`selectIndices` is inside the vector, for indices that are not negative. -/
def StatisticalTesting.readsInBounds (df_ cov_ : List ℚ) (indices : List Int) : Bool :=
  indices.all (fun it1 =>
    decide (it1 < (df_.length : Int)) &&
      indices.all (fun it2 => decide (it1 * (df_.length : Int) + it2 < (cov_.length : Int))))

/-- The member function `StatisticalTesting::selectIndices`. The first component is the
vector `indices` as the call leaves it, the second the object or the failure. In the bounds
check `indices.back()` is not negative when it is compared with the unsigned `df_.size()`,
so the comparison is that of the integers. -/
def StatisticalTesting.selectIndices (t : StatisticalTesting) (indices : List Int) :
    List Int × Except Fault StatisticalTesting :=
  let indices := sortUnique indices
  if indices.length = 0 then
    (indices, Except.error (Fault.thrown (Exception.logic_error "Test is empty.")))
  else if indices.getD 0 0 < 0 ∨ indices.getLastD 0 > (t.df_.length : Int) then
    (indices, Except.error (Fault.thrown (Exception.out_of_range "Index out of bounds.")))
  else if StatisticalTesting.readsInBounds t.df_ t.cov_ indices = false then
    (indices, Except.error Fault.out_of_bounds_read)
  else
    let r := StatisticalTesting.selectLoops t.df_ t.cov_ indices
    (indices, Except.ok { t with df_ := r.1, cov_ := r.2 })

/-- The body of the loop over `i` of `discardIndices` on the pair (`pick`, position of
`compare` in `indices`): `*compare` is read at every turn, and the read fails when `compare`
is the end of the vector. -/
def StatisticalTesting.discardStep (indices : List Int)
    (st : Except Fault (List Int × Nat)) (i : Nat) : Except Fault (List Int × Nat) :=
  match st with
  | Except.error f => Except.error f
  | Except.ok (pick, compare) =>
    if compare < indices.length then
      if (i : Int) ≠ indices.getD compare 0 then Except.ok (pick ++ [(i : Int)], compare)
      else Except.ok (pick, compare + 1)
    else Except.error Fault.out_of_bounds_read

/-- The loop over `i` of `discardIndices`, which fills `pick`; `n` is `df_.size()`. -/
def StatisticalTesting.discardScan (n : Nat) (indices : List Int) :
    Except Fault (List Int × Nat) :=
  (List.range n).foldl (StatisticalTesting.discardStep indices) (Except.ok ([], 0))

/-- The member function `StatisticalTesting::discardIndices`. The first component is the
vector `indices` as the call leaves it. The bounds check reads `indices[0]` without a test
of the size, so on an empty vector it reads outside the vector. -/
def StatisticalTesting.discardIndices (t : StatisticalTesting) (indices : List Int) :
    List Int × Except Fault StatisticalTesting :=
  let indices := sortUnique indices
  if indices.length = 0 then (indices, Except.error Fault.out_of_bounds_read)
  else if indices.getD 0 0 < 0 ∨ indices.getLastD 0 > (t.df_.length : Int) then
    (indices, Except.error (Fault.thrown (Exception.out_of_range "Index out of bounds.")))
  else
    match StatisticalTesting.discardScan t.df_.length indices with
    | Except.error f => (indices, Except.error f)
    | Except.ok (pick, _) => (indices, (t.selectIndices pick).2)

/-! ## Frequency helpers of the fourth order perturbation -/

/-- The odd integer `2*(i - w::dmn_size()/2) + 1` that the helpers of `sigma_perturbation<4>`
compute for the fermionic index `i` (the local `w_f`); `Nw` is `w::dmn_size()`. The
division of two `int` truncates towards zero. -/
def fermionic_frequency (Nw : Nat) (i : Int) : Int :=
  2 * (i - Int.tdiv (Nw : Int) 2) + 1

/-- The even integer `2*(j - w_VERTEX_BOSONIC::dmn_size()/2)` that the helpers compute for the
bosonic index `j` (the local `w_b`); `Nb` is `w_VERTEX_BOSONIC::dmn_size()`. -/
def bosonic_frequency (Nb : Nat) (j : Int) : Int :=
  2 * (j - Int.tdiv (Nb : Int) 2)

/-- The member function `sigma_perturbation<4>::subtract_freq_fb`. -/
def subtract_freq_fb (Nw Nb : Nat) (w1 w2 : Int) : Int :=
  let w_f := 2 * (w1 - Int.tdiv (Nw : Int) 2) + 1
  let w_b := 2 * (w2 - Int.tdiv (Nb : Int) 2)
  let res := Int.tdiv ((w_b - w_f) - 1 + (Nw : Int)) 2
  res

/-- The member function `sigma_perturbation<4>::subtract_freq_bf`. -/
def subtract_freq_bf (Nw Nb : Nat) (w1 w2 : Int) : Int :=
  let w_f := 2 * (w2 - Int.tdiv (Nw : Int) 2) + 1
  let w_b := 2 * (w1 - Int.tdiv (Nb : Int) 2)
  let res := Int.tdiv ((w_f - w_b) - 1 + (Nw : Int)) 2
  res

/-- The member function `sigma_perturbation<4>::subtract_freq_ff`. -/
def subtract_freq_ff (Nw Nb : Nat) (w1 w2 : Int) : Int :=
  let w_f1 := 2 * (w1 - Int.tdiv (Nw : Int) 2) + 1
  let w_f2 := 2 * (w2 - Int.tdiv (Nw : Int) 2) + 1
  let res := Int.tdiv ((w_f2 - w_f1) + (Nb : Int)) 2
  res

/-- The member function `sigma_perturbation<4>::add_freq_ff`. -/
def add_freq_ff (Nw Nb : Nat) (w1 w2 : Int) : Int :=
  let w_f1 := 2 * (w1 - Int.tdiv (Nw : Int) 2) + 1
  let w_f2 := 2 * (w2 - Int.tdiv (Nw : Int) 2) + 1
  let res := Int.tdiv ((w_f1 + w_f2) + (Nb : Int)) 2
  res

/-- The member function `sigma_perturbation<4>::add_freq_bf`. -/
def add_freq_bf (Nw Nb : Nat) (w1 w2 : Int) : Int :=
  let w_b := 2 * (w1 - Int.tdiv (Nb : Int) 2)
  let w_f := 2 * (w2 - Int.tdiv (Nw : Int) 2) + 1
  let res := Int.tdiv ((w_b + w_f) - 1 + (Nw : Int)) 2
  res

/-- The range check of the callers on a bosonic index,
`if(r<0 || r >= w_VERTEX_BOSONIC::dmn_size()) continue;`: `true` when the term is
skipped. -/
def bosonic_index_skipped (Nb : Nat) (r : Int) : Bool :=
  decide (r < 0) || decide (r ≥ (Nb : Int))

/-- The range check of the callers on a fermionic index,
`if(r<0 || r >= w::dmn_size()) continue;`: `true` when the term is skipped. -/
def fermionic_index_skipped (Nw : Nat) (r : Int) : Bool :=
  decide (r < 0) || decide (r ≥ (Nw : Int))

/-! ## HDF5Reader -/

/-- A `std::runtime_error` with its message. -/
structure runtime_error where
  what : String
  deriving DecidableEq, Repr

/-- The two data members of `HDF5Reader` that `begin_step` and `end_step` use; the header
that declares them is not among the sources at hand. -/
structure HDF5Reader where
  in_step_ : Bool
  step_ : Int
  deriving DecidableEq, Repr

/-- The member function `HDF5Reader::begin_step`. -/
def HDF5Reader.begin_step (r : HDF5Reader) : Except runtime_error HDF5Reader :=
  if r.in_step_ then
    Except.error ⟨"HDF5Writer::begin_step() called while already in step!"⟩
  else Except.ok { r with in_step_ := true }

/-- The member function `HDF5Reader::end_step`. -/
def HDF5Reader.end_step (r : HDF5Reader) : Except runtime_error HDF5Reader :=
  if !r.in_step_ then
    Except.error ⟨"HDF5Writer::end_step() called while not in step!"⟩
  else Except.ok { r with step_ := r.step_ + 1 }

/-- The sequence of `N` pairs `begin_step(); end_step();`. -/
def HDF5Reader.steps : Nat → HDF5Reader → Except runtime_error HDF5Reader
  | 0, r => Except.ok r
  | N + 1, r => do
    let r1 ← r.begin_step
    let r2 ← r1.end_step
    HDF5Reader.steps N r2

/-! ## Fourth order perturbation of the self-energy -/

/-- The type `FUNC_LIB::function<std::complex<double>, dmn_4<nu,nu, k_dmn_t, w> >` with the
scalars taken in `K`: a value for each index (band, spin, band, spin, momentum, frequency).
The functions `chi`, `phi` and `F` over other domains have six indices of the same kind. -/
abbrev function_type (K : Type) := Int × Int × Int × Int × Int × Int → K

/-- The statement `f(i) += v` on one entry of a function. -/
def function_type.add_entry {K : Type} [Add K] (f : function_type K)
    (i : Int × Int × Int × Int × Int × Int) (v : K) : function_type K :=
  Function.update f i (f i + v)

/-- The members of `sigma_perturbation<4, parameter_type, k_dmn_t>` and the static data it
reads: `beta` is `parameters.get_beta()`, `k_size`, `w_size` and `w_VERTEX_BOSONIC_size` are
`k_dmn_t::dmn_size()`, `w::dmn_size()` and `w_VERTEX_BOSONIC::dmn_size()`, and `subtract` is
`k_dmn_t::parameter_type::subtract`. -/
structure sigma_perturbation (K : Type) where
  beta : K
  k_size : Nat
  w_size : Nat
  w_VERTEX_BOSONIC_size : Nat
  subtract : Int → Int → Int
  U : Int → Int → Int → Int → K
  chi : function_type K
  phi : function_type K
  Sigma : function_type K
  Sigma_4A : function_type K
  Sigma_4C : function_type K
  Sigma_4D : function_type K
  Sigma_4E : function_type K
  Sigma_4F : function_type K
  Sigma_4G : function_type K
  Sigma_4H : function_type K
  Sigma_4J : function_type K
  Sigma_4K : function_type K
  Sigma_4L : function_type K

/-- The two loops `Sigma_4J(0,1, 0,1, k_ind, w_ind) = Sigma_4J(0,0, 0,0, k_ind, w_ind)` at
the end of `execute_4J` and of `execute_4J_old`. -/
def sigma_perturbation.copy_spin {K : Type} (s : sigma_perturbation K)
    (Sigma_4J : function_type K) : function_type K :=
  (List.range s.w_size).foldl
    (fun Sigma_4J (w_ind : Nat) =>
      (List.range s.k_size).foldl
        (fun Sigma_4J (k_ind : Nat) =>
          Function.update Sigma_4J (0, 1, 0, 1, (k_ind : Int), (w_ind : Int))
            (Sigma_4J (0, 0, 0, 0, (k_ind : Int), (w_ind : Int))))
        Sigma_4J)
    Sigma_4J

/-- The local `factor` of `execute_4J` and of `execute_4J_old`. -/
def sigma_perturbation.factor_4J {K : Type} [Field K] (s : sigma_perturbation K) : K :=
  let U_value := s.U 0 0 0 1
  1 / (s.beta * s.beta * s.beta * (s.k_size : K) * (s.k_size : K) * (s.k_size : K))
    * U_value * U_value * U_value * U_value

/-- The eight nested loops of `execute_4J_old`, on the function `Sigma_4J`. -/
def sigma_perturbation.execute_4J_old_loops {K : Type} [Field K] (s : sigma_perturbation K)
    (G : function_type K) (Sigma_4J : function_type K) : function_type K :=
  (List.range s.w_VERTEX_BOSONIC_size).foldl (fun Sigma_4J (nu_ind : Nat) =>
    (List.range s.k_size).foldl (fun Sigma_4J (q_ind : Nat) =>
      (List.range s.w_size).foldl (fun Sigma_4J (w1_ind : Nat) =>
        let nu_minus_w1 := subtract_freq_fb s.w_size s.w_VERTEX_BOSONIC_size w1_ind nu_ind
        if nu_minus_w1 < 0 ∨ nu_minus_w1 ≥ (s.w_size : Int) then Sigma_4J
        else
          (List.range s.k_size).foldl (fun Sigma_4J (p1_ind : Nat) =>
            (List.range s.w_size).foldl (fun Sigma_4J (w2_ind : Nat) =>
              let nu_minus_w2 :=
                subtract_freq_fb s.w_size s.w_VERTEX_BOSONIC_size w2_ind nu_ind
              if nu_minus_w2 < 0 ∨ nu_minus_w2 ≥ (s.w_size : Int) then Sigma_4J
              else
                let nu_minus_w1_minus_w2 :=
                  subtract_freq_ff s.w_size s.w_VERTEX_BOSONIC_size w2_ind nu_minus_w1
                if nu_minus_w1_minus_w2 < 0 ∨
                    nu_minus_w1_minus_w2 ≥ (s.w_VERTEX_BOSONIC_size : Int) then Sigma_4J
                else
                  (List.range s.k_size).foldl (fun Sigma_4J (p2_ind : Nat) =>
                    (List.range s.w_size).foldl (fun Sigma_4J (w_ind : Nat) =>
                      let nu_minus_w :=
                        subtract_freq_fb s.w_size s.w_VERTEX_BOSONIC_size w_ind nu_ind
                      if nu_minus_w < 0 ∨ nu_minus_w ≥ (s.w_size : Int) then Sigma_4J
                      else
                        (List.range s.k_size).foldl (fun Sigma_4J (k_ind : Nat) =>
                          let q_minus_k := s.subtract k_ind q_ind
                          let q_minus_p1 := s.subtract p1_ind q_ind
                          let q_minus_p2 := s.subtract p2_ind q_ind
                          let q_minus_p1_minus_p2 := s.subtract p2_ind q_minus_p1
                          Sigma_4J.add_entry (0, 0, 0, 0, (k_ind : Int), (w_ind : Int))
                            (s.chi (0, 0, 0, 0, q_minus_p1_minus_p2, nu_minus_w1_minus_w2)
                              * G (0, 0, 0, 0, (p1_ind : Int), (w1_ind : Int))
                              * G (0, 0, 0, 0, (p2_ind : Int), (w2_ind : Int))
                              * G (0, 0, 0, 0, q_minus_p1, nu_minus_w1)
                              * G (0, 0, 0, 0, q_minus_p2, nu_minus_w2)
                              * G (0, 0, 0, 0, q_minus_k, nu_minus_w)))
                          Sigma_4J)
                      Sigma_4J)
                    Sigma_4J)
              Sigma_4J)
            Sigma_4J)
        Sigma_4J)
      Sigma_4J)
    Sigma_4J

/-- The member function `execute_4J_old`, which the source keeps as a comment: the direct
sum. The output on the console is not modelled. -/
def sigma_perturbation.execute_4J_old {K : Type} [Field K] (s : sigma_perturbation K)
    (G : function_type K) : sigma_perturbation K :=
  let Sigma_4J : function_type K := fun _ => 0
  let Sigma_4J := s.execute_4J_old_loops G Sigma_4J
  let Sigma_4J := s.copy_spin Sigma_4J
  let factor := s.factor_4J
  { s with Sigma_4J := fun i => Sigma_4J i * factor }

/-- The loops of `execute_4J` inside the `do ... while` of the sum manager, on the function
`F`. The class `thread_manager_sum` is not part of the sources at hand: `work` lists the
coordinates (`nu_ind`, `q_ind`) of the linear indices `l` that the threads go through
between them, and `sum_and_check` adds their parts of `F`. -/
def sigma_perturbation.execute_4J_F {K : Type} [Field K] (s : sigma_perturbation K)
    (work : List (Nat × Nat)) (G : function_type K) (F : function_type K) :
    function_type K :=
  work.foldl (fun F (l : Nat × Nat) =>
    let nu_ind := l.1
    let q_ind := l.2
    (List.range s.w_size).foldl (fun F (w1_ind : Nat) =>
      let nu_minus_w1 := subtract_freq_fb s.w_size s.w_VERTEX_BOSONIC_size w1_ind nu_ind
      if nu_minus_w1 < 0 ∨ nu_minus_w1 ≥ (s.w_size : Int) then F
      else
        (List.range s.k_size).foldl (fun F (p1_ind : Nat) =>
          (List.range s.w_size).foldl (fun F (w2_ind : Nat) =>
            let nu_minus_w2 := subtract_freq_fb s.w_size s.w_VERTEX_BOSONIC_size w2_ind nu_ind
            if nu_minus_w2 < 0 ∨ nu_minus_w2 ≥ (s.w_size : Int) then F
            else
              let nu_minus_w1_minus_w2 :=
                subtract_freq_ff s.w_size s.w_VERTEX_BOSONIC_size w2_ind nu_minus_w1
              if nu_minus_w1_minus_w2 < 0 ∨
                  nu_minus_w1_minus_w2 ≥ (s.w_VERTEX_BOSONIC_size : Int) then F
              else
                (List.range s.k_size).foldl (fun F (p2_ind : Nat) =>
                  let q_minus_p1 := s.subtract p1_ind q_ind
                  let q_minus_p2 := s.subtract p2_ind q_ind
                  let q_minus_p1_minus_p2 := s.subtract p2_ind q_minus_p1
                  F.add_entry (0, 0, 0, 0, (q_ind : Int), (nu_ind : Int))
                    (s.chi (0, 0, 0, 0, q_minus_p1_minus_p2, nu_minus_w1_minus_w2)
                      * G (0, 0, 0, 0, (p1_ind : Int), (w1_ind : Int))
                      * G (0, 0, 0, 0, (p2_ind : Int), (w2_ind : Int))
                      * G (0, 0, 0, 0, q_minus_p1, nu_minus_w1)
                      * G (0, 0, 0, 0, q_minus_p2, nu_minus_w2)))
                  F)
            F)
          F)
      F)
    F

/-- The four nested loops of `execute_4J` after the `do ... while`, which convolve `F` with
`G`, on the function `Sigma_4J`. -/
def sigma_perturbation.execute_4J_convolution {K : Type} [Field K] (s : sigma_perturbation K)
    (G F : function_type K) (Sigma_4J : function_type K) : function_type K :=
  (List.range s.w_VERTEX_BOSONIC_size).foldl (fun Sigma_4J (nu_ind : Nat) =>
    (List.range s.k_size).foldl (fun Sigma_4J (q_ind : Nat) =>
      (List.range s.w_size).foldl (fun Sigma_4J (w_ind : Nat) =>
        let nu_minus_w := subtract_freq_fb s.w_size s.w_VERTEX_BOSONIC_size w_ind nu_ind
        if nu_minus_w < 0 ∨ nu_minus_w ≥ (s.w_size : Int) then Sigma_4J
        else
          (List.range s.k_size).foldl (fun Sigma_4J (k_ind : Nat) =>
            let q_minus_k := s.subtract k_ind q_ind
            Sigma_4J.add_entry (0, 0, 0, 0, (k_ind : Int), (w_ind : Int))
              (F (0, 0, 0, 0, (q_ind : Int), (nu_ind : Int))
                * G (0, 0, 0, 0, q_minus_k, nu_minus_w)))
            Sigma_4J)
        Sigma_4J)
      Sigma_4J)
    Sigma_4J

/-- The member function `execute_4J`: the part `F` that does not depend on `k` is summed
first. A new function `F` is zero at every index. The profiler and the output on the
console are not modelled. -/
def sigma_perturbation.execute_4J {K : Type} [Field K] (s : sigma_perturbation K)
    (work : List (Nat × Nat)) (G : function_type K) : sigma_perturbation K :=
  let Sigma_4J : function_type K := fun _ => 0
  let F : function_type K := fun _ => 0
  let F := s.execute_4J_F work G F
  let Sigma_4J := s.execute_4J_convolution G F Sigma_4J
  let Sigma_4J := s.copy_spin Sigma_4J
  let factor := s.factor_4J
  { s with Sigma_4J := fun i => Sigma_4J i * factor }

/-- The nine other diagrams of `execute_on_cluster`, each a member function that works on
the object; `execute_4D`, `execute_4E` and `execute_4F` also take `Sigma_2`. -/
structure Diagrams (K : Type) where
  execute_4A : function_type K → sigma_perturbation K → sigma_perturbation K
  execute_4C : function_type K → sigma_perturbation K → sigma_perturbation K
  execute_4D : function_type K → function_type K → sigma_perturbation K → sigma_perturbation K
  execute_4E : function_type K → function_type K → sigma_perturbation K → sigma_perturbation K
  execute_4F : function_type K → function_type K → sigma_perturbation K → sigma_perturbation K
  execute_4G : function_type K → sigma_perturbation K → sigma_perturbation K
  execute_4H : function_type K → sigma_perturbation K → sigma_perturbation K
  execute_4K : function_type K → sigma_perturbation K → sigma_perturbation K
  execute_4L : function_type K → sigma_perturbation K → sigma_perturbation K

/-- The ten calls at the start of `execute_on_cluster`. -/
def sigma_perturbation.execute_diagrams {K : Type} [Field K] (D : Diagrams K)
    (work : List (Nat × Nat)) (s : sigma_perturbation K) (G Sigma_2 : function_type K) :
    sigma_perturbation K :=
  let s := D.execute_4A G s
  let s := D.execute_4C G s
  let s := D.execute_4D G Sigma_2 s
  let s := D.execute_4E G Sigma_2 s
  let s := D.execute_4F G Sigma_2 s
  let s := D.execute_4G G s
  let s := D.execute_4H G s
  let s := s.execute_4J work G
  let s := D.execute_4K G s
  let s := D.execute_4L G s
  s

/-- The statements `Sigma = 0.; Sigma += Sigma_4A; ...` at the end of
`execute_on_cluster`. -/
def sigma_perturbation.sum_diagrams {K : Type} [Field K] (s : sigma_perturbation K) :
    sigma_perturbation K :=
  let s := { s with Sigma := fun _ => 0 }
  let s := { s with Sigma := fun i => s.Sigma i + s.Sigma_4A i }
  let s := { s with Sigma := fun i => s.Sigma i + s.Sigma_4A i }
  let s := { s with Sigma := fun i => s.Sigma i + s.Sigma_4C i }
  let s := { s with Sigma := fun i => s.Sigma i + s.Sigma_4D i }
  let s := { s with Sigma := fun i => s.Sigma i + s.Sigma_4E i }
  let s := { s with Sigma := fun i => s.Sigma i + s.Sigma_4F i }
  let s := { s with Sigma := fun i => s.Sigma i + s.Sigma_4G i }
  let s := { s with Sigma := fun i => s.Sigma i + s.Sigma_4H i }
  let s := { s with Sigma := fun i => s.Sigma i + s.Sigma_4H i }
  let s := { s with Sigma := fun i => s.Sigma i + s.Sigma_4J i }
  let s := { s with Sigma := fun i => s.Sigma i + s.Sigma_4K i }
  let s := { s with Sigma := fun i => s.Sigma i + s.Sigma_4L i }
  s

/-- The member function `execute_on_cluster`. The output on the console is not modelled. -/
def sigma_perturbation.execute_on_cluster {K : Type} [Field K] (D : Diagrams K)
    (work : List (Nat × Nat)) (s : sigma_perturbation K) (G Sigma_2 : function_type K) :
    sigma_perturbation K :=
  (s.execute_diagrams D work G Sigma_2).sum_diagrams

/-- A loop body adds the function `d` to the function it works on: at every index the new
value is the old one plus `d`. -/
def AddsTo {K : Type} [Add K] (B : function_type K → function_type K)
    (d : function_type K) : Prop :=
  ∀ f i, B f i = f i + d i

/-- The product that `execute_4J` adds to `F(0,0, 0,0, q_ind, nu_ind)` for the loop
variables `w1_ind`, `p1_ind`, `w2_ind`, `p2_ind`. -/
def sigma_perturbation.term_4J {K : Type} [Field K] (s : sigma_perturbation K)
    (G : function_type K) (nu_ind q_ind w1_ind p1_ind w2_ind p2_ind : Nat) : K :=
  s.chi (0, 0, 0, 0, s.subtract p2_ind (s.subtract p1_ind q_ind),
      subtract_freq_ff s.w_size s.w_VERTEX_BOSONIC_size w2_ind
        (subtract_freq_fb s.w_size s.w_VERTEX_BOSONIC_size w1_ind nu_ind))
    * G (0, 0, 0, 0, (p1_ind : Int), (w1_ind : Int))
    * G (0, 0, 0, 0, (p2_ind : Int), (w2_ind : Int))
    * G (0, 0, 0, 0, s.subtract p1_ind q_ind,
        subtract_freq_fb s.w_size s.w_VERTEX_BOSONIC_size w1_ind nu_ind)
    * G (0, 0, 0, 0, s.subtract p2_ind q_ind,
        subtract_freq_fb s.w_size s.w_VERTEX_BOSONIC_size w2_ind nu_ind)

/-- The sum over `w1_ind`, `p1_ind`, `w2_ind`, `p2_ind` of the products of `execute_4J`
that pass the range checks, for one pair (`nu_ind`, `q_ind`). -/
def sigma_perturbation.inner_4J {K : Type} [Field K] (s : sigma_perturbation K)
    (G : function_type K) (nu_ind q_ind : Nat) : K :=
  ((List.range s.w_size).map (fun (w1_ind : Nat) =>
    if subtract_freq_fb s.w_size s.w_VERTEX_BOSONIC_size w1_ind nu_ind < 0 ∨
        subtract_freq_fb s.w_size s.w_VERTEX_BOSONIC_size w1_ind nu_ind ≥ (s.w_size : Int)
    then 0
    else ((List.range s.k_size).map (fun (p1_ind : Nat) =>
      ((List.range s.w_size).map (fun (w2_ind : Nat) =>
        if subtract_freq_fb s.w_size s.w_VERTEX_BOSONIC_size w2_ind nu_ind < 0 ∨
            subtract_freq_fb s.w_size s.w_VERTEX_BOSONIC_size w2_ind nu_ind ≥ (s.w_size : Int)
        then 0
        else if subtract_freq_ff s.w_size s.w_VERTEX_BOSONIC_size w2_ind
              (subtract_freq_fb s.w_size s.w_VERTEX_BOSONIC_size w1_ind nu_ind) < 0 ∨
            subtract_freq_ff s.w_size s.w_VERTEX_BOSONIC_size w2_ind
              (subtract_freq_fb s.w_size s.w_VERTEX_BOSONIC_size w1_ind nu_ind) ≥
                (s.w_VERTEX_BOSONIC_size : Int)
        then 0
        else ((List.range s.k_size).map (fun (p2_ind : Nat) =>
          s.term_4J G nu_ind q_ind w1_ind p1_ind w2_ind p2_ind)).sum)).sum)).sum)).sum

/-- The sum over `w_ind`, `k_ind` of the factors `G(0,0, 0,0, q_minus_k, nu_minus_w)` that
pass the range check and go to the entry `i`, for one pair (`nu_ind`, `q_ind`). -/
def sigma_perturbation.outer_4J {K : Type} [Field K] (s : sigma_perturbation K)
    (G : function_type K) (nu_ind q_ind : Nat) (i : Int × Int × Int × Int × Int × Int) : K :=
  ((List.range s.w_size).map (fun (w_ind : Nat) =>
    if subtract_freq_fb s.w_size s.w_VERTEX_BOSONIC_size w_ind nu_ind < 0 ∨
        subtract_freq_fb s.w_size s.w_VERTEX_BOSONIC_size w_ind nu_ind ≥ (s.w_size : Int)
    then 0
    else ((List.range s.k_size).map (fun (k_ind : Nat) =>
      if i = (0, 0, 0, 0, (k_ind : Int), (w_ind : Int)) then
        G (0, 0, 0, 0, s.subtract k_ind q_ind,
          subtract_freq_fb s.w_size s.w_VERTEX_BOSONIC_size w_ind nu_ind)
      else 0)).sum)).sum

/-- The direct sum of diagram 4J at the entry `i`, before the copy to the other spin and
the prefactor. -/
def sigma_perturbation.direct_4J {K : Type} [Field K] (s : sigma_perturbation K)
    (G : function_type K) (i : Int × Int × Int × Int × Int × Int) : K :=
  ((List.range s.w_VERTEX_BOSONIC_size).map (fun (nu_ind : Nat) =>
    ((List.range s.k_size).map (fun (q_ind : Nat) =>
      s.inner_4J G nu_ind q_ind * s.outer_4J G nu_ind q_ind i)).sum)).sum

/-- A perturbation object on two momenta, two fermionic and one bosonic frequency, with
rational scalars. -/
def sampleSigma : sigma_perturbation ℚ :=
  { beta := 1
    k_size := 2
    w_size := 2
    w_VERTEX_BOSONIC_size := 1
    subtract := fun a b => (b - a) % 2
    U := fun _ _ _ _ => 2
    chi := fun i => (i.2.2.2.2.1 : ℚ) + 1
    phi := fun _ => 0
    Sigma := fun _ => 5
    Sigma_4A := fun _ => 0
    Sigma_4C := fun _ => 0
    Sigma_4D := fun _ => 0
    Sigma_4E := fun _ => 0
    Sigma_4F := fun _ => 0
    Sigma_4G := fun _ => 0
    Sigma_4H := fun _ => 0
    Sigma_4J := fun _ => 7
    Sigma_4K := fun _ => 0
    Sigma_4L := fun _ => 0 }

/-- A Green function for the sample object. -/
def sampleG : function_type ℚ :=
  fun i => (i.2.2.2.2.1 : ℚ) + 2 * (i.2.2.2.2.2 : ℚ) + 1

/-! ## Loops of accumulate -/

theorem foldl_nested_eq_foldl_pairs {σ : Type} (f : Nat → Nat → σ → σ) (l1 l2 : List Nat)
    (st : σ) :
    l1.foldl (fun st j => l2.foldl (fun st i => f j i st) st) st =
      (l1.flatMap (fun j => l2.map (fun i => (j, i)))).foldl (fun st p => f p.1 p.2 st) st := by
  induction l1 generalizing st with
  | nil => rfl
  | cons j l1 ih =>
    simp only [List.foldl_cons, List.flatMap_cons, List.foldl_append, List.foldl_map]
    exact ih _

theorem accumulateEntry_cached (P : Parameters) (flag : Bool) (M : Matrix)
    (config : Configuration) (sign : Int) (s : Fin 2) (j i : Nat) (st : Binners) :
    (SpAccumulator.accumulateEntry P flag M config sign s j i st).cached =
      Function.update st.cached s
        (Dnfft1D.accumulateList P (st.cached s) [contribution P M config sign i j]) := by
  simp only [SpAccumulator.accumulateEntry, contribution, Dnfft1D.accumulateList,
    List.foldl_cons, List.foldl_nil, mul_one_div]

theorem accumulateEntry_single (P : Parameters) (flag : Bool) (M : Matrix)
    (config : Configuration) (sign : Int) (s : Fin 2) (j i : Nat) (st : Binners) :
    (SpAccumulator.accumulateEntry P flag M config sign s j i st).single =
      Function.update st.single s
        (Dnfft1D.accumulateList P (st.single s) [contribution P M config sign i j]) := by
  simp only [SpAccumulator.accumulateEntry, contribution, Dnfft1D.accumulateList,
    List.foldl_cons, List.foldl_nil, mul_one_div]

theorem accumulateEntry_cached_sqr (P : Parameters) (M : Matrix)
    (config : Configuration) (sign : Int) (s : Fin 2) (j i : Nat) (st : Binners) :
    (SpAccumulator.accumulateEntry P true M config sign s j i st).cached_sqr =
      Function.update st.cached_sqr s
        (Dnfft1D.accumulateList P (st.cached_sqr s) [contributionSqr P M config sign i j]) := by
  simp only [SpAccumulator.accumulateEntry, contribution, contributionSqr,
    Dnfft1D.accumulateList, List.foldl_cons, List.foldl_nil, mul_one_div, if_true]

theorem accumulateList_append (P : Parameters) (b : Dnfft1D) (l1 l2 : List (Int × ℚ × ℚ)) :
    Dnfft1D.accumulateList P b (l1 ++ l2) =
      Dnfft1D.accumulateList P (Dnfft1D.accumulateList P b l1) l2 := by
  simp only [Dnfft1D.accumulateList, List.foldl_append]

/-- A fold of loop bodies each of which sends a list of contributions to component `s` of
one binner pair sends the concatenated list to that component. -/
theorem foldl_update_accumulateList {κ : Type} (P : Parameters) (s : Fin 2)
    (proj : Binners → NfftPair) (body : κ → Binners → Binners) (c : κ → List (Int × ℚ × ℚ))
    (hbody : ∀ k st, proj (body k st) =
      Function.update (proj st) s (Dnfft1D.accumulateList P (proj st s) (c k)))
    (L : List κ) (st : Binners) :
    proj (L.foldl (fun st k => body k st) st) =
      Function.update (proj st) s (Dnfft1D.accumulateList P (proj st s) (L.flatMap c)) := by
  induction L generalizing st with
  | nil => simp [Dnfft1D.accumulateList]
  | cons k L ih =>
    rw [List.foldl_cons, ih, hbody, List.flatMap_cons, accumulateList_append]
    simp only [Function.update_idem, Function.update_same]

theorem row_flatMap_contribution (f : Nat → Nat → Int × ℚ × ℚ) (j : Nat) (l2 : List Nat) :
    (l2.map (fun i => (j, i))).flatMap (fun p => [f p.2 p.1]) = l2.map (fun i => f i j) := by
  induction l2 with
  | nil => rfl
  | cons i l2 ih2 => simp only [List.map_cons, List.flatMap_cons, ih2, List.singleton_append]

theorem pairs_flatMap_contribution (f : Nat → Nat → Int × ℚ × ℚ) (l1 l2 : List Nat) :
    (l1.flatMap (fun j => l2.map (fun i => (j, i)))).flatMap (fun p => [f p.2 p.1]) =
      l1.flatMap (fun j => l2.map (fun i => f i j)) := by
  induction l1 with
  | nil => rfl
  | cons j l1 ih =>
    simp only [List.flatMap_cons, List.flatMap_append, ih, row_flatMap_contribution]

theorem accumulateChannel_cached (P : Parameters) (flag : Bool) (M : Matrix)
    (config : Configuration) (sign : Int) (s : Fin 2) (st : Binners) :
    (SpAccumulator.accumulateChannel P flag M config sign s st).cached =
      Function.update st.cached s
        (Dnfft1D.accumulateList P (st.cached s) (contributions P M config sign)) := by
  unfold SpAccumulator.accumulateChannel
  rw [foldl_nested_eq_foldl_pairs
    (fun j i st => SpAccumulator.accumulateEntry P flag M config sign s j i st)]
  refine (foldl_update_accumulateList P s Binners.cached
    (fun (p : Nat × Nat) st => SpAccumulator.accumulateEntry P flag M config sign s p.1 p.2 st)
    (fun p => [contribution P M config sign p.2 p.1])
    (fun p st => accumulateEntry_cached P flag M config sign s p.1 p.2 st) _ _).trans ?_
  rw [pairs_flatMap_contribution (fun i j => contribution P M config sign i j)]
  rfl

theorem accumulateChannel_single (P : Parameters) (flag : Bool) (M : Matrix)
    (config : Configuration) (sign : Int) (s : Fin 2) (st : Binners) :
    (SpAccumulator.accumulateChannel P flag M config sign s st).single =
      Function.update st.single s
        (Dnfft1D.accumulateList P (st.single s) (contributions P M config sign)) := by
  unfold SpAccumulator.accumulateChannel
  rw [foldl_nested_eq_foldl_pairs
    (fun j i st => SpAccumulator.accumulateEntry P flag M config sign s j i st)]
  refine (foldl_update_accumulateList P s Binners.single
    (fun (p : Nat × Nat) st => SpAccumulator.accumulateEntry P flag M config sign s p.1 p.2 st)
    (fun p => [contribution P M config sign p.2 p.1])
    (fun p st => accumulateEntry_single P flag M config sign s p.1 p.2 st) _ _).trans ?_
  rw [pairs_flatMap_contribution (fun i j => contribution P M config sign i j)]
  rfl

theorem accumulateChannel_cached_sqr (P : Parameters) (M : Matrix)
    (config : Configuration) (sign : Int) (s : Fin 2) (st : Binners) :
    (SpAccumulator.accumulateChannel P true M config sign s st).cached_sqr =
      Function.update st.cached_sqr s
        (Dnfft1D.accumulateList P (st.cached_sqr s) (contributionsSqr P M config sign)) := by
  unfold SpAccumulator.accumulateChannel
  rw [foldl_nested_eq_foldl_pairs
    (fun j i st => SpAccumulator.accumulateEntry P true M config sign s j i st)]
  refine (foldl_update_accumulateList P s Binners.cached_sqr
    (fun (p : Nat × Nat) st => SpAccumulator.accumulateEntry P true M config sign s p.1 p.2 st)
    (fun p => [contributionSqr P M config sign p.2 p.1])
    (fun p st => accumulateEntry_cached_sqr P M config sign s p.1 p.2 st) _ _).trans ?_
  rw [pairs_flatMap_contribution (fun i j => contributionSqr P M config sign i j)]
  rfl

theorem finRange_two : List.finRange 2 = [0, 1] := rfl

theorem accumulateLoops_cached (P : Parameters) (flag : Bool) (Ms : Fin 2 → Matrix)
    (configs : Fin 2 → Configuration) (sign : Int) (st : Binners) (s : Fin 2) :
    (SpAccumulator.accumulateLoops P flag Ms configs sign st).cached s =
      Dnfft1D.accumulateList P (st.cached s) (contributions P (Ms s) (configs s) sign) := by
  simp only [SpAccumulator.accumulateLoops, finRange_two, List.foldl_cons, List.foldl_nil,
    accumulateChannel_cached]
  fin_cases s <;> simp [Function.update]

theorem accumulateLoops_single (P : Parameters) (flag : Bool) (Ms : Fin 2 → Matrix)
    (configs : Fin 2 → Configuration) (sign : Int) (st : Binners) (s : Fin 2) :
    (SpAccumulator.accumulateLoops P flag Ms configs sign st).single s =
      Dnfft1D.accumulateList P (st.single s) (contributions P (Ms s) (configs s) sign) := by
  simp only [SpAccumulator.accumulateLoops, finRange_two, List.foldl_cons, List.foldl_nil,
    accumulateChannel_single]
  fin_cases s <;> simp [Function.update]

theorem accumulateLoops_cached_sqr (P : Parameters) (Ms : Fin 2 → Matrix)
    (configs : Fin 2 → Configuration) (sign : Int) (st : Binners) (s : Fin 2) :
    (SpAccumulator.accumulateLoops P true Ms configs sign st).cached_sqr s =
      Dnfft1D.accumulateList P (st.cached_sqr s)
        (contributionsSqr P (Ms s) (configs s) sign) := by
  simp only [SpAccumulator.accumulateLoops, finRange_two, List.foldl_cons, List.foldl_nil,
    accumulateChannel_cached_sqr]
  fin_cases s <;> simp [Function.update]

theorem accumulateList_apply (P : Parameters) (b : Dnfft1D) (cs : List (Int × ℚ × ℚ))
    (p g : Int) :
    Dnfft1D.accumulateList P b cs p g = b p g + (cs.map (fun c => binValue P c p g)).sum := by
  induction cs generalizing b with
  | nil => simp [Dnfft1D.accumulateList]
  | cons c cs ih =>
    have h := ih (Dnfft1D.accumulate P b c.1 c.2.1 c.2.2)
    simp only [Dnfft1D.accumulateList, List.foldl_cons] at h ⊢
    rw [h, List.map_cons, List.sum_cons]
    by_cases hp : p = c.1 <;> simp [Dnfft1D.accumulate, binValue, hp, add_assoc]

theorem sum_map_range_eq_finset_sum (f : Nat → ℚ) (n : Nat) :
    ((List.range n).map f).sum = ∑ i in Finset.range n, f i := by
  induction n with
  | zero => simp
  | succ n ih => rw [List.sum_range_succ, Finset.sum_range_succ, ih]

theorem sum_map_flatMap_lists (f : Nat → Nat → ℚ) (h : Int × ℚ × ℚ → ℚ)
    (c : Nat → Nat → Int × ℚ × ℚ) (hc : ∀ i j, h (c i j) = f i j) (l1 l2 : List Nat) :
    ((l1.flatMap (fun j => l2.map (fun i => c i j))).map h).sum =
      (l1.map (fun j => (l2.map (fun i => f i j)).sum)).sum := by
  induction l1 with
  | nil => simp
  | cons j l1 ih =>
    simp only [List.flatMap_cons, List.map_append, List.sum_append, ih, List.map_cons,
      List.sum_cons, List.map_map]
    congr 2
    apply List.map_congr_left
    intro i _
    exact hc i j

theorem sum_map_flatMap (f : Nat → Nat → ℚ) (h : Int × ℚ × ℚ → ℚ) (c : Nat → Nat → Int × ℚ × ℚ)
    (hc : ∀ i j, h (c i j) = f i j) (n : Nat) :
    (((List.range n).flatMap (fun j => (List.range n).map (fun i => c i j))).map h).sum =
      ∑ i in Finset.range n, ∑ j in Finset.range n, f i j := by
  rw [Finset.sum_comm, sum_map_flatMap_lists f h c hc]
  simp only [sum_map_range_eq_finset_sum]

theorem length_flatMap_map {β : Type} (c : Nat → Nat → β) (l1 l2 : List Nat) :
    (l1.flatMap (fun j => l2.map (fun i => c i j))).length = l1.length * l2.length := by
  induction l1 with
  | nil => simp
  | cons j l1 ih =>
    simp only [List.flatMap_cons, List.length_append, List.length_map, ih, List.length_cons]
    ring

theorem contributions_length (P : Parameters) (M : Matrix) (config : Configuration)
    (sign : Int) : (contributions P M config sign).length = config.length ^ 2 := by
  unfold contributions
  rw [length_flatMap_map, List.length_range, pow_two]

theorem contributionsSqr_length (P : Parameters) (M : Matrix) (config : Configuration)
    (sign : Int) : (contributionsSqr P M config sign).length = config.length ^ 2 := by
  unfold contributionsSqr
  rw [length_flatMap_map, List.length_range, pow_two]

/-! ## The protocol invariant -/

theorem WellFormed_construct (accumulate_m_sqr : Bool) :
    (SpAccumulator.construct accumulate_m_sqr).WellFormed := by
  simp [SpAccumulator.WellFormed, SpAccumulator.construct]

theorem WellFormed_resetAccumulation (a : SpAccumulator) : a.resetAccumulation.WellFormed := by
  cases h : a.accumulate_m_sqr_ <;>
    simp [SpAccumulator.WellFormed, SpAccumulator.resetAccumulation, h]

theorem WellFormed_accumulate (P : Parameters) (a a' : SpAccumulator) (Ms : Fin 2 → Matrix)
    (configs : Fin 2 → Configuration) (sign : Int) (hw : a.WellFormed)
    (h : SpAccumulator.accumulate P a Ms configs sign = Except.ok a') : a'.WellFormed := by
  rcases a with ⟨init, fin, flag, M, Msq, sM, c, cs, sg⟩
  cases init <;> cases fin <;> cases flag <;> cases c <;> cases cs <;> cases sg <;>
    simp [SpAccumulator.accumulate, SpAccumulator.WellFormed] at h hw ⊢ <;>
    subst h <;> simp

theorem WellFormed_finalize (P : Parameters) (a a' : SpAccumulator) (hw : a.WellFormed)
    (h : SpAccumulator.finalize P a = Except.ok a') : a'.WellFormed := by
  rcases a with ⟨init, fin, flag, M, Msq, sM, c, cs, sg⟩
  cases init <;> cases fin <;> cases flag <;> cases c <;> cases cs <;>
    simp [SpAccumulator.finalize, SpAccumulator.WellFormed] at h hw ⊢ <;>
    subst h <;> simp_all

theorem WellFormed_sumTo (src src' a a' : SpAccumulator) (hw : a.WellFormed)
    (h : SpAccumulator.sumTo src a = Except.ok (src', a')) : a'.WellFormed := by
  rcases a with ⟨init, fin, flag, M, Msq, sM, c, cs, sg⟩
  rcases src with ⟨init2, fin2, flag2, M2, Msq2, sM2, c2, cs2, sg2⟩
  cases flag2 <;> cases c2 <;> cases cs2 <;> cases cs <;>
    simp [SpAccumulator.sumTo, SpAccumulator.WellFormed] at h hw ⊢ <;>
    obtain ⟨-, h⟩ := h <;> subst h <;> simp_all

theorem WellFormed_get_single_measurement (P : Parameters) (a a' : SpAccumulator)
    (f : MFunction) (hw : a.WellFormed)
    (h : SpAccumulator.get_single_measurement_sign_times_M_r_w P a = Except.ok (a', f)) :
    a'.WellFormed := by
  rcases a with ⟨init, fin, flag, M, Msq, sM, c, cs, sg⟩
  cases sg <;>
    simp [SpAccumulator.get_single_measurement_sign_times_M_r_w, SpAccumulator.WellFormed]
      at h hw ⊢
  obtain ⟨h, -⟩ := h
  subst h
  simpa using hw

/-- Every state the public interface can produce satisfies the pointer invariant. -/
theorem SpAccumulator.Reachable.wellFormed {P : Parameters} {r : Bool} {a : SpAccumulator}
    (h : SpAccumulator.Reachable P r a) : a.WellFormed := by
  induction h with
  | construct sq => exact WellFormed_construct sq
  | resetAccumulation _ _ => exact WellFormed_resetAccumulation _
  | accumulate Ms configs sign _ he ih => exact WellFormed_accumulate P _ _ Ms configs sign ih he
  | finalize _ he ih => exact WellFormed_finalize P _ _ ih he
  | sumTo_other src src' _ he ih => exact WellFormed_sumTo src src' _ _ ih he
  | get_single_measurement f _ he ih => exact WellFormed_get_single_measurement P _ _ f ih he

/-! ## Closed form of accumulate -/

/-- In a well-formed initialized state `accumulate` succeeds, and its result is given by
the lists of contributions of the two channels. -/
theorem accumulate_eq (P : Parameters) (a : SpAccumulator) (Ms : Fin 2 → Matrix)
    (configs : Fin 2 → Configuration) (sign : Int) (hw : a.WellFormed)
    (hi : a.initialized_ = true) :
    ∃ main single, a.cached_nfft_obj_ = some main ∧ a.single_measurement_M_r_t_ = some single ∧
      SpAccumulator.accumulate P a Ms configs sign = Except.ok
        { a with
          cached_nfft_obj_ := some (fun s =>
            Dnfft1D.accumulateList P (main s) (contributions P (Ms s) (configs s) sign))
          cached_nfft_sqr_obj_ :=
            if a.accumulate_m_sqr_ then
              a.cached_nfft_sqr_obj_.map (fun sqr s =>
                Dnfft1D.accumulateList P (sqr s) (contributionsSqr P (Ms s) (configs s) sign))
            else a.cached_nfft_sqr_obj_
          single_measurement_M_r_t_ := some (fun s =>
            Dnfft1D.accumulateList P Dnfft1D.resetAccumulation
              (contributions P (Ms s) (configs s) sign)) } := by
  rcases a with ⟨init, fin, flag, M, Msq, sM, c, cs, sg⟩
  simp only at hi
  subst hi
  obtain ⟨h1, h2, -⟩ := hw
  simp only [forall_true_left] at h1 h2
  obtain ⟨hc, hsg⟩ := h1
  obtain ⟨main, rfl⟩ := Option.isSome_iff_exists.mp hc
  obtain ⟨single, rfl⟩ := Option.isSome_iff_exists.mp hsg
  refine ⟨main, single, rfl, rfl, ?_⟩
  cases flag with
  | false =>
    simp only [SpAccumulator.accumulate, Bool.not_true, Bool.false_eq_true, if_false]
    congr 2
    · congr 1
      funext s
      rw [accumulateLoops_cached]
    · congr 1
      funext s
      rw [accumulateLoops_single]
      fin_cases s <;> simp [Function.update]
  | true =>
    obtain ⟨sqr, rfl⟩ := Option.isSome_iff_exists.mp (h2 rfl)
    simp only [SpAccumulator.accumulate, Bool.not_true, Bool.false_eq_true, if_false, if_true,
      Option.map_some']
    congr 2
    · congr 1
      funext s
      rw [accumulateLoops_cached]
    · congr 1
      funext s
      rw [accumulateLoops_cached_sqr]
    · congr 1
      funext s
      rw [accumulateLoops_single]
      fin_cases s <;> simp [Function.update]

/-! ## Closed forms of sumTo, finalize and of a sequence of measurements -/

theorem sumToLoop_true (c cs o os : NfftPair) :
    SpAccumulator.sumToLoop true c cs (o, os) =
      (fun s => Dnfft1D.add (o s) (c s), fun s => Dnfft1D.add (os s) (cs s)) := by
  simp only [SpAccumulator.sumToLoop, finRange_two, List.foldl_cons, List.foldl_nil, if_true]
  refine Prod.ext ?_ ?_ <;> funext s <;> fin_cases s <;> simp [Function.update]

theorem sumToLoop_false (c cs o os : NfftPair) :
    SpAccumulator.sumToLoop false c cs (o, os) = (fun s => Dnfft1D.add (o s) (c s), os) := by
  simp only [SpAccumulator.sumToLoop, finRange_two, List.foldl_cons, List.foldl_nil,
    Bool.false_eq_true, if_false]
  refine Prod.ext ?_ rfl
  funext s
  fin_cases s <;> simp [Function.update]

/-- A source that owns its binners merges into any target: the main binners are added to
those of the target (a fresh pair if the target has none), and so are the squared binners
if the source accumulates M squared. -/
theorem sumTo_eq (self other : SpAccumulator) (c : NfftPair)
    (hc : self.cached_nfft_obj_ = some c)
    (hs : self.accumulate_m_sqr_ = true → self.cached_nfft_sqr_obj_.isSome = true) :
    SpAccumulator.sumTo self other = Except.ok (self,
      { other with
        cached_nfft_obj_ := some (fun s =>
          Dnfft1D.add ((other.cached_nfft_obj_.getD NfftPair.new) s) (c s))
        cached_nfft_sqr_obj_ :=
          if self.accumulate_m_sqr_ then
            self.cached_nfft_sqr_obj_.map (fun cs s =>
              Dnfft1D.add ((other.cached_nfft_sqr_obj_.getD NfftPair.new) s) (cs s))
          else other.cached_nfft_sqr_obj_ }) := by
  rcases self with ⟨init, fin, flag, M, Msq, sM, c', cs, sg⟩
  simp only at hc hs
  subst hc
  cases flag with
  | false =>
    simp only [SpAccumulator.sumTo, sumToLoop_false, Bool.and_false, Bool.false_eq_true,
      if_false]
  | true =>
    obtain ⟨sqr, rfl⟩ := Option.isSome_iff_exists.mp (hs rfl)
    cases ho : other.cached_nfft_sqr_obj_ <;>
      simp [SpAccumulator.sumTo, sumToLoop_true, ho]

/-- The effect of `sumTo` on the target, field by field. -/
theorem sumTo_spec (self other : SpAccumulator) (c : NfftPair)
    (hc : self.cached_nfft_obj_ = some c)
    (hs : self.accumulate_m_sqr_ = true → self.cached_nfft_sqr_obj_.isSome = true) :
    ∃ other', SpAccumulator.sumTo self other = Except.ok (self, other') ∧
      other'.cached_nfft_obj_ = some (fun s =>
        Dnfft1D.add ((other.cached_nfft_obj_.getD NfftPair.new) s) (c s)) ∧
      other'.cached_nfft_sqr_obj_ =
        (if self.accumulate_m_sqr_ then
          self.cached_nfft_sqr_obj_.map (fun cs s =>
            Dnfft1D.add ((other.cached_nfft_sqr_obj_.getD NfftPair.new) s) (cs s))
        else other.cached_nfft_sqr_obj_) ∧
      other'.initialized_ = other.initialized_ ∧ other'.finalized_ = other.finalized_ ∧
      other'.accumulate_m_sqr_ = other.accumulate_m_sqr_ ∧
      other'.M_r_w_ = other.M_r_w_ ∧ other'.M_r_w_sqr_ = other.M_r_w_sqr_ ∧
      other'.single_measurement_M_r_w_ = other.single_measurement_M_r_w_ ∧
      other'.single_measurement_M_r_t_ = other.single_measurement_M_r_t_ :=
  ⟨_, sumTo_eq self other c hc hs, rfl, rfl, rfl, rfl, rfl, rfl, rfl, rfl, rfl⟩

/-- A finalize call that finds the accumulator not finalized and its binners allocated
succeeds, and stores the normalized transforms. -/
theorem finalize_eq (P : Parameters) (a : SpAccumulator) (c : NfftPair)
    (hf : a.finalized_ = false) (hc : a.cached_nfft_obj_ = some c)
    (hs : a.accumulate_m_sqr_ = true → a.cached_nfft_sqr_obj_.isSome = true) :
    SpAccumulator.finalize P a = Except.ok
      { a with
        M_r_w_ := some (SpAccumulator.finalizeFunction P c MFunction.new)
        M_r_w_sqr_ :=
          if a.accumulate_m_sqr_ then
            a.cached_nfft_sqr_obj_.map (fun cs =>
              SpAccumulator.finalizeFunction P cs MFunction.new)
          else a.M_r_w_sqr_
        finalized_ := true
        initialized_ := false } := by
  rcases a with ⟨init, fin, flag, M, Msq, sM, c', cs, sg⟩
  simp only at hf hc hs
  subst hf hc
  cases flag with
  | false => simp [SpAccumulator.finalize]
  | true =>
    obtain ⟨sqr, rfl⟩ := Option.isSome_iff_exists.mp (hs rfl)
    simp [SpAccumulator.finalize]

/-- A sequence of measurements taken in a well-formed initialized state succeeds; the main
and squared binners receive the contributions of all measurements in turn. -/
theorem accumulateAll_eq (P : Parameters) (ms : List Measurement) (a : SpAccumulator)
    (main : NfftPair) (hw : a.WellFormed) (hi : a.initialized_ = true)
    (hm : a.cached_nfft_obj_ = some main) :
    ∃ a', SpAccumulator.accumulateAll P a ms = Except.ok a' ∧
      a'.WellFormed ∧ a'.initialized_ = true ∧ a'.finalized_ = a.finalized_ ∧
      a'.accumulate_m_sqr_ = a.accumulate_m_sqr_ ∧ a'.M_r_w_sqr_ = a.M_r_w_sqr_ ∧
      a'.cached_nfft_obj_ = some (fun s => Dnfft1D.accumulateList P (main s)
        (ms.flatMap (fun m => contributions P (m.Ms s) (m.configs s) m.sign))) ∧
      a'.cached_nfft_sqr_obj_ =
        if a.accumulate_m_sqr_ then
          a.cached_nfft_sqr_obj_.map (fun sqr s => Dnfft1D.accumulateList P (sqr s)
            (ms.flatMap (fun m => contributionsSqr P (m.Ms s) (m.configs s) m.sign)))
        else a.cached_nfft_sqr_obj_ := by
  induction ms generalizing a main with
  | nil =>
    refine ⟨a, rfl, hw, hi, rfl, rfl, rfl, ?_, ?_⟩
    · simpa [Dnfft1D.accumulateList] using hm
    · cases a.accumulate_m_sqr_ <;> cases a.cached_nfft_sqr_obj_ <;>
        simp [Dnfft1D.accumulateList]
  | cons m ms ih =>
    obtain ⟨main0, single, hm0, -, he⟩ := accumulate_eq P a m.Ms m.configs m.sign hw hi
    have hmm : main0 = main := Option.some.inj (hm0.symm.trans hm)
    subst hmm
    have hw1 := WellFormed_accumulate P a _ m.Ms m.configs m.sign hw he
    obtain ⟨a', h1, h2, h3, h4, h5, h8, h6, h7⟩ := ih _ _ hw1 hi rfl
    refine ⟨a', ?_, h2, h3, h4, h5, h8, ?_, ?_⟩
    · simp only [SpAccumulator.accumulateAll, he]
      exact h1
    · rw [h6]
      simp only [List.flatMap_cons, accumulateList_append]
    · rw [h7]
      cases hfl : a.accumulate_m_sqr_ <;> cases hsq : a.cached_nfft_sqr_obj_ <;>
        simp [List.flatMap_cons, accumulateList_append]

theorem sum_contributions_partition (h : Int × ℚ × ℚ → ℚ) (c : Measurement → List (Int × ℚ × ℚ))
    (ms : List (Bool × Measurement)) :
    ((((ms.filter (fun x => x.1)).map Prod.snd).flatMap c).map h).sum +
        ((((ms.filter (fun x => !x.1)).map Prod.snd).flatMap c).map h).sum =
      (((ms.map Prod.snd).flatMap c).map h).sum := by
  induction ms with
  | nil => simp
  | cons x ms ih =>
    obtain ⟨b, m⟩ := x
    cases b <;>
      simp only [List.filter_cons, Bool.false_eq_true, if_false, if_true, Bool.not_false,
        Bool.not_true, List.map_cons, List.flatMap_cons, List.map_append, List.sum_append] <;>
      linarith [ih]

/-- Merging the binners of the two groups of a partition into a fresh binner gives the
binner of the whole sequence. -/
theorem accumulateList_partition (P : Parameters) (c : Measurement → List (Int × ℚ × ℚ))
    (ms : List (Bool × Measurement)) :
    Dnfft1D.add
        (Dnfft1D.add Dnfft1D.resetAccumulation
          (Dnfft1D.accumulateList P Dnfft1D.resetAccumulation
            (((ms.filter (fun x => x.1)).map Prod.snd).flatMap c)))
        (Dnfft1D.accumulateList P Dnfft1D.resetAccumulation
          (((ms.filter (fun x => !x.1)).map Prod.snd).flatMap c)) =
      Dnfft1D.accumulateList P Dnfft1D.resetAccumulation ((ms.map Prod.snd).flatMap c) := by
  funext p g
  simp only [Dnfft1D.add, accumulateList_apply, Dnfft1D.resetAccumulation]
  have h := sum_contributions_partition (fun c => binValue P c p g) c ms
  linarith [h]

/-! ## C1 -/

/-- C1: in the Accumulating state one call of `accumulate` succeeds and sends to the main
binner of channel `s` exactly the contributions of the ordered pairs (i, j) with i, j below
`configs[s].size()`: weight `sign * Ms[s](i, j)` at bin
`bbr(right_band(i), left_band(j), subtract(left_site(j), right_site(i)))` and scaled time
`(tau_i - tau_j) / (2 * beta)`. There are `configs[s].size()^2` of them, every bin value
grows by the sum of their shares, and nothing of the other channel enters. -/
theorem C1_accumulate_main_contributions (P : Parameters) (a : SpAccumulator)
    (Ms : Fin 2 → Matrix) (configs : Fin 2 → Configuration) (sign : Int) (r : Bool)
    (hr : SpAccumulator.Reachable P r a) (hi : a.initialized_ = true) :
    ∃ a' main main', a.cached_nfft_obj_ = some main ∧
      SpAccumulator.accumulate P a Ms configs sign = Except.ok a' ∧
      a'.cached_nfft_obj_ = some main' ∧
      ∀ s : Fin 2,
        main' s =
          Dnfft1D.accumulateList P (main s) (contributions P (Ms s) (configs s) sign) ∧
        (contributions P (Ms s) (configs s) sign).length = (configs s).length ^ 2 ∧
        ∀ p g : Int, main' s p g = main s p g +
          ∑ i in Finset.range (configs s).length, ∑ j in Finset.range (configs s).length,
            if p = P.bbr_dmn ((configs s).getD i default).right_band
                ((configs s).getD j default).left_band
                (P.subtract ((configs s).getD j default).left_site
                  ((configs s).getD i default).right_site) then
              Dnfft1D.weight P
                ((((configs s).getD i default).tau - ((configs s).getD j default).tau) /
                  (2 * P.beta)) g * ((sign : ℚ) * Ms s i j)
            else 0 := by
  obtain ⟨main, single, hm, -, he⟩ := accumulate_eq P a Ms configs sign hr.wellFormed hi
  refine ⟨_, main, _, hm, he, rfl, fun s => ⟨rfl, contributions_length _ _ _ _, fun p g => ?_⟩⟩
  rw [accumulateList_apply]
  congr 1
  exact sum_map_flatMap _ (fun c => binValue P c p g)
    (fun i j => contribution P (Ms s) (configs s) sign i j) (fun i j => rfl) _

/-- C1 at the sample instance: the reset accumulator takes the sample measurement, whose
channel 0 makes four contributions. -/
theorem C1_accumulate_main_contributions_witness :
    SpAccumulator.Reachable sampleParameters true (sampleAccumulator false) ∧
      (sampleAccumulator false).initialized_ = true ∧
      ∃ a', SpAccumulator.accumulate sampleParameters (sampleAccumulator false)
          sampleMeasurement.Ms sampleMeasurement.configs sampleMeasurement.sign = Except.ok a' ∧
        (contributions sampleParameters (sampleMeasurement.Ms 0) (sampleMeasurement.configs 0)
          sampleMeasurement.sign).length = 2 ^ 2 :=
  ⟨SpAccumulator.Reachable.resetAccumulation (SpAccumulator.Reachable.construct false), rfl,
    match C1_accumulate_main_contributions sampleParameters (sampleAccumulator false)
      sampleMeasurement.Ms sampleMeasurement.configs sampleMeasurement.sign true
      (SpAccumulator.Reachable.resetAccumulation (SpAccumulator.Reachable.construct false))
      rfl with
    | ⟨a', _, _, _, h, _, hs⟩ => ⟨a', h, (hs 0).2.1⟩⟩

/-- A sequence of measurements taken by a freshly reset accumulator. -/
theorem accumulateAll_fresh (P : Parameters) (accumulate_m_sqr : Bool) (ms : List Measurement) :
    ∃ a', SpAccumulator.accumulateAll P
        (SpAccumulator.construct accumulate_m_sqr).resetAccumulation ms = Except.ok a' ∧
      a'.WellFormed ∧ a'.initialized_ = true ∧ a'.finalized_ = false ∧
      a'.accumulate_m_sqr_ = accumulate_m_sqr ∧ a'.M_r_w_sqr_ = none ∧
      a'.cached_nfft_obj_ = some (fun s => Dnfft1D.accumulateList P Dnfft1D.resetAccumulation
        (ms.flatMap (fun m => contributions P (m.Ms s) (m.configs s) m.sign))) ∧
      a'.cached_nfft_sqr_obj_ =
        if accumulate_m_sqr then
          some (fun s => Dnfft1D.accumulateList P Dnfft1D.resetAccumulation
            (ms.flatMap (fun m => contributionsSqr P (m.Ms s) (m.configs s) m.sign)))
        else none := by
  obtain ⟨a', h1, h2, h3, h4, h5, h6, h7, h8⟩ := accumulateAll_eq P ms
    (SpAccumulator.construct accumulate_m_sqr).resetAccumulation NfftPair.new
    (WellFormed_resetAccumulation _) rfl rfl
  refine ⟨a', h1, h2, h3, h4, h5, h6, h7, ?_⟩
  rw [h8]
  cases accumulate_m_sqr <;> rfl

/-! ## C3 -/

theorem add_add_comm_binner (t a b : Dnfft1D) :
    Dnfft1D.add (Dnfft1D.add t a) b = Dnfft1D.add (Dnfft1D.add t b) a := by
  funext p g
  simp only [Dnfft1D.add]
  ring

theorem add_add_assoc_binner (t a b : Dnfft1D) :
    Dnfft1D.add t (Dnfft1D.add b a) = Dnfft1D.add (Dnfft1D.add t a) b := by
  funext p g
  simp only [Dnfft1D.add]
  ring

/-- An initialized reachable accumulator owns its binners. -/
theorem accumulating_binners (a : SpAccumulator) (hw : a.WellFormed)
    (hi : a.initialized_ = true) :
    ∃ c, a.cached_nfft_obj_ = some c ∧
      (a.accumulate_m_sqr_ = true → ∃ cs, a.cached_nfft_sqr_obj_ = some cs) := by
  obtain ⟨c, hc⟩ := Option.isSome_iff_exists.mp (hw.1 hi).1
  exact ⟨c, hc, fun h => Option.isSome_iff_exists.mp (hw.2.1 hi h)⟩

theorem sumTo_commutes (A B T : SpAccumulator) (hA : A.WellFormed) (hAi : A.initialized_ = true)
    (hB : B.WellFormed) (hBi : B.initialized_ = true) : SpAccumulator.sumToCommutes A B T := by
  obtain ⟨a, ha, has⟩ := accumulating_binners A hA hAi
  obtain ⟨b, hb, hbs⟩ := accumulating_binners B hB hBi
  obtain ⟨T1, e1, c1, s1, -⟩ := sumTo_spec A T a ha (hA.2.1 hAi)
  obtain ⟨T2, e2, c2, s2, -⟩ := sumTo_spec B T1 b hb (hB.2.1 hBi)
  obtain ⟨U1, e3, c3, s3, -⟩ := sumTo_spec B T b hb (hB.2.1 hBi)
  obtain ⟨U2, e4, c4, s4, -⟩ := sumTo_spec A U1 a ha (hA.2.1 hAi)
  refine ⟨T1, T2, U1, U2, e1, e2, e3, e4, ?_, ?_⟩
  · rw [c2, c4, c1, c3]
    exact congrArg some (funext fun s => add_add_comm_binner _ _ _)
  · rw [s2, s4, s1, s3]
    cases hfa : A.accumulate_m_sqr_ <;> cases hfb : B.accumulate_m_sqr_
    · rfl
    · obtain ⟨bs, hbs'⟩ := hbs hfb
      simp [hbs']
    · obtain ⟨as, has'⟩ := has hfa
      simp [has']
    · obtain ⟨as, has'⟩ := has hfa
      obtain ⟨bs, hbs'⟩ := hbs hfb
      simp only [has', hbs', if_true, Option.map_some', Option.getD_some]
      exact congrArg some (funext fun s => add_add_comm_binner _ _ _)

theorem sumTo_reassociates (A B T : SpAccumulator) (hA : A.WellFormed)
    (hAi : A.initialized_ = true) (hB : B.WellFormed) (hBi : B.initialized_ = true)
    (hf : A.accumulate_m_sqr_ = true → B.accumulate_m_sqr_ = true) :
    SpAccumulator.sumToReassociates A B T := by
  obtain ⟨a, ha, has⟩ := accumulating_binners A hA hAi
  obtain ⟨b, hb, hbs⟩ := accumulating_binners B hB hBi
  obtain ⟨B', e1, c1, s1, -, -, f1, -⟩ := sumTo_spec A B a ha (hA.2.1 hAi)
  have hB's : B'.accumulate_m_sqr_ = true → B'.cached_nfft_sqr_obj_.isSome = true := by
    intro h
    rw [f1] at h
    obtain ⟨bs, hbs'⟩ := hbs h
    rw [s1, hbs']
    cases hfa : A.accumulate_m_sqr_
    · simp
    · obtain ⟨as, has'⟩ := has hfa
      simp [has']
  obtain ⟨T1, e2, c2, s2, -⟩ := sumTo_spec B' T _ c1 hB's
  obtain ⟨T2, e3, c3, s3, -⟩ := sumTo_spec A T a ha (hA.2.1 hAi)
  obtain ⟨T3, e4, c4, s4, -⟩ := sumTo_spec B T2 b hb (hB.2.1 hBi)
  refine ⟨B', T1, T2, T3, e1, e2, e3, e4, ?_, ?_⟩
  · rw [c2, c4, c3, hb]
    exact congrArg some (funext fun s => add_add_assoc_binner _ _ _)
  · rw [s2, s4, s3, s1, f1]
    cases hfa : A.accumulate_m_sqr_ <;> cases hfb : B.accumulate_m_sqr_
    · rfl
    · obtain ⟨bs, hbs'⟩ := hbs hfb
      simp [hbs']
    · exact absurd (hf hfa) (by simp [hfb])
    · obtain ⟨as, has'⟩ := has hfa
      obtain ⟨bs, hbs'⟩ := hbs hfb
      simp only [has', hbs', if_true, Option.map_some', Option.getD_some]
      exact congrArg some (funext fun s => add_add_assoc_binner _ _ _)

/-- The sample measurement taken by the reset sample accumulator with M squared enabled. -/
theorem sampleAccumulated_spec :
    SpAccumulator.accumulate sampleParameters (sampleAccumulator true) sampleMeasurement.Ms
        sampleMeasurement.configs sampleMeasurement.sign = Except.ok sampleAccumulated ∧
      sampleAccumulated.initialized_ = true ∧ sampleAccumulated.accumulate_m_sqr_ = true ∧
      sampleAccumulated.cached_nfft_sqr_obj_ = some (fun s =>
        Dnfft1D.accumulateList sampleParameters Dnfft1D.resetAccumulation
          (contributionsSqr sampleParameters (sampleMeasurement.Ms s)
            (sampleMeasurement.configs s) sampleMeasurement.sign)) := by
  obtain ⟨m, sg, -, -, he⟩ := accumulate_eq sampleParameters (sampleAccumulator true)
    sampleMeasurement.Ms sampleMeasurement.configs sampleMeasurement.sign
    (WellFormed_resetAccumulation _) rfl
  have key : ∀ R, SpAccumulator.accumulate sampleParameters (sampleAccumulator true)
      sampleMeasurement.Ms sampleMeasurement.configs sampleMeasurement.sign = Except.ok R →
      sampleAccumulated = R := by
    intro R hR
    unfold sampleAccumulated
    rw [hR]
  rw [key _ he]
  exact ⟨he, rfl, rfl, rfl⟩

/-- The squared binner of the sample accumulator holds -17 in bin 1 of channel 0 at grid
point 0. -/
theorem sample_squared_bin :
    Dnfft1D.accumulateList sampleParameters Dnfft1D.resetAccumulation
      (contributionsSqr sampleParameters (sampleMeasurement.Ms 0)
        (sampleMeasurement.configs 0) sampleMeasurement.sign) 1 0 = -17 := by
  rw [accumulateList_apply]
  norm_num [contributionsSqr, contributionSqr, contribution, binValue, Dnfft1D.weight,
    Dnfft1D.resetAccumulation, sampleParameters, sampleMeasurement, List.range_succ,
    List.flatMap]

/-! ## C2 -/

/-- The merge of a partition, for accumulators constructed with any flags: group 1 goes
into a freshly reset A (flag `fA`), group 2 into a freshly reset B (flag `fB`), both are
merged into a freshly reset S (flag `fS`), and the whole sequence goes into a freshly reset
W (flag `fW`). All calls succeed; the main binners of S are those of W; the squared binners
of S are what the merges under the flags of A and of B have put there. -/
theorem partition_merge_spec (P : Parameters) (fA fB fS fW : Bool)
    (ms : List (Bool × Measurement)) :
    ∃ A B S1 S2 W,
      SpAccumulator.accumulateAll P (SpAccumulator.construct fA).resetAccumulation
          ((ms.filter (fun x => x.1)).map Prod.snd) = Except.ok A ∧
      SpAccumulator.accumulateAll P (SpAccumulator.construct fB).resetAccumulation
          ((ms.filter (fun x => !x.1)).map Prod.snd) = Except.ok B ∧
      SpAccumulator.sumTo A (SpAccumulator.construct fS).resetAccumulation =
        Except.ok (A, S1) ∧
      SpAccumulator.sumTo B S1 = Except.ok (B, S2) ∧
      SpAccumulator.accumulateAll P (SpAccumulator.construct fW).resetAccumulation
          (ms.map Prod.snd) = Except.ok W ∧
      W.cached_nfft_obj_ = some (fun s => Dnfft1D.accumulateList P Dnfft1D.resetAccumulation
        ((ms.map Prod.snd).flatMap (fun m => contributions P (m.Ms s) (m.configs s) m.sign))) ∧
      S2.cached_nfft_obj_ = W.cached_nfft_obj_ ∧
      W.finalized_ = false ∧ W.accumulate_m_sqr_ = fW ∧ W.M_r_w_sqr_ = none ∧
      W.cached_nfft_sqr_obj_ =
        (if fW then
          some (fun s => Dnfft1D.accumulateList P Dnfft1D.resetAccumulation
            ((ms.map Prod.snd).flatMap
              (fun m => contributionsSqr P (m.Ms s) (m.configs s) m.sign)))
        else none) ∧
      S2.finalized_ = false ∧ S2.accumulate_m_sqr_ = fS ∧ S2.M_r_w_sqr_ = none ∧
      S2.cached_nfft_sqr_obj_ =
        (if fB then
          some (fun s => Dnfft1D.add
            (((if fA then
                some (fun s => Dnfft1D.add
                  (((if fS then some NfftPair.new else none).getD NfftPair.new) s)
                  (Dnfft1D.accumulateList P Dnfft1D.resetAccumulation
                    (((ms.filter (fun x => x.1)).map Prod.snd).flatMap
                      (fun m => contributionsSqr P (m.Ms s) (m.configs s) m.sign))))
              else (if fS then some NfftPair.new else none)).getD NfftPair.new) s)
            (Dnfft1D.accumulateList P Dnfft1D.resetAccumulation
              (((ms.filter (fun x => !x.1)).map Prod.snd).flatMap
                (fun m => contributionsSqr P (m.Ms s) (m.configs s) m.sign))))
        else
          (if fA then
            some (fun s => Dnfft1D.add
              (((if fS then some NfftPair.new else none).getD NfftPair.new) s)
              (Dnfft1D.accumulateList P Dnfft1D.resetAccumulation
                (((ms.filter (fun x => x.1)).map Prod.snd).flatMap
                  (fun m => contributionsSqr P (m.Ms s) (m.configs s) m.sign))))
          else (if fS then some NfftPair.new else none))) := by
  obtain ⟨A, hA, hAw, hAi, -, hAf, -, hAc, hAs⟩ := accumulateAll_fresh P fA
    ((ms.filter (fun x => x.1)).map Prod.snd)
  obtain ⟨B, hB, hBw, hBi, -, hBf, -, hBc, hBs⟩ := accumulateAll_fresh P fB
    ((ms.filter (fun x => !x.1)).map Prod.snd)
  obtain ⟨W, hW, hWw, hWi, hWn, hWf, hWm, hWc, hWs⟩ := accumulateAll_fresh P fW
    (ms.map Prod.snd)
  have hmain := fun s : Fin 2 => accumulateList_partition P
    (fun m => contributions P (m.Ms s) (m.configs s) m.sign) ms
  obtain ⟨S1, e1, s1c, s1s, -, s1f, s1a, -, s1m, -, -⟩ := sumTo_spec A
    (SpAccumulator.construct fS).resetAccumulation _ hAc (hAw.2.1 hAi)
  obtain ⟨S2, e2, s2c, s2s, -, s2f, s2a, -, s2m, -, -⟩ := sumTo_spec B S1 _ hBc (hBw.2.1 hBi)
  have h1 : S2.cached_nfft_obj_ = W.cached_nfft_obj_ := by
    rw [s2c, s1c, hWc]
    exact congrArg some (funext hmain)
  have hS0 : (SpAccumulator.construct fS).resetAccumulation.cached_nfft_sqr_obj_ =
      if fS then some NfftPair.new else none := by
    cases fS <;> rfl
  refine ⟨A, B, S1, S2, W, hA, hB, e1, e2, hW, hWc, h1, hWn, hWf, hWm, hWs,
    by rw [s2f, s1f]; rfl, by rw [s2a, s1a]; rfl, by rw [s2m, s1m]; rfl, ?_⟩
  rw [s2s, s1s, hBf, hBs, hAf, hAs, hS0]
  cases fA <;> cases fB <;> rfl

/-- C2, counterexample to the claim as stated: the sample measurement alone, put in
group 2. With A, S and W constructed with M squared and B without it, all calls succeed but
B's squares never reach S: bin 1 of channel 0 holds 0 at grid point 0 in the squared binner
of S and -17 in that of W. With A constructed with M squared and B, S and W without it, S
owns a squared binner after the merges and W owns none. -/
theorem C2_counterexample :
    (∃ A B S1 S2 W sqS sqW,
      SpAccumulator.accumulateAll sampleParameters
          (SpAccumulator.construct true).resetAccumulation
          (([(false, sampleMeasurement)].filter (fun x => x.1)).map Prod.snd) = Except.ok A ∧
      SpAccumulator.accumulateAll sampleParameters
          (SpAccumulator.construct false).resetAccumulation
          (([(false, sampleMeasurement)].filter (fun x => !x.1)).map Prod.snd) = Except.ok B ∧
      SpAccumulator.sumTo A (SpAccumulator.construct true).resetAccumulation =
        Except.ok (A, S1) ∧
      SpAccumulator.sumTo B S1 = Except.ok (B, S2) ∧
      SpAccumulator.accumulateAll sampleParameters
          (SpAccumulator.construct true).resetAccumulation
          ([(false, sampleMeasurement)].map Prod.snd) = Except.ok W ∧
      S2.cached_nfft_sqr_obj_ = some sqS ∧ W.cached_nfft_sqr_obj_ = some sqW ∧
      sqS 0 1 0 = 0 ∧ sqW 0 1 0 = -17 ∧
      S2.cached_nfft_sqr_obj_ ≠ W.cached_nfft_sqr_obj_) ∧
    (∃ A B S1 S2 W,
      SpAccumulator.accumulateAll sampleParameters
          (SpAccumulator.construct true).resetAccumulation
          (([(false, sampleMeasurement)].filter (fun x => x.1)).map Prod.snd) = Except.ok A ∧
      SpAccumulator.accumulateAll sampleParameters
          (SpAccumulator.construct false).resetAccumulation
          (([(false, sampleMeasurement)].filter (fun x => !x.1)).map Prod.snd) = Except.ok B ∧
      SpAccumulator.sumTo A (SpAccumulator.construct false).resetAccumulation =
        Except.ok (A, S1) ∧
      SpAccumulator.sumTo B S1 = Except.ok (B, S2) ∧
      SpAccumulator.accumulateAll sampleParameters
          (SpAccumulator.construct false).resetAccumulation
          ([(false, sampleMeasurement)].map Prod.snd) = Except.ok W ∧
      S2.cached_nfft_sqr_obj_.isSome = true ∧ W.cached_nfft_sqr_obj_ = none ∧
      S2.cached_nfft_sqr_obj_ ≠ W.cached_nfft_sqr_obj_) := by
  constructor
  · obtain ⟨A, B, S1, S2, W, hA, hB, e1, e2, hW, -, -, -, -, -, hWs, -, -, -, hSs⟩ :=
      partition_merge_spec sampleParameters true false true true [(false, sampleMeasurement)]
    simp only [if_true, Bool.false_eq_true, if_false, Option.getD_some] at hWs hSs
    have hS0 : (fun s => Dnfft1D.add (NfftPair.new s)
        (Dnfft1D.accumulateList sampleParameters Dnfft1D.resetAccumulation
          ((([(false, sampleMeasurement)].filter (fun x => x.1)).map Prod.snd).flatMap
            (fun m => contributionsSqr sampleParameters (m.Ms s) (m.configs s) m.sign))))
        0 1 0 = 0 := by
      norm_num [Dnfft1D.add, NfftPair.new, Dnfft1D.resetAccumulation, Dnfft1D.accumulateList]
    have hW0 : (fun s => Dnfft1D.accumulateList sampleParameters Dnfft1D.resetAccumulation
        (([(false, sampleMeasurement)].map Prod.snd).flatMap
          (fun m => contributionsSqr sampleParameters (m.Ms s) (m.configs s) m.sign)))
        0 1 0 = -17 := by
      have h := sample_squared_bin
      simpa [List.flatMap] using h
    refine ⟨A, B, S1, S2, W, _, _, hA, hB, e1, e2, hW, hSs, hWs, hS0, hW0, ?_⟩
    rw [hSs, hWs]
    intro h
    have h2 : (0 : ℚ) = -17 :=
      hS0.symm.trans ((congrFun (congrFun (congrFun (Option.some.inj h) 0) 1) 0).trans hW0)
    norm_num at h2
  · obtain ⟨A, B, S1, S2, W, hA, hB, e1, e2, hW, -, -, -, -, -, hWs, -, -, -, hSs⟩ :=
      partition_merge_spec sampleParameters true false false false
        [(false, sampleMeasurement)]
    simp only [if_true, Bool.false_eq_true, if_false] at hWs hSs
    refine ⟨A, B, S1, S2, W, hA, hB, e1, e2, hW, by rw [hSs]; rfl, hWs, ?_⟩
    rw [hSs, hWs]
    exact Option.some_ne_none _

/-- C2 (amended): for every measurement sequence and every partition of it into two groups
(each measurement is tagged with its group), and whatever `accumulate_m_squared` flags the
accumulators are constructed with: accumulating group 1 into a freshly reset A and group 2
into a freshly reset B and then calling `A.sumTo(S)` and `B.sumTo(S)` on a freshly reset S
leaves the main binners of S equal to those of one freshly reset accumulator W that
accumulated the whole sequence, and `finalize` then yields the same function `M_r_w` on S
and on W. The squared binners of S equal those of W when A, B and W are constructed with
the same flag and S with that flag or without M squared; the finalized squared functions
are equal when all four flags agree. -/
theorem C2_partition_merge_equals_whole (P : Parameters) (fA fB fS fW : Bool)
    (ms : List (Bool × Measurement)) :
    ∃ A B S1 S2 W FS FW main,
      SpAccumulator.accumulateAll P (SpAccumulator.construct fA).resetAccumulation
          ((ms.filter (fun x => x.1)).map Prod.snd) = Except.ok A ∧
      SpAccumulator.accumulateAll P (SpAccumulator.construct fB).resetAccumulation
          ((ms.filter (fun x => !x.1)).map Prod.snd) = Except.ok B ∧
      SpAccumulator.sumTo A (SpAccumulator.construct fS).resetAccumulation =
        Except.ok (A, S1) ∧
      SpAccumulator.sumTo B S1 = Except.ok (B, S2) ∧
      SpAccumulator.accumulateAll P (SpAccumulator.construct fW).resetAccumulation
          (ms.map Prod.snd) = Except.ok W ∧
      W.cached_nfft_obj_ = some main ∧
      S2.cached_nfft_obj_ = W.cached_nfft_obj_ ∧
      SpAccumulator.finalize P S2 = Except.ok FS ∧
      SpAccumulator.finalize P W = Except.ok FW ∧
      FS.M_r_w_ = FW.M_r_w_ ∧
      FW.M_r_w_ = some (SpAccumulator.finalizeFunction P main MFunction.new) ∧
      SpAccumulator.get_sign_times_M_r_w FS = SpAccumulator.get_sign_times_M_r_w FW ∧
      (fA = fW → fB = fW → (fS = true → fW = true) →
        S2.cached_nfft_sqr_obj_ = W.cached_nfft_sqr_obj_) ∧
      (fA = fW → fB = fW → fS = fW → FS.M_r_w_sqr_ = FW.M_r_w_sqr_) := by
  obtain ⟨A, B, S1, S2, W, hA, hB, e1, e2, hW, hWc, h1, hWn, hWf, hWm, hWs, hSn, hSf, hSm,
    hSs⟩ := partition_merge_spec P fA fB fS fW ms
  have hsqr := fun s : Fin 2 => accumulateList_partition P
    (fun m => contributionsSqr P (m.Ms s) (m.configs s) m.sign) ms
  have hWsome : W.accumulate_m_sqr_ = true → W.cached_nfft_sqr_obj_.isSome = true := by
    intro h
    rw [hWf] at h
    rw [hWs, h]
    rfl
  have hSsome : S2.accumulate_m_sqr_ = true → S2.cached_nfft_sqr_obj_.isSome = true := by
    intro h
    rw [hSf] at h
    rw [hSs, h]
    cases fA <;> cases fB <;> rfl
  have fW' := finalize_eq P W _ hWn hWc hWsome
  have fS' := finalize_eq P S2 _ hSn (h1.trans hWc) hSsome
  have heq : fA = fW → fB = fW → (fS = true → fW = true) →
      S2.cached_nfft_sqr_obj_ = W.cached_nfft_sqr_obj_ := by
    intro ha hb hs
    rw [hSs, hWs, ha, hb]
    cases fW with
    | false =>
      cases fS with
      | false => rfl
      | true => exact absurd (hs rfl) (by decide)
    | true =>
      cases fS with
      | false => exact congrArg some (funext hsqr)
      | true => exact congrArg some (funext hsqr)
  refine ⟨A, B, S1, S2, W, _, _, _, hA, hB, e1, e2, hW, hWc, h1, fS', fW', rfl, rfl, rfl, heq,
    ?_⟩
  intro ha hb hs
  have h2 := heq ha hb (fun h => by rw [← hs]; exact h)
  simp only [h2, hSf, hWf, hs, hSm, hWm]

/-- C2 (amended) at the sample instance: the sample measurement in group 1 and all four
accumulators constructed with M squared. -/
theorem C2_partition_merge_equals_whole_witness :
    ∃ A B S1 S2 W,
      SpAccumulator.accumulateAll sampleParameters
          (SpAccumulator.construct true).resetAccumulation
          (([(true, sampleMeasurement)].filter (fun x => x.1)).map Prod.snd) = Except.ok A ∧
      SpAccumulator.accumulateAll sampleParameters
          (SpAccumulator.construct true).resetAccumulation
          (([(true, sampleMeasurement)].filter (fun x => !x.1)).map Prod.snd) = Except.ok B ∧
      SpAccumulator.sumTo A (SpAccumulator.construct true).resetAccumulation =
        Except.ok (A, S1) ∧
      SpAccumulator.sumTo B S1 = Except.ok (B, S2) ∧
      SpAccumulator.accumulateAll sampleParameters
          (SpAccumulator.construct true).resetAccumulation
          ([(true, sampleMeasurement)].map Prod.snd) = Except.ok W ∧
      S2.cached_nfft_obj_ = W.cached_nfft_obj_ ∧
      S2.cached_nfft_sqr_obj_ = W.cached_nfft_sqr_obj_ :=
  match C2_partition_merge_equals_whole sampleParameters true true true true
    [(true, sampleMeasurement)] with
  | ⟨A, B, S1, S2, W, _, _, _, hA, hB, e1, e2, hW, _, h1, _, _, _, _, _, hsq, _⟩ =>
    ⟨A, B, S1, S2, W, hA, hB, e1, e2, hW, h1, hsq rfl rfl (fun _ => rfl)⟩

/-- C3, counterexample to the claim as stated: A (after one measurement, M squared
enabled) and B (reset, M squared disabled) are both in the Accumulating state, yet merging A
into B and B into the reset target T leaves another squared binner in T than merging A and
B into T one after the other: the squared sum of A never reaches T through B. -/
theorem C3_counterexample :
    SpAccumulator.Reachable sampleParameters true sampleAccumulated ∧
      sampleAccumulated.initialized_ = true ∧
      SpAccumulator.Reachable sampleParameters true (sampleAccumulator false) ∧
      (sampleAccumulator false).initialized_ = true ∧
      ¬ SpAccumulator.sumToReassociates sampleAccumulated (sampleAccumulator false)
        (sampleAccumulator true) := by
  obtain ⟨he, hi, hf, hsq⟩ := sampleAccumulated_spec
  have hr : SpAccumulator.Reachable sampleParameters true sampleAccumulated :=
    SpAccumulator.Reachable.accumulate _ _ _
      (SpAccumulator.Reachable.resetAccumulation (SpAccumulator.Reachable.construct true)) he
  refine ⟨hr, hi,
    SpAccumulator.Reachable.resetAccumulation (SpAccumulator.Reachable.construct false), rfl, ?_⟩
  rintro ⟨B', T1, T2, T3, e1, e2, e3, e4, -, hs⟩
  obtain ⟨a, ha, -⟩ := accumulating_binners _ hr.wellFormed hi
  obtain ⟨X1, x1, c1, s1, -, -, f1, -⟩ := sumTo_spec sampleAccumulated (sampleAccumulator false)
    a ha (hr.wellFormed.2.1 hi)
  obtain rfl : X1 = B' := (Prod.mk.inj (Except.ok.inj (x1.symm.trans e1))).2
  obtain ⟨X2, x2, -, s2, -⟩ := sumTo_spec X1 (sampleAccumulator true) _ c1
    (fun h => by rw [f1] at h; exact absurd h (by decide))
  obtain rfl : X2 = T1 := (Prod.mk.inj (Except.ok.inj (x2.symm.trans e2))).2
  obtain ⟨X3, x3, -, s3, -⟩ := sumTo_spec sampleAccumulated (sampleAccumulator true)
    a ha (hr.wellFormed.2.1 hi)
  obtain rfl : X3 = T2 := (Prod.mk.inj (Except.ok.inj (x3.symm.trans e3))).2
  obtain ⟨X4, x4, -, s4, -⟩ := sumTo_spec (sampleAccumulator false) X3 NfftPair.new rfl
    (fun h => absurd h (by decide))
  obtain rfl : X4 = T3 := (Prod.mk.inj (Except.ok.inj (x4.symm.trans e4))).2
  rw [s2, s4, s3, f1, hf, hsq] at hs
  have h0 := congrFun (congrFun (congrFun (Option.some.inj hs) 0) 1) 0
  simp only [Dnfft1D.add] at h0
  rw [sample_squared_bin] at h0
  revert h0
  norm_num [sampleAccumulator, SpAccumulator.resetAccumulation, SpAccumulator.construct,
    NfftPair.new, Dnfft1D.resetAccumulation]

/-- C3 (amended): for every target T and all sources A and B in the Accumulating state,
`A.sumTo(T); B.sumTo(T)` and `B.sumTo(T); A.sumTo(T)` succeed and leave the same main and
squared binners in T; and if B accumulates M squared whenever A does, merging A into B and
then B into T leaves the same main and squared binners in T as merging A and B into T one
after the other. Sums are taken in exact arithmetic. -/
theorem C3_sumTo_order_and_grouping (P : Parameters) (T A B : SpAccumulator) (rA rB : Bool)
    (hA : SpAccumulator.Reachable P rA A) (hAi : A.initialized_ = true)
    (hB : SpAccumulator.Reachable P rB B) (hBi : B.initialized_ = true) :
    SpAccumulator.sumToCommutes A B T ∧
      ((A.accumulate_m_sqr_ = true → B.accumulate_m_sqr_ = true) →
        SpAccumulator.sumToReassociates A B T) :=
  ⟨sumTo_commutes A B T hA.wellFormed hAi hB.wellFormed hBi,
    sumTo_reassociates A B T hA.wellFormed hAi hB.wellFormed hBi⟩

/-- C3 (amended) at the sample instance: A after one measurement and a reset B, both with
M squared enabled, merged into a target that was never reset. -/
theorem C3_sumTo_order_and_grouping_witness :
    SpAccumulator.Reachable sampleParameters true sampleAccumulated ∧
      sampleAccumulated.initialized_ = true ∧
      SpAccumulator.Reachable sampleParameters true (sampleAccumulator true) ∧
      (sampleAccumulator true).initialized_ = true ∧
      SpAccumulator.sumToCommutes sampleAccumulated (sampleAccumulator true)
        (SpAccumulator.construct false) ∧
      SpAccumulator.sumToReassociates sampleAccumulated (sampleAccumulator true)
        (SpAccumulator.construct false) :=
  have hr : SpAccumulator.Reachable sampleParameters true sampleAccumulated :=
    SpAccumulator.Reachable.accumulate _ _ _
      (SpAccumulator.Reachable.resetAccumulation (SpAccumulator.Reachable.construct true))
      sampleAccumulated_spec.1
  have hb : SpAccumulator.Reachable sampleParameters true (sampleAccumulator true) :=
    SpAccumulator.Reachable.resetAccumulation (SpAccumulator.Reachable.construct true)
  have h := C3_sumTo_order_and_grouping sampleParameters (SpAccumulator.construct false)
    sampleAccumulated (sampleAccumulator true) true true hr sampleAccumulated_spec.2.1 hb rfl
  ⟨hr, sampleAccumulated_spec.2.1, hb, rfl, h.1, h.2 (fun _ => rfl)⟩

/-! ## C4 -/

/-- Once `resetAccumulation` has been called the accumulator owns its main binners, and its
squared binners if it accumulates M squared, whatever is called afterwards. -/
theorem SpAccumulator.Reachable.allocated {P : Parameters} {r : Bool} {a : SpAccumulator}
    (h : SpAccumulator.Reachable P r a) (hr : r = true) :
    a.cached_nfft_obj_.isSome = true ∧
      (a.accumulate_m_sqr_ = true → a.cached_nfft_sqr_obj_.isSome = true) := by
  induction h with
  | construct sq => exact absurd hr (by decide)
  | @resetAccumulation _ a _ _ =>
    cases hf : a.accumulate_m_sqr_ <;> simp [SpAccumulator.resetAccumulation, hf]
  | @accumulate _ a a' Ms configs sign _ he ih =>
    have ih := ih hr
    rcases a with ⟨init, fin, flag, M, Msq, sM, c, cs, sg⟩
    cases init <;> cases flag <;> cases c <;> cases cs <;> cases sg <;>
      simp [SpAccumulator.accumulate] at he ih ⊢ <;> subst he <;> simp
  | @finalize _ a a' _ he ih =>
    have ih := ih hr
    rcases a with ⟨init, fin, flag, M, Msq, sM, c, cs, sg⟩
    cases fin <;> cases flag <;> cases c <;> cases cs <;>
      simp [SpAccumulator.finalize] at he ih ⊢ <;> subst he <;> simp
  | @sumTo_other _ a a' src src' _ he ih =>
    have ih := ih hr
    rcases a with ⟨init, fin, flag, M, Msq, sM, c, cs, sg⟩
    rcases src with ⟨init2, fin2, flag2, M2, Msq2, sM2, c2, cs2, sg2⟩
    cases flag2 <;> cases c2 <;> cases cs2 <;> cases cs <;>
      simp [SpAccumulator.sumTo] at he ih ⊢ <;>
      obtain ⟨-, he⟩ := he <;> subst he <;> simp_all
  | @get_single_measurement _ a a' f _ he ih =>
    have ih := ih hr
    rcases a with ⟨init, fin, flag, M, Msq, sM, c, cs, sg⟩
    cases sg <;>
      simp [SpAccumulator.get_single_measurement_sign_times_M_r_w] at he ih ⊢
    obtain ⟨he, -⟩ := he
    subst he
    simpa using ih

/-- C4: for every source on which `resetAccumulation` has been called and every target
`other`, reset or not, `source.sumTo(other)` succeeds; for each spin channel the main binner
of `other` becomes its previous state (zero where `other` had no binner) plus the main
binner of the source, and likewise the squared binner when the source accumulates M squared
(otherwise it is left as it was); the flags and functions of `other` and the whole source
are unchanged. -/
theorem C4_sumTo_adds_source_to_other (P : Parameters) (source other : SpAccumulator)
    (hr : SpAccumulator.Reachable P true source) :
    ∃ main other', source.cached_nfft_obj_ = some main ∧
      SpAccumulator.sumTo source other = Except.ok (source, other') ∧
      other'.cached_nfft_obj_ = some (fun s p g =>
        (match other.cached_nfft_obj_ with
          | some o => o s p g
          | none => 0) + main s p g) ∧
      (source.accumulate_m_sqr_ = true →
        ∃ sqr, source.cached_nfft_sqr_obj_ = some sqr ∧
          other'.cached_nfft_sqr_obj_ = some (fun s p g =>
            (match other.cached_nfft_sqr_obj_ with
              | some o => o s p g
              | none => 0) + sqr s p g)) ∧
      (source.accumulate_m_sqr_ = false →
        other'.cached_nfft_sqr_obj_ = other.cached_nfft_sqr_obj_) ∧
      other'.initialized_ = other.initialized_ ∧ other'.finalized_ = other.finalized_ ∧
      other'.accumulate_m_sqr_ = other.accumulate_m_sqr_ ∧
      other'.M_r_w_ = other.M_r_w_ ∧ other'.M_r_w_sqr_ = other.M_r_w_sqr_ := by
  obtain ⟨hc, hs⟩ := hr.allocated rfl
  obtain ⟨main, hm⟩ := Option.isSome_iff_exists.mp hc
  obtain ⟨other', e, c1, s1, h1, h2, h3, h4, h5, -⟩ := sumTo_spec source other main hm hs
  refine ⟨main, other', hm, e, ?_, ?_, ?_, h1, h2, h3, h4, h5⟩
  · rw [c1]
    cases other.cached_nfft_obj_ <;> rfl
  · intro hf
    obtain ⟨sqr, hq⟩ := Option.isSome_iff_exists.mp (hs hf)
    refine ⟨sqr, hq, ?_⟩
    rw [s1, hf, hq]
    cases other.cached_nfft_sqr_obj_ <;> rfl
  · intro hf
    rw [s1, hf]
    rfl

/-- C4 at the sample instance: the accumulator that took the sample measurement is merged
into a target that was never reset. -/
theorem C4_sumTo_adds_source_to_other_witness :
    SpAccumulator.Reachable sampleParameters true sampleAccumulated ∧
      ∃ main other', sampleAccumulated.cached_nfft_obj_ = some main ∧
        SpAccumulator.sumTo sampleAccumulated (SpAccumulator.construct false) =
          Except.ok (sampleAccumulated, other') ∧
        other'.cached_nfft_obj_ = some (fun s p g => 0 + main s p g) :=
  have hr : SpAccumulator.Reachable sampleParameters true sampleAccumulated :=
    SpAccumulator.Reachable.accumulate _ _ _
      (SpAccumulator.Reachable.resetAccumulation (SpAccumulator.Reachable.construct true))
      sampleAccumulated_spec.1
  ⟨hr,
    match C4_sumTo_adds_source_to_other sampleParameters sampleAccumulated
      (SpAccumulator.construct false) hr with
    | ⟨main, other', h1, h2, h3, _⟩ => ⟨main, other', h1, h2, h3⟩⟩

/-! ## C5 -/

theorem Cplx.zero_add (x : Cplx) : Cplx.add Cplx.zero x = x := by
  cases x
  simp [Cplx.add, Cplx.zero]

/-- A loop whose bodies all leave the entry `k` alone leaves it alone. -/
theorem foldl_fixes {ι : Type} (L : List ι) (body : ι → MFunction → MFunction)
    (k : Nat × Nat × Nat × Nat × Nat × Nat) (h : ∀ i ∈ L, ∀ f, body i f k = f k)
    (f : MFunction) : (L.foldl (fun f i => body i f) f) k = f k := by
  induction L generalizing f with
  | nil => rfl
  | cons i L ih =>
    rw [List.foldl_cons, ih (fun j hj => h j (List.mem_cons_of_mem _ hj)),
      h i (List.mem_cons_self _ _)]

/-- A loop over distinct indices in which exactly the body of index `c` adds `v` to the
entry `k` adds `v` to it once. -/
theorem foldl_adds {ι : Type} (L : List ι) (hL : L.Nodup) (body : ι → MFunction → MFunction)
    (k : Nat × Nat × Nat × Nat × Nat × Nat) (c : ι) (v : Cplx) (hc : c ∈ L)
    (hit : ∀ f, body c f k = Cplx.add (f k) v)
    (miss : ∀ i ∈ L, i ≠ c → ∀ f, body i f k = f k) (f : MFunction) :
    (L.foldl (fun f i => body i f) f) k = Cplx.add (f k) v := by
  induction L generalizing f with
  | nil => exact absurd hc (List.not_mem_nil _)
  | cons i L ih =>
    rw [List.foldl_cons]
    obtain ⟨hi, hL'⟩ := List.nodup_cons.mp hL
    by_cases hci : i = c
    · subst hci
      rw [foldl_fixes L body k (fun j hj f => miss j (List.mem_cons_of_mem _ hj)
        (fun e => hi (e ▸ hj)) f), hit]
    · have hc' : c ∈ L := by
        rcases List.mem_cons.mp hc with h | h
        · exact absurd h.symm hci
        · exact h
      rw [ih hL' hc' (fun j hj => miss j (List.mem_cons_of_mem _ hj)),
        miss i (List.mem_cons_self _ _) hci]

/-- The entry (b1, s, b2, s, r, w) of the diagonal spin block after `finalizeFunction`: the
transform of the binner of channel `s` times the normalization is added to it once. -/
theorem finalizeFunction_apply (P : Parameters) (ft_objs : NfftPair) (function : MFunction)
    (s : Fin 2) (b1 b2 r w : Nat) (hb1 : b1 < P.b_size) (hb2 : b2 < P.b_size)
    (hr : r < P.r_size) (hw : w < P.w_size) :
    SpAccumulator.finalizeFunction P ft_objs function (b1, s.val, b2, s.val, r, w) =
      Cplx.add (function (b1, s.val, b2, s.val, r, w))
        (Cplx.scale (P.transform (ft_objs s) w b1 b2 r) (1 / (P.r_size : ℚ))) := by
  unfold SpAccumulator.finalizeFunction
  have hs : ∀ s' : Fin 2, s' ≠ s → s'.val ≠ s.val := fun s' h e => h (Fin.ext e)
  refine foldl_adds _ (List.nodup_finRange 2) _ _ s _ (List.mem_finRange s) ?_ ?_ function
  · intro f
    refine foldl_adds _ (List.nodup_range _) _ _ w _ (List.mem_range.mpr hw) ?_ ?_ f
    · intro f
      refine foldl_adds _ (List.nodup_range _) _ _ r _ (List.mem_range.mpr hr) ?_ ?_ f
      · intro f
        refine foldl_adds _ (List.nodup_range _) _ _ b2 _ (List.mem_range.mpr hb2) ?_ ?_ f
        · intro f
          refine foldl_adds _ (List.nodup_range _) _ _ b1 _ (List.mem_range.mpr hb1) ?_ ?_ f
          · intro f
            exact Function.update_same _ _ _
          · intro b1' _ h f
            exact Function.update_noteq (by simp [Ne.symm h]) _ _
        · intro b2' _ h f
          exact foldl_fixes _ _ _ (fun b1' _ f =>
            Function.update_noteq (by simp [Ne.symm h]) _ _) f
      · intro r' _ h f
        exact foldl_fixes _ _ _ (fun b2' _ f => foldl_fixes _ _ _ (fun b1' _ f =>
          Function.update_noteq (by simp [Ne.symm h]) _ _) f) f
    · intro w' _ h f
      exact foldl_fixes _ _ _ (fun r' _ f => foldl_fixes _ _ _ (fun b2' _ f =>
        foldl_fixes _ _ _ (fun b1' _ f =>
          Function.update_noteq (by simp [Ne.symm h]) _ _) f) f) f
  · intro s' _ h f
    exact foldl_fixes _ _ _ (fun w' _ f => foldl_fixes _ _ _ (fun r' _ f =>
      foldl_fixes _ _ _ (fun b2' _ f => foldl_fixes _ _ _ (fun b1' _ f =>
        Function.update_noteq (by simp [Ne.symm (hs s' h)]) _ _) f) f) f) f

/-- C5: a `finalize` call that finds the accumulator not yet finalized, with main binners
`main` (and squared binners if M squared is accumulated), succeeds, and the function it
stores and `get_sign_times_M_r_w` returns satisfies, for all band indices b1, b2, spin
channel s, cluster site r and frequency w,
`M_r_w(b1, s, b2, s, r, w) = T_s(w, b1, b2, r) / N_cluster_sites`, where `T_s` is the
transform of the main binner of channel s; no further factor is applied. -/
theorem C5_finalize_normalization (P : Parameters) (a : SpAccumulator) (main : NfftPair)
    (hf : a.finalized_ = false) (hc : a.cached_nfft_obj_ = some main)
    (hs : a.accumulate_m_sqr_ = true → a.cached_nfft_sqr_obj_.isSome = true) :
    ∃ a' M, SpAccumulator.finalize P a = Except.ok a' ∧ a'.M_r_w_ = some M ∧
      SpAccumulator.get_sign_times_M_r_w a' = Except.ok M ∧
      ∀ (s : Fin 2) (b1 b2 r w : Nat), b1 < P.b_size → b2 < P.b_size → r < P.r_size →
        w < P.w_size →
        M (b1, s.val, b2, s.val, r, w) =
          ⟨(P.transform (main s) w b1 b2 r).re / (P.r_size : ℚ),
            (P.transform (main s) w b1 b2 r).im / (P.r_size : ℚ)⟩ := by
  refine ⟨_, _, finalize_eq P a main hf hc hs, rfl, rfl, ?_⟩
  intro s b1 b2 r w hb1 hb2 hr hw
  rw [finalizeFunction_apply P main MFunction.new s b1 b2 r w hb1 hb2 hr hw]
  simp only [MFunction.new, Cplx.zero_add, Cplx.scale, mul_one_div]

/-- C5 at the sample instance: the accumulator that took the sample measurement is
finalized; the entry at band 0, channel 0, site 1, frequency 0 is the transform -5 of
bin 1 divided by the two cluster sites. -/
theorem C5_finalize_normalization_witness :
    sampleAccumulated.finalized_ = false ∧
      ∃ a' M, SpAccumulator.finalize sampleParameters sampleAccumulated = Except.ok a' ∧
        SpAccumulator.get_sign_times_M_r_w a' = Except.ok M ∧
        M (0, 0, 0, 0, 1, 0) = ⟨-5 / 2, 0⟩ := by
  obtain ⟨m, sg, hm, -, he⟩ := accumulate_eq sampleParameters (sampleAccumulator true)
    sampleMeasurement.Ms sampleMeasurement.configs sampleMeasurement.sign
    (WellFormed_resetAccumulation _) rfl
  have hR := Except.ok.inj (sampleAccumulated_spec.1.symm.trans he)
  have hm' : m = NfftPair.new := (Option.some.inj hm).symm
  subst hm'
  have hfin : sampleAccumulated.finalized_ = false := by rw [hR]; rfl
  have hc : sampleAccumulated.cached_nfft_obj_ = some (fun s =>
      Dnfft1D.accumulateList sampleParameters (NfftPair.new s)
        (contributions sampleParameters (sampleMeasurement.Ms s) (sampleMeasurement.configs s)
          sampleMeasurement.sign)) := by rw [hR]
  have hsq : sampleAccumulated.accumulate_m_sqr_ = true →
      sampleAccumulated.cached_nfft_sqr_obj_.isSome = true := by
    intro _
    rw [sampleAccumulated_spec.2.2.2]
    rfl
  obtain ⟨a', M, h1, -, h3, h4⟩ :=
    C5_finalize_normalization sampleParameters sampleAccumulated _ hfin hc hsq
  refine ⟨hfin, a', M, h1, h3, ?_⟩
  have h := h4 0 0 0 1 0 (by decide) (by decide) (by decide) (by decide)
  rw [show ((0 : Fin 2).val) = 0 from rfl] at h
  rw [h]
  simp only [sampleParameters, accumulateList_apply]
  norm_num [contributions, contribution, binValue, Dnfft1D.weight, NfftPair.new,
    Dnfft1D.resetAccumulation, sampleMeasurement, List.range_succ, List.flatMap]

/-! ## C6 -/

/-- After a successful `finalize` the accumulator is flagged as finalized. -/
theorem finalize_finalized (P : Parameters) (a a' : SpAccumulator)
    (h : SpAccumulator.finalize P a = Except.ok a') : a'.finalized_ = true := by
  rcases a with ⟨init, fin, flag, M, Msq, sM, c, cs, sg⟩
  cases fin <;> cases flag <;> cases c <;> cases cs <;>
    simp [SpAccumulator.finalize] at h <;> subst h <;> rfl

/-- A finalized accumulator is returned by `finalize` as it is, whatever the parameters. -/
theorem finalize_of_finalized (P : Parameters) (a : SpAccumulator) (h : a.finalized_ = true) :
    SpAccumulator.finalize P a = Except.ok a := by
  simp [SpAccumulator.finalize, h]

/-- C6: for every accumulator in the Accumulating state `finalize` succeeds, and a second
call returns the very same state, with the same finalized functions: it returns at its
first test and does not read the binners or the domains again (any parameters `P2` give
the same result). The same holds for `SsCtHybAccumulator::finalize`, whose second call
does not call the finalize of the single-particle accumulator object again (any `nf2`
gives the same result). -/
theorem C6_finalize_idempotent (P P2 : Parameters) (a : SpAccumulator) (r : Bool)
    (hr : SpAccumulator.Reachable P r a) (hi : a.initialized_ = true)
    {Sp F Cfg Mat : Type} (nf nf2 : Sp → F → F → Sp × F × F)
    (h : SsCtHybAccumulator Sp F Cfg Mat) :
    (∃ a', SpAccumulator.finalize P a = Except.ok a' ∧ a'.finalized_ = true ∧
        SpAccumulator.finalize P2 a' = Except.ok a') ∧
      (SsCtHybAccumulator.finalize nf h).finalized_ = true ∧
      SsCtHybAccumulator.finalize nf2 (SsCtHybAccumulator.finalize nf h) =
        SsCtHybAccumulator.finalize nf h := by
  refine ⟨?_, ?_, ?_⟩
  · obtain ⟨c, hc, -⟩ := accumulating_binners a hr.wellFormed hi
    have hf : a.finalized_ = false := by
      cases hfin : a.finalized_
      · rfl
      · have := hr.wellFormed.2.2.2.2 hfin
        rw [hi] at this
        exact absurd this (by decide)
    have e := finalize_eq P a c hf hc (hr.wellFormed.2.1 hi)
    exact ⟨_, e, rfl, finalize_of_finalized P2 _ rfl⟩
  · cases hfin : h.finalized_ <;> simp [SsCtHybAccumulator.finalize, hfin]
  · cases hfin : h.finalized_ <;> simp [SsCtHybAccumulator.finalize, hfin]

/-- C6 at the sample instance, with a single-particle object that counts the calls of its
finalize. -/
theorem C6_finalize_idempotent_witness :
    SpAccumulator.Reachable sampleParameters true (sampleAccumulator false) ∧
      (sampleAccumulator false).initialized_ = true ∧
      (∃ a', SpAccumulator.finalize sampleParameters (sampleAccumulator false) = Except.ok a' ∧
        SpAccumulator.finalize sampleParameters a' = Except.ok a') ∧
      SsCtHybAccumulator.finalize (fun (n : Nat) (g gs : Nat) => (n + 1, g + 1, gs + 2))
          (SsCtHybAccumulator.finalize (fun (n : Nat) (g gs : Nat) => (n + 1, g + 1, gs + 2))
            sampleSsCtHyb) =
        SsCtHybAccumulator.finalize (fun (n : Nat) (g gs : Nat) => (n + 1, g + 1, gs + 2))
          sampleSsCtHyb :=
  have hr : SpAccumulator.Reachable sampleParameters true (sampleAccumulator false) :=
    SpAccumulator.Reachable.resetAccumulation (SpAccumulator.Reachable.construct false)
  have h := C6_finalize_idempotent sampleParameters sampleParameters (sampleAccumulator false)
    true hr rfl (fun (n : Nat) (g gs : Nat) => (n + 1, g + 1, gs + 2))
    (fun (n : Nat) (g gs : Nat) => (n + 1, g + 1, gs + 2)) sampleSsCtHyb
  ⟨hr, rfl, h.1.imp (fun _ h' => ⟨h'.1, h'.2.2⟩), h.2.2⟩

/-! ## C7 -/

/-- While the flag `initialized_` is not set, `accumulate` throws. -/
theorem accumulate_not_initialized (P : Parameters) (a : SpAccumulator) (Ms : Fin 2 → Matrix)
    (configs : Fin 2 → Configuration) (sign : Int) (h : a.initialized_ = false) :
    SpAccumulator.accumulate P a Ms configs sign =
      Except.error (Error.logic_error "The accumulator was not initialized.") := by
  simp [SpAccumulator.accumulate, h]

/-- As long as `resetAccumulation` has not been called the flag `initialized_` is not set. -/
theorem SpAccumulator.Reachable.not_initialized {P : Parameters} {r : Bool}
    {a : SpAccumulator} (h : SpAccumulator.Reachable P r a) (hr : r = false) :
    a.initialized_ = false := by
  induction h with
  | construct sq => rfl
  | resetAccumulation _ _ => exact absurd hr (by decide)
  | @accumulate _ a a' Ms configs sign _ he ih =>
    rw [accumulate_not_initialized P a Ms configs sign (ih hr)] at he
    exact absurd he (by simp)
  | @finalize _ a a' _ he ih =>
    have ih := ih hr
    rcases a with ⟨init, fin, flag, M, Msq, sM, c, cs, sg⟩
    cases fin <;> cases flag <;> cases c <;> cases cs <;>
      simp [SpAccumulator.finalize] at he ih ⊢ <;> subst he <;> simp_all
  | @sumTo_other _ a a' src src' _ he ih =>
    have ih := ih hr
    rcases a with ⟨init, fin, flag, M, Msq, sM, c, cs, sg⟩
    rcases src with ⟨init2, fin2, flag2, M2, Msq2, sM2, c2, cs2, sg2⟩
    cases flag2 <;> cases c2 <;> cases cs2 <;> cases cs <;>
      simp [SpAccumulator.sumTo] at he ih ⊢ <;>
      obtain ⟨-, he⟩ := he <;> subst he <;> simp_all
  | @get_single_measurement _ a a' f _ he ih =>
    have ih := ih hr
    rcases a with ⟨init, fin, flag, M, Msq, sM, c, cs, sg⟩
    cases sg <;>
      simp [SpAccumulator.get_single_measurement_sign_times_M_r_w] at he ih ⊢
    obtain ⟨he, -⟩ := he
    subst he
    simpa using ih

/-- C7: on every accumulator on which `resetAccumulation` has never been called, whatever
else has been called on it, `accumulate` fails for every input (Ms, configs, sign) with the
logic error "The accumulator was not initialized." -/
theorem C7_accumulate_before_reset_fails (P : Parameters) (a : SpAccumulator)
    (Ms : Fin 2 → Matrix) (configs : Fin 2 → Configuration) (sign : Int)
    (hr : SpAccumulator.Reachable P false a) :
    SpAccumulator.accumulate P a Ms configs sign =
      Except.error (Error.logic_error "The accumulator was not initialized.") :=
  accumulate_not_initialized P a Ms configs sign (hr.not_initialized rfl)

/-- C7 at the sample instance: a newly constructed accumulator refuses the sample
measurement. -/
theorem C7_accumulate_before_reset_fails_witness :
    SpAccumulator.Reachable sampleParameters false (SpAccumulator.construct true) ∧
      SpAccumulator.accumulate sampleParameters (SpAccumulator.construct true)
          sampleMeasurement.Ms sampleMeasurement.configs sampleMeasurement.sign =
        Except.error (Error.logic_error "The accumulator was not initialized.") :=
  ⟨SpAccumulator.Reachable.construct true,
    C7_accumulate_before_reset_fails sampleParameters (SpAccumulator.construct true)
      sampleMeasurement.Ms sampleMeasurement.configs sampleMeasurement.sign
      (SpAccumulator.Reachable.construct true)⟩

/-! ## C8 -/

/-- C8: in every state that is not Finalized, be it never reset or reset and not yet
finalized, `get_sign_times_M_r_w` and `get_sign_times_M_r_w_sqr` fail with the logic error
"The accumulator was not finalized."; in the Finalized state `get_sign_times_M_r_w` returns
the function stored by `finalize`; and whenever it returns a function the accumulator is
Finalized and the function is the stored one. -/
theorem C8_getters_need_finalize (P : Parameters) (a : SpAccumulator) (r : Bool)
    (hr : SpAccumulator.Reachable P r a) :
    (a.finalized_ = false →
        SpAccumulator.get_sign_times_M_r_w a =
          Except.error (Error.logic_error "The accumulator was not finalized.") ∧
        SpAccumulator.get_sign_times_M_r_w_sqr a =
          Except.error (Error.logic_error "The accumulator was not finalized.")) ∧
      (a.finalized_ = true →
        ∃ M, a.M_r_w_ = some M ∧ SpAccumulator.get_sign_times_M_r_w a = Except.ok M) ∧
      (∀ M, SpAccumulator.get_sign_times_M_r_w a = Except.ok M →
        a.finalized_ = true ∧ a.M_r_w_ = some M) := by
  refine ⟨?_, ?_, ?_⟩
  · intro h
    simp [SpAccumulator.get_sign_times_M_r_w, SpAccumulator.get_sign_times_M_r_w_sqr, h]
  · intro h
    obtain ⟨M, hM⟩ := Option.isSome_iff_exists.mp (hr.wellFormed.2.2.1 h)
    exact ⟨M, hM, by simp [SpAccumulator.get_sign_times_M_r_w, h, hM]⟩
  · intro M h
    cases hf : a.finalized_ <;> cases hm : a.M_r_w_ <;>
      simp [SpAccumulator.get_sign_times_M_r_w, hf, hm] at h ⊢
    exact h

/-- C8 at the sample instance: the reset accumulator, not yet finalized, refuses both
getters. -/
theorem C8_getters_need_finalize_witness :
    SpAccumulator.Reachable sampleParameters true (sampleAccumulator true) ∧
      SpAccumulator.get_sign_times_M_r_w (sampleAccumulator true) =
        Except.error (Error.logic_error "The accumulator was not finalized.") ∧
      SpAccumulator.get_sign_times_M_r_w_sqr (sampleAccumulator true) =
        Except.error (Error.logic_error "The accumulator was not finalized.") :=
  have hr : SpAccumulator.Reachable sampleParameters true (sampleAccumulator true) :=
    SpAccumulator.Reachable.resetAccumulation (SpAccumulator.Reachable.construct true)
  ⟨hr, (C8_getters_need_finalize sampleParameters (sampleAccumulator true) true hr).1 rfl⟩

/-! ## C9 -/

/-- C9: on an accumulator constructed with `accumulate_m_squared = false` (the member
`accumulate_m_sqr_` is constant) `get_sign_times_M_r_w_sqr` throws a logic error in every
state and never returns a function: "The accumulator was not finalized." before finalize,
and "M squared was not accumulated." in the Finalized state. -/
theorem C9_squared_getter_without_m_squared (a : SpAccumulator)
    (h : a.accumulate_m_sqr_ = false) :
    (∃ msg, SpAccumulator.get_sign_times_M_r_w_sqr a = Except.error (Error.logic_error msg)) ∧
      (∀ M, SpAccumulator.get_sign_times_M_r_w_sqr a ≠ Except.ok M) ∧
      (a.finalized_ = true →
        SpAccumulator.get_sign_times_M_r_w_sqr a =
          Except.error (Error.logic_error "M squared was not accumulated.")) ∧
      (a.finalized_ = false →
        SpAccumulator.get_sign_times_M_r_w_sqr a =
          Except.error (Error.logic_error "The accumulator was not finalized.")) := by
  cases hf : a.finalized_ <;> simp [SpAccumulator.get_sign_times_M_r_w_sqr, hf, h]

/-- C9 at the sample instance: finalized without M squared, the accumulator refuses the
squared getter. -/
theorem C9_squared_getter_without_m_squared_witness :
    ∃ a', SpAccumulator.finalize sampleParameters (sampleAccumulator false) = Except.ok a' ∧
      a'.accumulate_m_sqr_ = false ∧
      SpAccumulator.get_sign_times_M_r_w_sqr a' =
        Except.error (Error.logic_error "M squared was not accumulated.") :=
  ⟨_, finalize_eq sampleParameters (sampleAccumulator false) NfftPair.new rfl rfl
      (fun h => absurd h (by decide)), rfl,
    (C9_squared_getter_without_m_squared _ rfl).2.2.1 rfl⟩

/-! ## C10 -/

/-- C10: after `finalize` the accumulator is Finalized and accepts no accumulation:
`accumulate` fails with the logic error "The accumulator was not initialized."; after a
following `resetAccumulation`, `accumulate` succeeds again and `get_sign_times_M_r_w` fails
again with "The accumulator was not finalized." -/
theorem C10_finalized_needs_reset (P : Parameters) (a a' : SpAccumulator) (r : Bool)
    (Ms : Fin 2 → Matrix) (configs : Fin 2 → Configuration) (sign : Int)
    (hr : SpAccumulator.Reachable P r a) (hfin : SpAccumulator.finalize P a = Except.ok a') :
    a'.finalized_ = true ∧
      SpAccumulator.accumulate P a' Ms configs sign =
        Except.error (Error.logic_error "The accumulator was not initialized.") ∧
      (∃ a2, SpAccumulator.accumulate P a'.resetAccumulation Ms configs sign =
        Except.ok a2) ∧
      SpAccumulator.get_sign_times_M_r_w a'.resetAccumulation =
        Except.error (Error.logic_error "The accumulator was not finalized.") := by
  have hf := finalize_finalized P a a' hfin
  have hw := (SpAccumulator.Reachable.finalize hr hfin).wellFormed
  refine ⟨hf, accumulate_not_initialized P a' Ms configs sign (hw.2.2.2.2 hf), ?_, ?_⟩
  · obtain ⟨_, _, _, _, he⟩ := accumulate_eq P a'.resetAccumulation Ms configs sign
      (WellFormed_resetAccumulation a') rfl
    exact ⟨_, he⟩
  · simp [SpAccumulator.get_sign_times_M_r_w, SpAccumulator.resetAccumulation]

/-- C10 at the sample instance: the accumulator that took the sample measurement is
finalized, refuses the next measurement, and takes it after a reset. -/
theorem C10_finalized_needs_reset_witness :
    SpAccumulator.Reachable sampleParameters true sampleAccumulated ∧
      ∃ a', SpAccumulator.finalize sampleParameters sampleAccumulated = Except.ok a' ∧
        SpAccumulator.accumulate sampleParameters a' sampleMeasurement.Ms
            sampleMeasurement.configs sampleMeasurement.sign =
          Except.error (Error.logic_error "The accumulator was not initialized.") ∧
        ∃ a2, SpAccumulator.accumulate sampleParameters a'.resetAccumulation
          sampleMeasurement.Ms sampleMeasurement.configs sampleMeasurement.sign =
            Except.ok a2 := by
  have hr : SpAccumulator.Reachable sampleParameters true sampleAccumulated :=
    SpAccumulator.Reachable.accumulate _ _ _
      (SpAccumulator.Reachable.resetAccumulation (SpAccumulator.Reachable.construct true))
      sampleAccumulated_spec.1
  obtain ⟨c, hc, -⟩ := accumulating_binners _ hr.wellFormed sampleAccumulated_spec.2.1
  have hf : sampleAccumulated.finalized_ = false := by
    cases h : sampleAccumulated.finalized_
    · rfl
    · have := hr.wellFormed.2.2.2.2 h
      rw [sampleAccumulated_spec.2.1] at this
      exact absurd this (by decide)
  have e := finalize_eq sampleParameters sampleAccumulated c hf hc
    (hr.wellFormed.2.1 sampleAccumulated_spec.2.1)
  have h := C10_finalized_needs_reset sampleParameters sampleAccumulated _ true
    sampleMeasurement.Ms sampleMeasurement.configs sampleMeasurement.sign hr e
  exact ⟨hr, _, e, h.2.1, h.2.2.1⟩

/-! ## C11 -/

/-- C11: for every accumulator `a`, whatever its state and history, `resetAccumulation`
followed by `accumulate` on the measurements m1..mn succeeds and leaves the main binner,
and the squared binner if M squared is accumulated, equal to those of a newly constructed
accumulator after the same reset and the same calls: every bin holds the sum of the
contributions of m1..mn only. -/
theorem C11_reset_forgets_history (P : Parameters) (a : SpAccumulator) (ms : List Measurement) :
    ∃ a' b', SpAccumulator.accumulateAll P a.resetAccumulation ms = Except.ok a' ∧
      SpAccumulator.accumulateAll P
        (SpAccumulator.construct a.accumulate_m_sqr_).resetAccumulation ms = Except.ok b' ∧
      a'.cached_nfft_obj_ = b'.cached_nfft_obj_ ∧
      (∃ main, a'.cached_nfft_obj_ = some main ∧ ∀ (s : Fin 2) (p g : Int),
        main s p g = ((ms.flatMap (fun m => contributions P (m.Ms s) (m.configs s) m.sign)).map
          (fun c => binValue P c p g)).sum) ∧
      (a.accumulate_m_sqr_ = true →
        a'.cached_nfft_sqr_obj_ = b'.cached_nfft_sqr_obj_ ∧
        ∃ sqr, a'.cached_nfft_sqr_obj_ = some sqr ∧ ∀ (s : Fin 2) (p g : Int),
          sqr s p g =
            ((ms.flatMap (fun m => contributionsSqr P (m.Ms s) (m.configs s) m.sign)).map
              (fun c => binValue P c p g)).sum) := by
  obtain ⟨a', h1, -, -, -, -, -, h7, h8⟩ := accumulateAll_eq P ms a.resetAccumulation
    NfftPair.new (WellFormed_resetAccumulation a) rfl rfl
  obtain ⟨b', g1, -, -, -, -, -, g7, g8⟩ := accumulateAll_fresh P a.accumulate_m_sqr_ ms
  refine ⟨a', b', h1, g1, h7.trans g7.symm, ⟨_, h7, fun s p g => ?_⟩, fun hf => ?_⟩
  · rw [accumulateList_apply]
    simp [NfftPair.new, Dnfft1D.resetAccumulation]
  · have e : a'.cached_nfft_sqr_obj_ = some (fun s =>
        Dnfft1D.accumulateList P Dnfft1D.resetAccumulation
          (ms.flatMap (fun m => contributionsSqr P (m.Ms s) (m.configs s) m.sign))) := by
      rw [h8]
      simp [SpAccumulator.resetAccumulation, hf, NfftPair.new]
    refine ⟨?_, _, e, fun s p g => ?_⟩
    · rw [e, g8, hf]
      rfl
    · rw [accumulateList_apply]
      simp [Dnfft1D.resetAccumulation]

/-! ## C12 -/

theorem accumulateAll_append_single (P : Parameters) (ms : List Measurement) (m : Measurement)
    (a : SpAccumulator) :
    SpAccumulator.accumulateAll P a (ms ++ [m]) =
      match SpAccumulator.accumulateAll P a ms with
      | Except.ok a1 => SpAccumulator.accumulate P a1 m.Ms m.configs m.sign
      | Except.error e => Except.error e := by
  induction ms generalizing a with
  | nil =>
    simp only [List.nil_append, SpAccumulator.accumulateAll]
    cases SpAccumulator.accumulate P a m.Ms m.configs m.sign <;> rfl
  | cons m0 ms ih =>
    simp only [List.cons_append, SpAccumulator.accumulateAll]
    cases SpAccumulator.accumulate P a m0.Ms m0.configs m0.sign with
    | error e => rfl
    | ok a1 => exact ih a1

/-- C12: for every accumulator in the Accumulating state and every sequence of one or more
`accumulate` calls (the measurements `ms` followed by the last one `m`), all calls succeed
and the single-measurement binner after the last call holds exactly the contributions of
`m` put on an empty binner: it equals the single-measurement binner of a newly constructed,
reset accumulator that took `m` alone. -/
theorem C12_single_measurement_is_last_call (P : Parameters) (a : SpAccumulator) (r : Bool)
    (ms : List Measurement) (m : Measurement) (hr : SpAccumulator.Reachable P r a)
    (hi : a.initialized_ = true) :
    ∃ a' b', SpAccumulator.accumulateAll P a (ms ++ [m]) = Except.ok a' ∧
      SpAccumulator.accumulate P (SpAccumulator.construct a.accumulate_m_sqr_).resetAccumulation
        m.Ms m.configs m.sign = Except.ok b' ∧
      a'.single_measurement_M_r_t_ = b'.single_measurement_M_r_t_ ∧
      a'.single_measurement_M_r_t_ = some (fun s =>
        Dnfft1D.accumulateList P Dnfft1D.resetAccumulation
          (contributions P (m.Ms s) (m.configs s) m.sign)) := by
  obtain ⟨c, hc, -⟩ := accumulating_binners a hr.wellFormed hi
  obtain ⟨a1, h1, hw1, hi1, -⟩ := accumulateAll_eq P ms a c hr.wellFormed hi hc
  obtain ⟨_, _, -, -, e1⟩ := accumulate_eq P a1 m.Ms m.configs m.sign hw1 hi1
  obtain ⟨_, _, -, -, e2⟩ := accumulate_eq P
    (SpAccumulator.construct a.accumulate_m_sqr_).resetAccumulation m.Ms m.configs m.sign
    (WellFormed_resetAccumulation _) rfl
  have e3 := accumulateAll_append_single P ms m a
  rw [h1] at e3
  exact ⟨_, _, e3.trans e1, e2, rfl, rfl⟩

/-- C12 at the sample instance: the accumulator that took the sample measurement takes an
empty measurement and then the sample measurement again. -/
theorem C12_single_measurement_is_last_call_witness :
    SpAccumulator.Reachable sampleParameters true sampleAccumulated ∧
      sampleAccumulated.initialized_ = true ∧
      ∃ a', SpAccumulator.accumulateAll sampleParameters sampleAccumulated
          ([⟨sampleMeasurement.Ms, fun _ => [], 1⟩] ++ [sampleMeasurement]) = Except.ok a' ∧
        a'.single_measurement_M_r_t_ = some (fun s =>
          Dnfft1D.accumulateList sampleParameters Dnfft1D.resetAccumulation
            (contributions sampleParameters (sampleMeasurement.Ms s)
              (sampleMeasurement.configs s) sampleMeasurement.sign)) :=
  have hr : SpAccumulator.Reachable sampleParameters true sampleAccumulated :=
    SpAccumulator.Reachable.accumulate _ _ _
      (SpAccumulator.Reachable.resetAccumulation (SpAccumulator.Reachable.construct true))
      sampleAccumulated_spec.1
  ⟨hr, sampleAccumulated_spec.2.1,
    match C12_single_measurement_is_last_call sampleParameters sampleAccumulated true
      [⟨sampleMeasurement.Ms, fun _ => [], 1⟩] sampleMeasurement hr
      sampleAccumulated_spec.2.1 with
    | ⟨a', _, h1, _, _, h4⟩ => ⟨a', h1, h4⟩⟩

/-! ## Sequences of calls -/

theorem sumTo_fst (self other : SpAccumulator) (r : SpAccumulator × SpAccumulator)
    (h : SpAccumulator.sumTo self other = Except.ok r) : r.1 = self := by
  rcases self with ⟨init, fin, flag, M, Msq, sM, c, cs, sg⟩
  cases flag <;> cases c <;> cases cs <;> cases hcs : other.cached_nfft_sqr_obj_ <;>
    simp [SpAccumulator.sumTo, hcs] at h <;> subst h <;> rfl

/-- Every state reached by a sequence of calls is a protocol state. -/
theorem calls_reachable (P : Parameters) (cs : List SpAccumulator.Call) (a0 a : SpAccumulator)
    (r0 : Bool) (h0 : SpAccumulator.Reachable P r0 a0)
    (h : SpAccumulator.calls P a0 cs = Except.ok a) : ∃ r, SpAccumulator.Reachable P r a := by
  induction cs generalizing a0 r0 with
  | nil =>
    simp only [SpAccumulator.calls] at h
    exact ⟨r0, (Except.ok.inj h) ▸ h0⟩
  | cons c cs ih =>
    simp only [SpAccumulator.calls] at h
    cases hc : SpAccumulator.call P a0 c with
    | error e => simp [hc] at h
    | ok a1 =>
      rw [hc] at h
      have h1 : ∃ r1, SpAccumulator.Reachable P r1 a1 := by
        cases c with
        | resetAccumulation =>
          simp only [SpAccumulator.call] at hc
          exact ⟨true, (Except.ok.inj hc) ▸ h0.resetAccumulation⟩
        | accumulate Ms configs sign => exact ⟨r0, h0.accumulate Ms configs sign hc⟩
        | finalize => exact ⟨r0, h0.finalize hc⟩
        | sumTo other =>
          simp only [SpAccumulator.call] at hc
          cases hs : SpAccumulator.sumTo a0 other with
          | error e => simp [hs] at hc
          | ok r =>
            simp only [hs] at hc
            have := sumTo_fst a0 other r hs
            exact ⟨r0, (Except.ok.inj hc) ▸ this ▸ h0⟩
        | sumTo_from source =>
          simp only [SpAccumulator.call] at hc
          cases hs : SpAccumulator.sumTo source a0 with
          | error e => simp [hs] at hc
          | ok r =>
            simp only [hs] at hc
            exact ⟨r0, (Except.ok.inj hc) ▸ h0.sumTo_other source r.1 hs⟩
        | get_sign_times_M_r_w =>
          simp only [SpAccumulator.call] at hc
          cases hs : SpAccumulator.get_sign_times_M_r_w a0 with
          | error e => simp [hs] at hc
          | ok f =>
            simp only [hs] at hc
            exact ⟨r0, (Except.ok.inj hc) ▸ h0⟩
        | get_sign_times_M_r_w_sqr =>
          simp only [SpAccumulator.call] at hc
          cases hs : SpAccumulator.get_sign_times_M_r_w_sqr a0 with
          | error e => simp [hs] at hc
          | ok f =>
            simp only [hs] at hc
            exact ⟨r0, (Except.ok.inj hc) ▸ h0⟩
        | get_single_measurement_sign_times_M_r_w =>
          simp only [SpAccumulator.call] at hc
          cases hs : SpAccumulator.get_single_measurement_sign_times_M_r_w P a0 with
          | error e => simp [hs] at hc
          | ok r =>
            simp only [hs] at hc
            exact ⟨r0, (Except.ok.inj hc) ▸ h0.get_single_measurement r.2 hs⟩
      obtain ⟨r1, h1⟩ := h1
      exact ih a1 r1 h1 h

/-- No call changes the constant member `accumulate_m_sqr_`, and a call that does not merge
a source accumulating M squared into an accumulator without M squared and without squared
binners leaves it without squared binners. -/
theorem call_squared (P : Parameters) (c : SpAccumulator.Call) (a a' : SpAccumulator)
    (h : SpAccumulator.call P a c = Except.ok a') :
    a'.accumulate_m_sqr_ = a.accumulate_m_sqr_ ∧
      (a.accumulate_m_sqr_ = false → a.cached_nfft_sqr_obj_ = none → c.mergesSquared = false →
        a'.cached_nfft_sqr_obj_ = none) := by
  rcases a with ⟨init, fin, flag, M, Msq, sM, cc, cs, sg⟩
  cases c with
  | resetAccumulation =>
    simp only [SpAccumulator.call] at h
    have := Except.ok.inj h
    subst this
    refine ⟨rfl, ?_⟩
    intro hf hn _
    simp only at hf hn
    subst hf hn
    rfl
  | accumulate Ms configs sign =>
    simp only [SpAccumulator.call] at h
    cases init <;> cases flag <;> cases cc <;> cases cs <;> cases sg <;>
      simp [SpAccumulator.accumulate] at h ⊢ <;> subst h <;> simp
  | finalize =>
    simp only [SpAccumulator.call] at h
    cases fin <;> cases flag <;> cases cc <;> cases cs <;>
      simp [SpAccumulator.finalize] at h ⊢ <;> subst h <;> simp
  | sumTo other =>
    simp only [SpAccumulator.call] at h
    cases hs : SpAccumulator.sumTo ⟨init, fin, flag, M, Msq, sM, cc, cs, sg⟩ other with
    | error e => simp [hs] at h
    | ok r =>
      simp only [hs] at h
      have h1 := sumTo_fst _ other r hs
      have h2 := Except.ok.inj h
      subst h2
      rw [h1]
      exact ⟨rfl, fun _ hn _ => hn⟩
  | sumTo_from source =>
    simp only [SpAccumulator.call] at h
    rcases source with ⟨init2, fin2, flag2, M2, Msq2, sM2, c2, cs2, sg2⟩
    cases flag2 <;> cases c2 <;> cases cs2 <;> cases cs <;>
      simp [SpAccumulator.sumTo, SpAccumulator.Call.mergesSquared] at h ⊢ <;>
      subst h <;> simp
  | get_sign_times_M_r_w =>
    simp only [SpAccumulator.call] at h
    cases hs : SpAccumulator.get_sign_times_M_r_w ⟨init, fin, flag, M, Msq, sM, cc, cs, sg⟩ with
    | error e => simp [hs] at h
    | ok f =>
      simp only [hs] at h
      have h2 := Except.ok.inj h
      subst h2
      exact ⟨rfl, fun _ hn _ => hn⟩
  | get_sign_times_M_r_w_sqr =>
    simp only [SpAccumulator.call] at h
    cases hs : SpAccumulator.get_sign_times_M_r_w_sqr
        ⟨init, fin, flag, M, Msq, sM, cc, cs, sg⟩ with
    | error e => simp [hs] at h
    | ok f =>
      simp only [hs] at h
      have h2 := Except.ok.inj h
      subst h2
      exact ⟨rfl, fun _ hn _ => hn⟩
  | get_single_measurement_sign_times_M_r_w =>
    simp only [SpAccumulator.call] at h
    cases sg <;>
      simp [SpAccumulator.get_single_measurement_sign_times_M_r_w] at h ⊢
    subst h
    simp only [true_and]
    exact fun _ hn _ => hn

theorem calls_squared (P : Parameters) (cs : List SpAccumulator.Call) (a0 a : SpAccumulator)
    (h : SpAccumulator.calls P a0 cs = Except.ok a) :
    a.accumulate_m_sqr_ = a0.accumulate_m_sqr_ ∧
      (a0.accumulate_m_sqr_ = false → a0.cached_nfft_sqr_obj_ = none →
        (∀ c ∈ cs, c.mergesSquared = false) → a.cached_nfft_sqr_obj_ = none) := by
  induction cs generalizing a0 with
  | nil =>
    simp only [SpAccumulator.calls] at h
    have := Except.ok.inj h
    subst this
    exact ⟨rfl, fun _ hn _ => hn⟩
  | cons c cs ih =>
    simp only [SpAccumulator.calls] at h
    cases hc : SpAccumulator.call P a0 c with
    | error e => simp [hc] at h
    | ok a1 =>
      rw [hc] at h
      obtain ⟨f1, n1⟩ := call_squared P c a0 a1 hc
      obtain ⟨f2, n2⟩ := ih a1 h
      refine ⟨f2.trans f1, fun hf hn hm => ?_⟩
      exact n2 (f1.trans hf) (n1 hf hn (hm c (List.mem_cons_self _ _)))
        (fun c' hc' => hm c' (List.mem_cons_of_mem _ hc'))

/-! ## C13 -/

theorem sampleMerged_spec :
    SpAccumulator.sumTo sampleAccumulated (sampleAccumulator false) =
        Except.ok (sampleAccumulated, sampleMerged) ∧
      sampleMerged.initialized_ = true ∧ sampleMerged.finalized_ = false ∧
      sampleMerged.accumulate_m_sqr_ = false ∧
      sampleMerged.cached_nfft_sqr_obj_.isSome = true := by
  have hr : SpAccumulator.Reachable sampleParameters true sampleAccumulated :=
    SpAccumulator.Reachable.accumulate _ _ _
      (SpAccumulator.Reachable.resetAccumulation (SpAccumulator.Reachable.construct true))
      sampleAccumulated_spec.1
  obtain ⟨a, ha, -⟩ := accumulating_binners _ hr.wellFormed sampleAccumulated_spec.2.1
  obtain ⟨T, e, -, s1, i1, f1, a1, -⟩ := sumTo_spec sampleAccumulated (sampleAccumulator false)
    a ha (hr.wellFormed.2.1 sampleAccumulated_spec.2.1)
  have key : sampleMerged = T := by
    unfold sampleMerged
    rw [e]
  rw [key]
  refine ⟨e, i1, f1, a1, ?_⟩
  rw [s1, sampleAccumulated_spec.2.2.1, sampleAccumulated_spec.2.2.2]
  rfl

/-- C13, counterexample to the claim as stated: an accumulator constructed with
`accumulate_m_squared = false` is reset and then receives, through `sumTo`, a source that
accumulates M squared. It is in the Accumulating state and owns a squared binner, before
and after a call of `accumulate`. -/
theorem C13_counterexample :
    SpAccumulator.calls sampleParameters (SpAccumulator.construct false)
        [SpAccumulator.Call.resetAccumulation,
          SpAccumulator.Call.sumTo_from sampleAccumulated] = Except.ok sampleMerged ∧
      sampleMerged.initialized_ = true ∧ sampleMerged.finalized_ = false ∧
      sampleMerged.accumulate_m_sqr_ = false ∧
      sampleMerged.cached_nfft_sqr_obj_.isSome = true ∧
      ∃ a', SpAccumulator.accumulate sampleParameters sampleMerged sampleMeasurement.Ms
          sampleMeasurement.configs sampleMeasurement.sign = Except.ok a' ∧
        a'.cached_nfft_sqr_obj_.isSome = true := by
  obtain ⟨e, hi, hf, ha, hs⟩ := sampleMerged_spec
  have hc : SpAccumulator.calls sampleParameters (SpAccumulator.construct false)
      [SpAccumulator.Call.resetAccumulation,
        SpAccumulator.Call.sumTo_from sampleAccumulated] = Except.ok sampleMerged := by
    simp only [SpAccumulator.calls, SpAccumulator.call]
    have e' : SpAccumulator.sumTo sampleAccumulated
        (SpAccumulator.construct false).resetAccumulation =
        Except.ok (sampleAccumulated, sampleMerged) := e
    rw [e']
  obtain ⟨r, hr⟩ := calls_reachable sampleParameters _ _ _ false
    (SpAccumulator.Reachable.construct false) hc
  obtain ⟨_, _, -, -, he⟩ := accumulate_eq sampleParameters sampleMerged sampleMeasurement.Ms
    sampleMeasurement.configs sampleMeasurement.sign hr.wellFormed hi
  refine ⟨hc, hi, hf, ha, hs, _, he, ?_⟩
  simp only [ha, Bool.false_eq_true, if_false]
  exact hs

/-- C13 (amended): for every accumulator in the Accumulating state, reached from its
constructor by any sequence of calls, one call of `accumulate` succeeds. If the accumulator
was constructed with `accumulate_m_squared = true`, the call sends to the squared binner of
channel s, for every ordered pair (i, j), the weight `sign * Ms[s](i, j)^2` at the bin index
and scaled time of the main contribution. If it was constructed with `false`, the call does
not touch the squared binner, and no squared binner exists unless a source that accumulates
M squared was merged into the accumulator. -/
theorem C13_accumulate_squared_contributions (P : Parameters) (accumulate_m_sqr : Bool)
    (cs : List SpAccumulator.Call) (a : SpAccumulator) (Ms : Fin 2 → Matrix)
    (configs : Fin 2 → Configuration) (sign : Int)
    (hc : SpAccumulator.calls P (SpAccumulator.construct accumulate_m_sqr) cs = Except.ok a)
    (hi : a.initialized_ = true) :
    ∃ a', SpAccumulator.accumulate P a Ms configs sign = Except.ok a' ∧
      (accumulate_m_sqr = true →
        ∃ sqr sqr', a.cached_nfft_sqr_obj_ = some sqr ∧ a'.cached_nfft_sqr_obj_ = some sqr' ∧
          ∀ s : Fin 2,
            sqr' s = Dnfft1D.accumulateList P (sqr s)
              (contributionsSqr P (Ms s) (configs s) sign) ∧
            (contributionsSqr P (Ms s) (configs s) sign).length = (configs s).length ^ 2 ∧
            ∀ p g : Int, sqr' s p g = sqr s p g +
              ∑ i in Finset.range (configs s).length, ∑ j in Finset.range (configs s).length,
                if p = P.bbr_dmn ((configs s).getD i default).right_band
                    ((configs s).getD j default).left_band
                    (P.subtract ((configs s).getD j default).left_site
                      ((configs s).getD i default).right_site) then
                  Dnfft1D.weight P
                    ((((configs s).getD i default).tau - ((configs s).getD j default).tau) /
                      (2 * P.beta)) g * ((sign : ℚ) * (Ms s i j) ^ 2)
                else 0) ∧
      (accumulate_m_sqr = false →
        a'.cached_nfft_sqr_obj_ = a.cached_nfft_sqr_obj_ ∧
        ((∀ c ∈ cs, c.mergesSquared = false) → a.cached_nfft_sqr_obj_ = none)) := by
  obtain ⟨r, hr⟩ := calls_reachable P cs _ a false
    (SpAccumulator.Reachable.construct accumulate_m_sqr) hc
  obtain ⟨hflag, hnone⟩ := calls_squared P cs _ a hc
  have hflag' : a.accumulate_m_sqr_ = accumulate_m_sqr := hflag
  obtain ⟨main, single, -, -, he⟩ := accumulate_eq P a Ms configs sign hr.wellFormed hi
  refine ⟨_, he, fun ht => ?_, fun hf => ⟨?_, fun hm => ?_⟩⟩
  · subst ht
    obtain ⟨sqr, hsq⟩ := Option.isSome_iff_exists.mp (hr.wellFormed.2.1 hi hflag')
    refine ⟨sqr, _, hsq, ?_, fun s => ⟨rfl, contributionsSqr_length _ _ _ _, fun p g => ?_⟩⟩
    · simp only [hflag', if_true, hsq, Option.map_some']
    · rw [accumulateList_apply]
      congr 1
      exact sum_map_flatMap _ (fun c => binValue P c p g)
        (fun i j => contributionSqr P (Ms s) (configs s) sign i j)
        (fun i j => by simp only [binValue, contributionSqr, contribution, pow_two, mul_assoc]) _
  · subst hf
    simp only [hflag', Bool.false_eq_true, if_false]
  · subst hf
    exact hnone rfl rfl hm

/-- C13 (amended) at the sample instance: the accumulator constructed with M squared, reset,
takes the sample measurement; channel 0 makes four squared contributions. -/
theorem C13_accumulate_squared_contributions_witness :
    SpAccumulator.calls sampleParameters (SpAccumulator.construct true)
        [SpAccumulator.Call.resetAccumulation] = Except.ok (sampleAccumulator true) ∧
      (sampleAccumulator true).initialized_ = true ∧
      ∃ a', SpAccumulator.accumulate sampleParameters (sampleAccumulator true)
          sampleMeasurement.Ms sampleMeasurement.configs sampleMeasurement.sign =
          Except.ok a' ∧
        ∃ sqr', a'.cached_nfft_sqr_obj_ = some sqr' ∧
          sqr' 0 = Dnfft1D.accumulateList sampleParameters (NfftPair.new 0)
            (contributionsSqr sampleParameters (sampleMeasurement.Ms 0)
              (sampleMeasurement.configs 0) sampleMeasurement.sign) :=
  ⟨rfl, rfl,
    match C13_accumulate_squared_contributions sampleParameters true
      [SpAccumulator.Call.resetAccumulation] (sampleAccumulator true) sampleMeasurement.Ms
      sampleMeasurement.configs sampleMeasurement.sign rfl rfl with
    | ⟨a', h1, h2, _⟩ =>
      match h2 rfl with
      | ⟨_, sqr', hs, hs', h3⟩ =>
        ⟨a', h1, sqr', hs', (Option.some.inj hs) ▸ (h3 0).1⟩⟩

/-! ## C14 -/

theorem sampleAccumulated_single :
    sampleAccumulated.single_measurement_M_r_t_ = some (fun s =>
      Dnfft1D.accumulateList sampleParameters Dnfft1D.resetAccumulation
        (contributions sampleParameters (sampleMeasurement.Ms s)
          (sampleMeasurement.configs s) sampleMeasurement.sign)) := by
  obtain ⟨m, sg, -, -, he⟩ := accumulate_eq sampleParameters (sampleAccumulator true)
    sampleMeasurement.Ms sampleMeasurement.configs sampleMeasurement.sign
    (WellFormed_resetAccumulation _) rfl
  rw [Except.ok.inj (sampleAccumulated_spec.1.symm.trans he)]

/-- The sample measurement puts -5 into bin 1 of channel 0 at grid point 0. -/
theorem sample_main_bin :
    Dnfft1D.accumulateList sampleParameters Dnfft1D.resetAccumulation
      (contributions sampleParameters (sampleMeasurement.Ms 0)
        (sampleMeasurement.configs 0) sampleMeasurement.sign) 1 0 = -5 := by
  rw [accumulateList_apply]
  norm_num [contributions, contribution, binValue, Dnfft1D.weight,
    Dnfft1D.resetAccumulation, sampleParameters, sampleMeasurement, List.range_succ,
    List.flatMap]

/-- C14, counterexample to the claim as stated: the accumulator that took the sample
measurement is in the Accumulating state and its single-measurement binner holds that
measurement; a call of `accumulate` with configurations of size 0 in both channels leaves
another single-measurement binner (bin 1 of channel 0 falls from -5 to 0). -/
theorem C14_counterexample :
    SpAccumulator.Reachable sampleParameters true sampleAccumulated ∧
      sampleAccumulated.initialized_ = true ∧
      ∃ a', SpAccumulator.accumulate sampleParameters sampleAccumulated sampleMeasurement.Ms
          (fun _ => []) sampleMeasurement.sign = Except.ok a' ∧
        a'.single_measurement_M_r_t_ ≠ sampleAccumulated.single_measurement_M_r_t_ := by
  have hr : SpAccumulator.Reachable sampleParameters true sampleAccumulated :=
    SpAccumulator.Reachable.accumulate _ _ _
      (SpAccumulator.Reachable.resetAccumulation (SpAccumulator.Reachable.construct true))
      sampleAccumulated_spec.1
  obtain ⟨_, _, -, -, he⟩ := accumulate_eq sampleParameters sampleAccumulated
    sampleMeasurement.Ms (fun _ => []) sampleMeasurement.sign hr.wellFormed
    sampleAccumulated_spec.2.1
  refine ⟨hr, sampleAccumulated_spec.2.1, _, he, ?_⟩
  rw [sampleAccumulated_single]
  intro h
  have h0 := congrFun (congrFun (congrFun (Option.some.inj h) 0) 1) 0
  rw [sample_main_bin] at h0
  revert h0
  norm_num [contributions, Dnfft1D.accumulateList, Dnfft1D.resetAccumulation]

/-- C14 (amended): for every accumulator in the Accumulating state, whatever its history,
`accumulate` called with configurations of size 0 in both spin channels succeeds and leaves
the main binner and the squared binner equal to their state before the call; the
single-measurement binner is reset: after the call it is empty in both channels. -/
theorem C14_empty_configurations (P : Parameters) (a : SpAccumulator) (r : Bool)
    (Ms : Fin 2 → Matrix) (configs : Fin 2 → Configuration) (sign : Int)
    (hr : SpAccumulator.Reachable P r a) (hi : a.initialized_ = true)
    (h0 : ∀ s, (configs s).length = 0) :
    ∃ a', SpAccumulator.accumulate P a Ms configs sign = Except.ok a' ∧
      a'.cached_nfft_obj_ = a.cached_nfft_obj_ ∧
      a'.cached_nfft_sqr_obj_ = a.cached_nfft_sqr_obj_ ∧
      a'.single_measurement_M_r_t_ = some (fun _ => Dnfft1D.resetAccumulation) := by
  obtain ⟨main, single, hm, -, he⟩ := accumulate_eq P a Ms configs sign hr.wellFormed hi
  have hc : ∀ s, contributions P (Ms s) (configs s) sign = [] := fun s => by
    rw [List.length_eq_zero.mp (h0 s)]
    rfl
  have hq : ∀ s, contributionsSqr P (Ms s) (configs s) sign = [] := fun s => by
    rw [List.length_eq_zero.mp (h0 s)]
    rfl
  refine ⟨_, he, ?_, ?_, ?_⟩
  · simp only [hc, Dnfft1D.accumulateList, List.foldl_nil]
    exact hm.symm
  · simp only [hq, Dnfft1D.accumulateList, List.foldl_nil]
    cases a.accumulate_m_sqr_ <;> cases a.cached_nfft_sqr_obj_ <;> rfl
  · simp only [hc, Dnfft1D.accumulateList, List.foldl_nil]

/-- C14 (amended) at the sample instance: the accumulator that took the sample measurement
takes a measurement with empty configurations. -/
theorem C14_empty_configurations_witness :
    SpAccumulator.Reachable sampleParameters true sampleAccumulated ∧
      sampleAccumulated.initialized_ = true ∧
      ∃ a', SpAccumulator.accumulate sampleParameters sampleAccumulated sampleMeasurement.Ms
          (fun _ => []) sampleMeasurement.sign = Except.ok a' ∧
        a'.cached_nfft_obj_ = sampleAccumulated.cached_nfft_obj_ ∧
        a'.cached_nfft_sqr_obj_ = sampleAccumulated.cached_nfft_sqr_obj_ ∧
        a'.single_measurement_M_r_t_ = some (fun _ => Dnfft1D.resetAccumulation) :=
  have hr : SpAccumulator.Reachable sampleParameters true sampleAccumulated :=
    SpAccumulator.Reachable.accumulate _ _ _
      (SpAccumulator.Reachable.resetAccumulation (SpAccumulator.Reachable.construct true))
      sampleAccumulated_spec.1
  ⟨hr, sampleAccumulated_spec.2.1,
    C14_empty_configurations sampleParameters sampleAccumulated true sampleMeasurement.Ms
      (fun _ => []) sampleMeasurement.sign hr sampleAccumulated_spec.2.1 (fun _ => rfl)⟩

/-! ## C15 -/

theorem flatMap_map_eq {α β γ : Type} (g : α → β) (f : β → List γ) (l : List α) :
    (l.map g).flatMap f = l.flatMap (fun x => f (g x)) := by
  induction l with
  | nil => rfl
  | cons x l ih => simp only [List.map_cons, List.flatMap_cons, ih]

/-- Measurement sequences that agree on channel `s` make the same contributions to it. -/
theorem contributions_of_channel (P : Parameters) (s : Fin 2) (ms1 ms2 : List Measurement)
    (h : ms1.map (fun m => (m.Ms s, m.configs s, m.sign)) =
      ms2.map (fun m => (m.Ms s, m.configs s, m.sign))) :
    ms1.flatMap (fun m => contributions P (m.Ms s) (m.configs s) m.sign) =
      ms2.flatMap (fun m => contributions P (m.Ms s) (m.configs s) m.sign) := by
  have e := fun ms : List Measurement => flatMap_map_eq
    (fun m : Measurement => (m.Ms s, m.configs s, m.sign))
    (fun t : Matrix × Configuration × Int => contributions P t.1 t.2.1 t.2.2) ms
  rw [← e ms1, ← e ms2, h]

/-- A freshly reset accumulator that took the measurements `ms` and was finalized returns a
function whose diagonal block of channel `s` is the normalized transform of the binner
holding the contributions of channel `s`. -/
theorem finalize_fresh_block (P : Parameters) (accumulate_m_sqr : Bool)
    (ms : List Measurement) :
    ∃ a F M, SpAccumulator.accumulateAll P
        (SpAccumulator.construct accumulate_m_sqr).resetAccumulation ms = Except.ok a ∧
      SpAccumulator.finalize P a = Except.ok F ∧
      SpAccumulator.get_sign_times_M_r_w F = Except.ok M ∧
      ∀ (s : Fin 2) (b1 b2 r w : Nat), b1 < P.b_size → b2 < P.b_size → r < P.r_size →
        w < P.w_size →
        M (b1, s.val, b2, s.val, r, w) =
          Cplx.scale (P.transform (Dnfft1D.accumulateList P Dnfft1D.resetAccumulation
            (ms.flatMap (fun m => contributions P (m.Ms s) (m.configs s) m.sign))) w b1 b2 r)
            (1 / (P.r_size : ℚ)) := by
  obtain ⟨a, h1, hw, hi, hf, -, -, hc, -⟩ := accumulateAll_fresh P accumulate_m_sqr ms
  have e := finalize_eq P a _ hf hc (hw.2.1 hi)
  refine ⟨a, _, _, h1, e, rfl, fun s b1 b2 r w hb1 hb2 hr hw' => ?_⟩
  rw [finalizeFunction_apply P _ MFunction.new s b1 b2 r w hb1 hb2 hr hw']
  simp only [MFunction.new, Cplx.zero_add]

/-- C15: for every spin channel s, two accumulators (freshly reset, with any setting of
M squared) whose accumulated measurements agree on channel s, in matrix, configuration and
sign, and differ arbitrarily on the other channel, return after `finalize` functions with
identical diagonal spin blocks (s, s); the block is the transform of the binner holding the
contributions of channel s alone, times `1 / N_cluster_sites`. -/
theorem C15_diagonal_block_of_own_channel (P : Parameters) (sqr1 sqr2 : Bool) (s : Fin 2)
    (ms1 ms2 : List Measurement)
    (h : ms1.map (fun m => (m.Ms s, m.configs s, m.sign)) =
      ms2.map (fun m => (m.Ms s, m.configs s, m.sign))) :
    ∃ a1 a2 F1 F2 M1 M2,
      SpAccumulator.accumulateAll P (SpAccumulator.construct sqr1).resetAccumulation ms1 =
        Except.ok a1 ∧
      SpAccumulator.accumulateAll P (SpAccumulator.construct sqr2).resetAccumulation ms2 =
        Except.ok a2 ∧
      SpAccumulator.finalize P a1 = Except.ok F1 ∧
      SpAccumulator.finalize P a2 = Except.ok F2 ∧
      SpAccumulator.get_sign_times_M_r_w F1 = Except.ok M1 ∧
      SpAccumulator.get_sign_times_M_r_w F2 = Except.ok M2 ∧
      ∀ b1 b2 r w : Nat, b1 < P.b_size → b2 < P.b_size → r < P.r_size → w < P.w_size →
        M1 (b1, s.val, b2, s.val, r, w) = M2 (b1, s.val, b2, s.val, r, w) ∧
        M1 (b1, s.val, b2, s.val, r, w) =
          Cplx.scale (P.transform (Dnfft1D.accumulateList P Dnfft1D.resetAccumulation
            (ms1.flatMap (fun m => contributions P (m.Ms s) (m.configs s) m.sign))) w b1 b2 r)
            (1 / (P.r_size : ℚ)) := by
  obtain ⟨a1, F1, M1, h1, h2, h3, h4⟩ := finalize_fresh_block P sqr1 ms1
  obtain ⟨a2, F2, M2, g1, g2, g3, g4⟩ := finalize_fresh_block P sqr2 ms2
  refine ⟨a1, a2, F1, F2, M1, M2, h1, g1, h2, g2, h3, g3, fun b1 b2 r w hb1 hb2 hr hw => ?_⟩
  refine ⟨?_, h4 s b1 b2 r w hb1 hb2 hr hw⟩
  rw [h4 s b1 b2 r w hb1 hb2 hr hw, g4 s b1 b2 r w hb1 hb2 hr hw,
    contributions_of_channel P s ms1 ms2 h]

/-- C15 at the sample instance: the sample measurement, and the sample measurement with a
vertex operator added to channel 1 and another matrix there, agree on channel 0. -/
theorem C15_diagonal_block_of_own_channel_witness :
    ∃ a1 a2 F1 F2 M1 M2,
      SpAccumulator.accumulateAll sampleParameters (sampleAccumulator false)
        [sampleMeasurement] = Except.ok a1 ∧
      SpAccumulator.accumulateAll sampleParameters (sampleAccumulator true)
        [⟨fun t => if t = 0 then sampleMeasurement.Ms 0 else fun _ _ => 7,
          fun t => if t = 0 then sampleMeasurement.configs 0 else [⟨0, 0, 1, 1, 1 / 4⟩],
          sampleMeasurement.sign⟩] = Except.ok a2 ∧
      SpAccumulator.finalize sampleParameters a1 = Except.ok F1 ∧
      SpAccumulator.finalize sampleParameters a2 = Except.ok F2 ∧
      SpAccumulator.get_sign_times_M_r_w F1 = Except.ok M1 ∧
      SpAccumulator.get_sign_times_M_r_w F2 = Except.ok M2 ∧
      M1 (0, 0, 0, 0, 1, 0) = M2 (0, 0, 0, 0, 1, 0) :=
  match C15_diagonal_block_of_own_channel sampleParameters false true 0 [sampleMeasurement]
    [⟨fun t => if t = 0 then sampleMeasurement.Ms 0 else fun _ _ => 7,
      fun t => if t = 0 then sampleMeasurement.configs 0 else [⟨0, 0, 1, 1, 1 / 4⟩],
      sampleMeasurement.sign⟩] rfl with
  | ⟨a1, a2, F1, F2, M1, M2, h1, h2, h3, h4, h5, h6, h7⟩ =>
    ⟨a1, a2, F1, F2, M1, M2, h1, h2, h3, h4, h5, h6,
      (h7 0 0 1 0 (by decide) (by decide) (by decide) (by decide)).1⟩

/-! ## C16 -/

theorem foldl_preserves {σ κ β : Type} (proj : σ → β) (body : κ → σ → σ)
    (h : ∀ k st, proj (body k st) = proj st) (L : List κ) (st : σ) :
    proj (L.foldl (fun st k => body k st) st) = proj st := by
  induction L generalizing st with
  | nil => rfl
  | cons k L ih => rw [List.foldl_cons, ih, h]

theorem Binners_eq_of_cached_sqr (st : Binners) (x : NfftPair) (h : st.cached_sqr = x) :
    st = { cached := st.cached, cached_sqr := x, single := st.single } := by
  subst h
  rfl

/-- Without M squared the loops of one channel leave the squared binners alone. -/
theorem accumulateChannel_false_cached_sqr (P : Parameters) (M : Matrix)
    (config : Configuration) (sign : Int) (s : Fin 2) (st : Binners) :
    (SpAccumulator.accumulateChannel P false M config sign s st).cached_sqr = st.cached_sqr := by
  unfold SpAccumulator.accumulateChannel
  exact foldl_preserves Binners.cached_sqr _
    (fun j st => foldl_preserves Binners.cached_sqr
      (fun i st => SpAccumulator.accumulateEntry P false M config sign s j i st)
      (fun i st => rfl) _ st) _ st

/-- The statements of `accumulate`, run one after the other, return what `accumulate`
returns and throw what it throws. -/
theorem accumulate_eq_runStatements (P : Parameters) (a : SpAccumulator) (Ms : Fin 2 → Matrix)
    (configs : Fin 2 → Configuration) (sign : Int) :
    SpAccumulator.accumulate P a Ms configs sign =
      match runStatements (SpAccumulator.accumulate_statements P Ms configs sign) a with
      | (a', none) => Except.ok a'
      | (_, some e) => Except.error e := by
  rcases a with ⟨init, fin, flag, M, Msq, sM, c, cs, sg⟩
  cases init with
  | false => rfl
  | true =>
    cases sg with
    | none => rfl
    | some single =>
      cases c with
      | none => rfl
      | some cached =>
        cases flag with
        | true =>
          cases cs with
          | none => rfl
          | some cached_sqr => rfl
        | false =>
          simp only [SpAccumulator.accumulate, SpAccumulator.accumulate_statements,
            runStatements, SpAccumulator.accumulate_check, SpAccumulator.accumulate_resetSingle,
            SpAccumulator.accumulate_channel, SpAccumulator.accumulateLoops, finRange_two,
            List.foldl_cons, List.foldl_nil, Bool.not_true, Bool.false_eq_true, if_false]
          have e := accumulateChannel_false_cached_sqr P (Ms 0) (configs 0) sign 0
            { cached := cached, cached_sqr := NfftPair.new,
              single := Function.update (Function.update single 0 Dnfft1D.resetAccumulation) 1
                Dnfft1D.resetAccumulation }
          have e' := Binners_eq_of_cached_sqr _ NfftPair.new e
          rw [← e']

/-- C16: whenever `accumulate` fails with the logic error "The accumulator was not
initialized.", it was thrown by the first statement: the flag `initialized_` is not set, and
the accumulator at the throw is the accumulator before the call, so no binner (main,
squared, single-measurement), no finalized function and no flag has been modified. -/
theorem C16_not_initialized_modifies_nothing (P : Parameters) (a : SpAccumulator)
    (Ms : Fin 2 → Matrix) (configs : Fin 2 → Configuration) (sign : Int)
    (h : SpAccumulator.accumulate P a Ms configs sign =
      Except.error (Error.logic_error "The accumulator was not initialized.")) :
    a.initialized_ = false ∧
      runStatements (SpAccumulator.accumulate_statements P Ms configs sign) a =
        (a, some (Error.logic_error "The accumulator was not initialized.")) := by
  have hi : a.initialized_ = false := by
    rcases a with ⟨init, fin, flag, M, Msq, sM, c, cs, sg⟩
    cases init <;> cases flag <;> cases c <;> cases cs <;> cases sg <;>
      simp [SpAccumulator.accumulate] at h ⊢
  refine ⟨hi, ?_⟩
  simp [runStatements, SpAccumulator.accumulate_statements, SpAccumulator.accumulate_check, hi]

/-- C16 at the sample instance: a newly constructed accumulator refuses the sample
measurement and stays as constructed. -/
theorem C16_not_initialized_modifies_nothing_witness :
    SpAccumulator.accumulate sampleParameters (SpAccumulator.construct true)
        sampleMeasurement.Ms sampleMeasurement.configs sampleMeasurement.sign =
        Except.error (Error.logic_error "The accumulator was not initialized.") ∧
      runStatements (SpAccumulator.accumulate_statements sampleParameters sampleMeasurement.Ms
          sampleMeasurement.configs sampleMeasurement.sign) (SpAccumulator.construct true) =
        (SpAccumulator.construct true,
          some (Error.logic_error "The accumulator was not initialized.")) :=
  ⟨rfl, (C16_not_initialized_modifies_nothing sampleParameters (SpAccumulator.construct true)
    sampleMeasurement.Ms sampleMeasurement.configs sampleMeasurement.sign rfl).2⟩

/-! ## C20 -/

/-- C20, counterexample to the claim as stated: an accumulator constructed with
`accumulate_m_squared = false`, after `resetAccumulation` and after being the target of the
`sumTo` of a source that accumulates M squared, is in the Accumulating state and owns a
squared binner although M squared is not enabled. -/
theorem C20_counterexample :
    ∃ a, SpAccumulator.calls sampleParameters (SpAccumulator.construct false)
        [SpAccumulator.Call.resetAccumulation,
          SpAccumulator.Call.sumTo_from sampleAccumulated] = Except.ok a ∧
      a.initialized_ = true ∧ a.finalized_ = false ∧
      ¬ (a.cached_nfft_sqr_obj_.isSome = true ↔ a.accumulate_m_sqr_ = true) := by
  obtain ⟨e, hi, hf, ha, hs⟩ := sampleMerged_spec
  refine ⟨sampleMerged, ?_, hi, hf, ?_⟩
  · simp only [SpAccumulator.calls, SpAccumulator.call]
    have e' : SpAccumulator.sumTo sampleAccumulated
        (SpAccumulator.construct false).resetAccumulation =
        Except.ok (sampleAccumulated, sampleMerged) := e
    rw [e']
  · rw [hs, ha]
    simp

/-- C20 (amended): over every sequence of `resetAccumulation`, `accumulate`, `finalize`,
`sumTo` (as source or as target) and getter calls on an accumulator, the flags
`initialized_` and `finalized_` are never both true, so the accumulator is in exactly one
of Uninitialized (neither), Accumulating (initialized only) or Finalized (finalized only);
in Accumulating the main and single-measurement binners are present, and the squared
binner is present if M squared is enabled; without M squared no squared binner is present
unless a source that accumulates M squared was merged into the accumulator; in Finalized
the function M_r_w is present. -/
theorem C20_protocol_states (P : Parameters) (accumulate_m_sqr : Bool)
    (cs : List SpAccumulator.Call) (a : SpAccumulator)
    (hc : SpAccumulator.calls P (SpAccumulator.construct accumulate_m_sqr) cs = Except.ok a) :
    ¬ (a.initialized_ = true ∧ a.finalized_ = true) ∧
      ((a.initialized_ = false ∧ a.finalized_ = false) ∨
        (a.initialized_ = true ∧ a.finalized_ = false) ∨
        (a.initialized_ = false ∧ a.finalized_ = true)) ∧
      a.accumulate_m_sqr_ = accumulate_m_sqr ∧
      (a.initialized_ = true →
        a.cached_nfft_obj_.isSome = true ∧ a.single_measurement_M_r_t_.isSome = true ∧
        (accumulate_m_sqr = true → a.cached_nfft_sqr_obj_.isSome = true) ∧
        (accumulate_m_sqr = false → (∀ c ∈ cs, c.mergesSquared = false) →
          a.cached_nfft_sqr_obj_ = none)) ∧
      (a.finalized_ = true → a.M_r_w_.isSome = true) := by
  obtain ⟨r, hr⟩ := calls_reachable P cs _ a false
    (SpAccumulator.Reachable.construct accumulate_m_sqr) hc
  obtain ⟨hflag, hnone⟩ := calls_squared P cs _ a hc
  have hflag' : a.accumulate_m_sqr_ = accumulate_m_sqr := hflag
  obtain ⟨w1, w2, w3, -, w5⟩ := hr.wellFormed
  have hx : ¬ (a.initialized_ = true ∧ a.finalized_ = true) := by
    rintro ⟨h1, h2⟩
    rw [w5 h2] at h1
    exact absurd h1 (by decide)
  refine ⟨hx, ?_, hflag', fun hi => ⟨(w1 hi).1, (w1 hi).2, fun ht => w2 hi (hflag'.trans ht),
    fun hf hm => ?_⟩, w3⟩
  · cases h1 : a.initialized_ <;> cases h2 : a.finalized_ <;> simp
    exact hx ⟨h1, h2⟩
  · subst hf
    exact hnone rfl rfl hm

/-- C20 (amended) at the sample instance: constructed with M squared, reset, the sample
measurement accumulated, merged into a target, finalized, and the function read. -/
theorem C20_protocol_states_witness :
    ∃ a, SpAccumulator.calls sampleParameters (SpAccumulator.construct true)
        [SpAccumulator.Call.resetAccumulation,
          SpAccumulator.Call.accumulate sampleMeasurement.Ms sampleMeasurement.configs
            sampleMeasurement.sign,
          SpAccumulator.Call.sumTo (SpAccumulator.construct true),
          SpAccumulator.Call.finalize,
          SpAccumulator.Call.get_sign_times_M_r_w] = Except.ok a ∧
      a.finalized_ = true ∧ a.M_r_w_.isSome = true := by
  have hr : SpAccumulator.Reachable sampleParameters true sampleAccumulated :=
    SpAccumulator.Reachable.accumulate _ _ _
      (SpAccumulator.Reachable.resetAccumulation (SpAccumulator.Reachable.construct true))
      sampleAccumulated_spec.1
  obtain ⟨c, hc, -⟩ := accumulating_binners _ hr.wellFormed sampleAccumulated_spec.2.1
  have e1 := sumTo_eq sampleAccumulated (SpAccumulator.construct true) c hc
    (hr.wellFormed.2.1 sampleAccumulated_spec.2.1)
  have hf : sampleAccumulated.finalized_ = false := by
    cases h : sampleAccumulated.finalized_
    · rfl
    · have := hr.wellFormed.2.2.2.2 h
      rw [sampleAccumulated_spec.2.1] at this
      exact absurd this (by decide)
  have e2 := finalize_eq sampleParameters sampleAccumulated c hf hc
    (hr.wellFormed.2.1 sampleAccumulated_spec.2.1)
  have e0 : SpAccumulator.accumulate sampleParameters
      (SpAccumulator.construct true).resetAccumulation sampleMeasurement.Ms
      sampleMeasurement.configs sampleMeasurement.sign = Except.ok sampleAccumulated :=
    sampleAccumulated_spec.1
  have hcalls : ∃ a, SpAccumulator.calls sampleParameters (SpAccumulator.construct true)
      [SpAccumulator.Call.resetAccumulation,
        SpAccumulator.Call.accumulate sampleMeasurement.Ms sampleMeasurement.configs
          sampleMeasurement.sign,
        SpAccumulator.Call.sumTo (SpAccumulator.construct true),
        SpAccumulator.Call.finalize,
        SpAccumulator.Call.get_sign_times_M_r_w] = Except.ok a ∧ a.finalized_ = true := by
    simp only [SpAccumulator.calls, SpAccumulator.call, e0, e1, e2]
    exact ⟨_, rfl, rfl⟩
  obtain ⟨a, ha, hfin⟩ := hcalls
  exact ⟨a, ha, hfin, (C20_protocol_states sampleParameters true _ a ha).2.2.2.2 hfin⟩

/-! ## C17 -/

/-- Each pair of calls `updateFrom(walker); measure();` counts one measurement and adds the
sign of the walker to the accumulated sign. -/
theorem measureAll_sign {Sp F Cfg Mat : Type} (R : SsCtHybRoutines Sp F Cfg Mat)
    (walkers : List (SsCtHybWalker Cfg Mat)) (a : SsCtHybAccumulator Sp F Cfg Mat) :
    (SsCtHybAccumulator.measureAll R a walkers).number_of_measurements_ =
        a.number_of_measurements_ + walkers.length ∧
      (SsCtHybAccumulator.measureAll R a walkers).accumulated_phase_ =
        a.accumulated_phase_ + (walkers.map (fun w => w.sign)).sum := by
  induction walkers generalizing a with
  | nil => simp [SsCtHybAccumulator.measureAll]
  | cons w ws ih =>
    have h := ih (SsCtHybAccumulator.measure R (a.updateFrom w))
    simp only [SsCtHybAccumulator.measureAll, List.foldl_cons] at h ⊢
    rw [h.1, h.2]
    simp only [SsCtHybAccumulator.measure, SsCtHybAccumulator.updateFrom, List.length_cons,
      List.map_cons, List.sum_cons]
    constructor
    · push_cast
      ring
    · ring

theorem sum_map_of_constant {α : Type} (f : α → ℚ) (s : ℚ) (l : List α)
    (h : ∀ x ∈ l, f x = s) : (l.map f).sum = (l.length : ℚ) * s := by
  induction l with
  | nil => simp
  | cons x l ih =>
    rw [List.map_cons, List.sum_cons, h x (List.mem_cons_self _ _),
      ih (fun y hy => h y (List.mem_cons_of_mem _ hy)), List.length_cons]
    push_cast
    ring

/-- C17: after `initialize` and N >= 1 measurements (`updateFrom(walker); measure();`) with
the signs s_1..s_N, `number_of_measurements_` is N and the accumulated sign is
s_1 + ... + s_N, so the average sign is the arithmetic mean of the signs, and it is s when
all N signs are s. `sumTo` adds the number of measurements and the accumulated sign of the
source to those of any target, so the average sign of a target that made its own
measurements after `initialize` becomes the mean over the samples of both accumulators. -/
theorem C17_sign_accumulation {Sp F Cfg Mat : Type} (R : SsCtHybRoutines Sp F Cfg Mat)
    (a b : SsCtHybAccumulator Sp F Cfg Mat) (it1 it2 : Int)
    (ws1 ws2 : List (SsCtHybWalker Cfg Mat)) (h : ws1 ≠ []) :
    (SsCtHybAccumulator.measureAll R
        ( SsCtHybAccumulator.initialize R a it1) ws1).number_of_measurements_ = ws1.length ∧
      (SsCtHybAccumulator.measureAll R
        ( SsCtHybAccumulator.initialize R a it1) ws1).accumulated_phase_ =
        (ws1.map (fun w => w.sign)).sum ∧
      (SsCtHybAccumulator.measureAll R
        ( SsCtHybAccumulator.initialize R a it1) ws1).averageSign =
        (ws1.map (fun w => w.sign)).sum / (ws1.length : ℚ) ∧
      (∀ s : ℚ, (∀ w ∈ ws1, w.sign = s) →
        (SsCtHybAccumulator.measureAll R
          ( SsCtHybAccumulator.initialize R a it1) ws1).averageSign = s) ∧
      (∀ other : SsCtHybAccumulator Sp F Cfg Mat,
        (SsCtHybAccumulator.sumTo R (SsCtHybAccumulator.measureAll R
            ( SsCtHybAccumulator.initialize R a it1) ws1) other).2.number_of_measurements_ =
          other.number_of_measurements_ + ws1.length ∧
        (SsCtHybAccumulator.sumTo R (SsCtHybAccumulator.measureAll R
            ( SsCtHybAccumulator.initialize R a it1) ws1) other).2.accumulated_phase_ =
          other.accumulated_phase_ + (ws1.map (fun w => w.sign)).sum) ∧
      (SsCtHybAccumulator.sumTo R
          (SsCtHybAccumulator.measureAll R ( SsCtHybAccumulator.initialize R a it1) ws1)
          (SsCtHybAccumulator.measureAll R
            ( SsCtHybAccumulator.initialize R b it2) ws2)).2.averageSign =
        ((ws2 ++ ws1).map (fun w => w.sign)).sum / ((ws2 ++ ws1).length : ℚ) := by
  have hA := measureAll_sign R ws1 ( SsCtHybAccumulator.initialize R a it1)
  have hB := measureAll_sign R ws2 ( SsCtHybAccumulator.initialize R b it2)
  have hA1 : (SsCtHybAccumulator.measureAll R
      ( SsCtHybAccumulator.initialize R a it1) ws1).number_of_measurements_ = ws1.length := by
    rw [hA.1]
    simp [ SsCtHybAccumulator.initialize, MC_accumulator_data.initialize]
  have hA2 : (SsCtHybAccumulator.measureAll R
      ( SsCtHybAccumulator.initialize R a it1) ws1).accumulated_phase_ =
      (ws1.map (fun w => w.sign)).sum := by
    rw [hA.2]
    simp [ SsCtHybAccumulator.initialize, MC_accumulator_data.initialize]
  have hB1 : (SsCtHybAccumulator.measureAll R
      ( SsCtHybAccumulator.initialize R b it2) ws2).number_of_measurements_ = ws2.length := by
    rw [hB.1]
    simp [ SsCtHybAccumulator.initialize, MC_accumulator_data.initialize]
  have hB2 : (SsCtHybAccumulator.measureAll R
      ( SsCtHybAccumulator.initialize R b it2) ws2).accumulated_phase_ =
      (ws2.map (fun w => w.sign)).sum := by
    rw [hB.2]
    simp [ SsCtHybAccumulator.initialize, MC_accumulator_data.initialize]
  have hN : (ws1.length : ℚ) ≠ 0 := by
    have : ws1.length ≠ 0 := fun e => h (List.length_eq_zero.mp e)
    exact_mod_cast this
  refine ⟨hA1, hA2, ?_, ?_, ?_, ?_⟩
  · simp only [SsCtHybAccumulator.averageSign, hA1, hA2]
    push_cast
    rfl
  · intro s hs
    simp only [SsCtHybAccumulator.averageSign, hA1, hA2]
    rw [sum_map_of_constant _ s ws1 hs]
    push_cast
    field_simp
  · intro other
    simp only [SsCtHybAccumulator.sumTo, hA1, hA2]
    exact ⟨trivial, trivial⟩
  · simp only [SsCtHybAccumulator.averageSign, SsCtHybAccumulator.sumTo, hA1, hA2, hB1, hB2,
      List.map_append, List.sum_append, List.length_append]
    push_cast
    rfl

/-- C17 at the sample instance: three measurements with the signs 1, -1, 1 after
`initialize`, whatever the accumulator held before. -/
theorem C17_sign_accumulation_witness :
    ([⟨1, 2, ()⟩, ⟨-1, 1, ()⟩, ⟨1, 0, ()⟩] : List (SsCtHybWalker Nat Unit)) ≠ [] ∧
      (SsCtHybAccumulator.measureAll sampleSsCtHybRoutines
        ( SsCtHybAccumulator.initialize sampleSsCtHybRoutines sampleSsCtHyb 1)
        [⟨1, 2, ()⟩, ⟨-1, 1, ()⟩, ⟨1, 0, ()⟩]).number_of_measurements_ = 3 ∧
      (SsCtHybAccumulator.measureAll sampleSsCtHybRoutines
        ( SsCtHybAccumulator.initialize sampleSsCtHybRoutines sampleSsCtHyb 1)
        [⟨1, 2, ()⟩, ⟨-1, 1, ()⟩, ⟨1, 0, ()⟩]).accumulated_phase_ =
        (([⟨1, 2, ()⟩, ⟨-1, 1, ()⟩, ⟨1, 0, ()⟩] : List (SsCtHybWalker Nat Unit)).map
          (fun w => w.sign)).sum :=
  ⟨List.cons_ne_nil _ _,
    (C17_sign_accumulation sampleSsCtHybRoutines sampleSsCtHyb sampleSsCtHyb 1 1
      [⟨1, 2, ()⟩, ⟨-1, 1, ()⟩, ⟨1, 0, ()⟩] [] (List.cons_ne_nil _ _)).1,
    (C17_sign_accumulation sampleSsCtHybRoutines sampleSsCtHyb sampleSsCtHyb 1 1
      [⟨1, 2, ()⟩, ⟨-1, 1, ()⟩, ⟨1, 0, ()⟩] [] (List.cons_ne_nil _ _)).2.1⟩

/-! ## C18 -/

/-- When the distance has not been computed, `computeMahalanobisDistanceSquared` calls the
eigen-decomposition exactly once. -/
theorem computeMahalanobisDistanceSquared_count (L : LinearAlgebra) (t : StatisticalTesting)
    (h : t.distance_ = -1) :
    (StatisticalTesting.computeMahalanobisDistanceSquared L t).1.count Routine.syevd = 1 := by
  unfold StatisticalTesting.computeMahalanobisDistanceSquared
  rw [if_neg (not_not.mpr h)]
  rcases hs : L.syevd t.df_.length t.cov_ with ⟨⟨cov, ev⟩, _ | e⟩ <;> simp [hs]

/-- C18: in `computeFastMahalanobisDistanceSquared`, entered with the distance not yet
computed: when the Cholesky factorization throws a `LapackException`, the routines called
are `potrf` followed by those of one run of `computeMahalanobisDistanceSquared`, which is
given the members `df_` and `cov_` as they were (the factorization has written to its copy
only) and calls the eigen-decomposition exactly once; the object it leaves, with the
distance, is the result, and an exception it throws is the exception of the call. When the
factorization succeeds, the routines called are `potrf`, `trsv` and `dot`: the
eigen-decomposition is not run. -/
theorem C18_cholesky_fallback (L : LinearAlgebra) (t : StatisticalTesting)
    (h : t.distance_ = -1) :
    (∀ (info : Int) (c : List ℚ),
        L.potrf t.df_.length t.cov_ = (c, some (Exception.LapackException info)) →
        StatisticalTesting.computeFastMahalanobisDistanceSquared L t =
          (Routine.potrf :: (StatisticalTesting.computeMahalanobisDistanceSquared L
              { t with dof_ := (t.df_.length : Int) }).1,
            (StatisticalTesting.computeMahalanobisDistanceSquared L
              { t with dof_ := (t.df_.length : Int) }).2) ∧
        ({ t with dof_ := (t.df_.length : Int) } : StatisticalTesting).df_ = t.df_ ∧
        ({ t with dof_ := (t.df_.length : Int) } : StatisticalTesting).cov_ = t.cov_ ∧
        (StatisticalTesting.computeFastMahalanobisDistanceSquared L t).1.count
          Routine.syevd = 1 ∧
        (∀ (r : List ℚ × List ℚ) (e : Exception), L.syevd t.df_.length t.cov_ = (r, some e) →
          (StatisticalTesting.computeFastMahalanobisDistanceSquared L t).2 = Except.error e) ∧
        (∀ r : List ℚ × List ℚ, L.syevd t.df_.length t.cov_ = (r, none) →
          ∃ t', (StatisticalTesting.computeFastMahalanobisDistanceSquared L t).2 =
              Except.ok t' ∧
            t'.distance_ = ((List.range t.df_.length).foldl
              (StatisticalTesting.eigenStep L r.2 (L.gemv t.df_.length r.1 t.df_)
                (10 * r.2.getD (t.df_.length - 1) 0 * L.epsilon)) (0, [], 0)).1)) ∧
      (∀ c : List ℚ, L.potrf t.df_.length t.cov_ = (c, none) →
        StatisticalTesting.computeFastMahalanobisDistanceSquared L t =
          ([Routine.potrf, Routine.trsv, Routine.dot], Except.ok
            { t with
              dof_ := (t.df_.length : Int)
              df_ := L.trsv t.df_.length c t.df_
              distance_ := L.dot t.df_.length (L.trsv t.df_.length c t.df_)
                (L.trsv t.df_.length c t.df_) }) ∧
        (StatisticalTesting.computeFastMahalanobisDistanceSquared L t).1.count
          Routine.syevd = 0) := by
  have hne : ¬ t.distance_ ≠ -1 := not_not.mpr h
  refine ⟨fun info c hp => ?_, fun c hp => ?_⟩
  · have e : StatisticalTesting.computeFastMahalanobisDistanceSquared L t =
        (Routine.potrf :: (StatisticalTesting.computeMahalanobisDistanceSquared L
            { t with dof_ := (t.df_.length : Int) }).1,
          (StatisticalTesting.computeMahalanobisDistanceSquared L
            { t with dof_ := (t.df_.length : Int) }).2) := by
      unfold StatisticalTesting.computeFastMahalanobisDistanceSquared
      rw [if_neg hne]
      simp only [hp]
    refine ⟨e, rfl, rfl, ?_, ?_, ?_⟩
    · rw [e]
      simp only [List.count_cons, computeMahalanobisDistanceSquared_count L
        { t with dof_ := (t.df_.length : Int) } h]
      simp
    · intro r x hs
      rw [e]
      unfold StatisticalTesting.computeMahalanobisDistanceSquared
      simp only [if_neg hne, hs]
    · intro r hs
      rw [e]
      unfold StatisticalTesting.computeMahalanobisDistanceSquared
      simp only [if_neg hne, hs]
      exact ⟨_, rfl, rfl⟩
  · have e : StatisticalTesting.computeFastMahalanobisDistanceSquared L t =
        ([Routine.potrf, Routine.trsv, Routine.dot], Except.ok
          { t with
            dof_ := (t.df_.length : Int)
            df_ := L.trsv t.df_.length c t.df_
            distance_ := L.dot t.df_.length (L.trsv t.df_.length c t.df_)
              (L.trsv t.df_.length c t.df_) }) := by
      unfold StatisticalTesting.computeFastMahalanobisDistanceSquared
      rw [if_neg hne]
      simp only [hp]
    refine ⟨e, ?_⟩
    rw [e]
    rfl

/-- C18 at the sample instance: the factorization fails with `LapackException`, and the
eigen-decomposition is called once. -/
theorem C18_cholesky_fallback_witness :
    sampleStatisticalTesting.distance_ = -1 ∧
      sampleLinearAlgebra.potrf sampleStatisticalTesting.df_.length
          sampleStatisticalTesting.cov_ =
        ([2, 1, 1, 3], some (Exception.LapackException 2)) ∧
      (StatisticalTesting.computeFastMahalanobisDistanceSquared sampleLinearAlgebra
        sampleStatisticalTesting).1.count Routine.syevd = 1 := by
  have hp : sampleLinearAlgebra.potrf sampleStatisticalTesting.df_.length
      sampleStatisticalTesting.cov_ =
      ([2, 1, 1, 3], some (Exception.LapackException 2)) := by
    norm_num [sampleLinearAlgebra, sampleStatisticalTesting]
  exact ⟨rfl, hp,
    ((C18_cholesky_fallback sampleLinearAlgebra sampleStatisticalTesting rfl).1 2 _
      hp).2.2.2.1⟩

/-! ## Scaled time of accumulate -/

theorem getD_mem_of_lt (config : Configuration) (i : Nat) (h : i < config.length) :
    config.getD i default ∈ config := by
  rw [List.getD_eq_getElem _ _ h]
  exact List.getElem_mem h

/-- Claim C21: for `beta > 0` and a configuration whose vertex times lie in `[0, beta)`, the
body of the loops of `SpAccumulator::accumulate` for the entries `i`, `j` of the
configuration passes to the binners the scaled time `(tau_i - tau_j) * (1 / (2 * beta))`,
which is `(tau_i - tau_j) / (2 * beta)`, lies strictly between -1/2 and 1/2, and is 0 when
`i = j`. -/
theorem C21_scaled_time_in_range (P : Parameters) (accumulate_m_sqr : Bool) (M : Matrix)
    (config : Configuration) (sign : Int) (s : Fin 2) (st : Binners) (i j : Nat)
    (hbeta : 0 < P.beta) (htau : ∀ v ∈ config, 0 ≤ v.tau ∧ v.tau < P.beta)
    (hi : i < config.length) (hj : j < config.length) :
    (SpAccumulator.accumulateEntry P accumulate_m_sqr M config sign s j i st).cached =
      Function.update st.cached s
        (Dnfft1D.accumulate P (st.cached s)
          (P.bbr_dmn (config.getD i default).right_band (config.getD j default).left_band
            (P.subtract (config.getD j default).left_site (config.getD i default).right_site))
          (((config.getD i default).tau - (config.getD j default).tau) * (1 / (2 * P.beta)))
          (sign * M i j)) ∧
    (SpAccumulator.accumulateEntry P accumulate_m_sqr M config sign s j i st).single =
      Function.update st.single s
        (Dnfft1D.accumulate P (st.single s)
          (P.bbr_dmn (config.getD i default).right_band (config.getD j default).left_band
            (P.subtract (config.getD j default).left_site (config.getD i default).right_site))
          (((config.getD i default).tau - (config.getD j default).tau) * (1 / (2 * P.beta)))
          (sign * M i j)) ∧
    (accumulate_m_sqr = true →
      (SpAccumulator.accumulateEntry P accumulate_m_sqr M config sign s j i st).cached_sqr =
        Function.update st.cached_sqr s
          (Dnfft1D.accumulate P (st.cached_sqr s)
            (P.bbr_dmn (config.getD i default).right_band (config.getD j default).left_band
              (P.subtract (config.getD j default).left_site
                (config.getD i default).right_site))
            (((config.getD i default).tau - (config.getD j default).tau) *
              (1 / (2 * P.beta)))
            (sign * M i j * M i j))) ∧
    ((config.getD i default).tau - (config.getD j default).tau) * (1 / (2 * P.beta)) =
      ((config.getD i default).tau - (config.getD j default).tau) / (2 * P.beta) ∧
    -1 / 2 < ((config.getD i default).tau - (config.getD j default).tau) * (1 / (2 * P.beta)) ∧
    ((config.getD i default).tau - (config.getD j default).tau) * (1 / (2 * P.beta)) < 1 / 2 ∧
    (i = j →
      ((config.getD i default).tau - (config.getD j default).tau) * (1 / (2 * P.beta)) = 0) := by
  have h1 := htau _ (getD_mem_of_lt config i hi)
  have h2 := htau _ (getD_mem_of_lt config j hj)
  have hb : (0 : ℚ) < 2 * P.beta := by linarith
  refine ⟨rfl, rfl, fun h => ?_, mul_one_div _ _, ?_, ?_, fun h => ?_⟩
  · subst h
    rfl
  · rw [mul_one_div, lt_div_iff₀ hb]
    linarith
  · rw [mul_one_div, div_lt_iff₀ hb]
    linarith
  · subst h
    rw [sub_self, zero_mul]

theorem C21_scaled_time_in_range_witness :
    (0 : ℚ) < sampleParameters.beta ∧
    (∀ v ∈ sampleMeasurement.configs 0, 0 ≤ v.tau ∧ v.tau < sampleParameters.beta) ∧
    -1 / 2 < (((sampleMeasurement.configs 0).getD 0 default).tau -
      ((sampleMeasurement.configs 0).getD 1 default).tau) * (1 / (2 * sampleParameters.beta)) ∧
    (((sampleMeasurement.configs 0).getD 0 default).tau -
      ((sampleMeasurement.configs 0).getD 1 default).tau) * (1 / (2 * sampleParameters.beta)) =
      -1 / 4 := by
  have hb : (0 : ℚ) < sampleParameters.beta := by norm_num [sampleParameters]
  have ht : ∀ v ∈ sampleMeasurement.configs 0, 0 ≤ v.tau ∧ v.tau < sampleParameters.beta := by
    intro v hv
    simp only [sampleMeasurement, if_true, List.mem_cons, List.mem_singleton,
      List.not_mem_nil, or_false] at hv
    rcases hv with rfl | rfl <;> norm_num [sampleParameters]
  refine ⟨hb, ht,
    (C21_scaled_time_in_range sampleParameters true (sampleMeasurement.Ms 0)
      (sampleMeasurement.configs 0) sampleMeasurement.sign 0
      ⟨fun _ _ _ => 0, fun _ _ _ => 0, fun _ _ _ => 0⟩ 0 1 hb ht (by decide)
      (by decide)).2.2.2.2.1, ?_⟩
  norm_num [sampleMeasurement, sampleParameters]

/-! ## Frequency helpers -/

theorem tdiv_two_mul (c : Int) : Int.tdiv (2 * c) 2 = c :=
  Int.mul_tdiv_cancel_left c (by decide)

theorem tdiv_even_size (Nw : Nat) (h : Even Nw) : 2 * Int.tdiv (Nw : Int) 2 = (Nw : Int) := by
  obtain ⟨m, rfl⟩ := h
  have : ((m + m : Nat) : Int) = 2 * (m : Int) := by push_cast; ring
  rw [this, tdiv_two_mul]

theorem subtract_freq_fb_spec (Nw Nb : Nat) (h : Even Nw) (w1 w2 : Int) :
    fermionic_frequency Nw (subtract_freq_fb Nw Nb w1 w2) =
      bosonic_frequency Nb w2 - fermionic_frequency Nw w1 := by
  have hN := tdiv_even_size Nw h
  simp only [fermionic_frequency, bosonic_frequency, subtract_freq_fb]
  have e : (2 * (w2 - Int.tdiv (Nb : Int) 2) - (2 * (w1 - Int.tdiv (Nw : Int) 2) + 1) - 1 +
      (Nw : Int)) = 2 * (w2 - Int.tdiv (Nb : Int) 2 - w1 + 2 * Int.tdiv (Nw : Int) 2 - 1) := by
    linear_combination (-1 : Int) * hN
  rw [e, tdiv_two_mul]
  ring

theorem subtract_freq_bf_spec (Nw Nb : Nat) (h : Even Nw) (w1 w2 : Int) :
    fermionic_frequency Nw (subtract_freq_bf Nw Nb w1 w2) =
      fermionic_frequency Nw w2 - bosonic_frequency Nb w1 := by
  have hN := tdiv_even_size Nw h
  simp only [fermionic_frequency, bosonic_frequency, subtract_freq_bf]
  have e : (2 * (w2 - Int.tdiv (Nw : Int) 2) + 1 - 2 * (w1 - Int.tdiv (Nb : Int) 2) - 1 +
      (Nw : Int)) = 2 * (w2 - w1 + Int.tdiv (Nb : Int) 2) := by
    linear_combination (-1 : Int) * hN
  rw [e, tdiv_two_mul]
  ring

theorem add_freq_bf_spec (Nw Nb : Nat) (h : Even Nw) (w1 w2 : Int) :
    fermionic_frequency Nw (add_freq_bf Nw Nb w1 w2) =
      bosonic_frequency Nb w1 + fermionic_frequency Nw w2 := by
  have hN := tdiv_even_size Nw h
  simp only [fermionic_frequency, bosonic_frequency, add_freq_bf]
  have e : (2 * (w1 - Int.tdiv (Nb : Int) 2) + (2 * (w2 - Int.tdiv (Nw : Int) 2) + 1) - 1 +
      (Nw : Int)) = 2 * (w1 - Int.tdiv (Nb : Int) 2 + w2) := by
    linear_combination (-1 : Int) * hN
  rw [e, tdiv_two_mul]
  ring

theorem fermionic_frequency_injective (Nw : Nat) (i j : Int)
    (h : fermionic_frequency Nw i = fermionic_frequency Nw j) : i = j := by
  simp only [fermionic_frequency] at h
  linarith

/-- Claim C22: with the fermionic index `i` standing for the odd integer
`f(i) = 2*(i - Nw/2) + 1`, the bosonic index `j` for the even integer `b(j) = 2*(j - Nb/2)`
and `Nw` even, for all integer indices `subtract_freq_fb(w1, w2)` is the index `r` with
`f(r) = b(w2) - f(w1)`, `subtract_freq_bf(w1, w2)` the index with `f(r) = f(w2) - b(w1)`,
`add_freq_bf(w1, w2)` the index with `f(r) = b(w1) + f(w2)`, each the only such index, and
`add_freq_bf(nu, subtract_freq_bf(nu, w)) = w`. -/
theorem C22_mixed_frequency_helpers (Nw Nb : Nat) (hNw : Even Nw) (w1 w2 : Int) :
    (∀ r : Int, fermionic_frequency Nw r =
        bosonic_frequency Nb w2 - fermionic_frequency Nw w1 ↔
      r = subtract_freq_fb Nw Nb w1 w2) ∧
    (∀ r : Int, fermionic_frequency Nw r =
        fermionic_frequency Nw w2 - bosonic_frequency Nb w1 ↔
      r = subtract_freq_bf Nw Nb w1 w2) ∧
    (∀ r : Int, fermionic_frequency Nw r =
        bosonic_frequency Nb w1 + fermionic_frequency Nw w2 ↔
      r = add_freq_bf Nw Nb w1 w2) ∧
    add_freq_bf Nw Nb w1 (subtract_freq_bf Nw Nb w1 w2) = w2 := by
  refine ⟨fun r => ⟨fun hr => ?_, fun hr => ?_⟩, fun r => ⟨fun hr => ?_, fun hr => ?_⟩,
    fun r => ⟨fun hr => ?_, fun hr => ?_⟩, ?_⟩
  · exact fermionic_frequency_injective Nw _ _
      (hr.trans (subtract_freq_fb_spec Nw Nb hNw w1 w2).symm)
  · rw [hr]; exact subtract_freq_fb_spec Nw Nb hNw w1 w2
  · exact fermionic_frequency_injective Nw _ _
      (hr.trans (subtract_freq_bf_spec Nw Nb hNw w1 w2).symm)
  · rw [hr]; exact subtract_freq_bf_spec Nw Nb hNw w1 w2
  · exact fermionic_frequency_injective Nw _ _
      (hr.trans (add_freq_bf_spec Nw Nb hNw w1 w2).symm)
  · rw [hr]; exact add_freq_bf_spec Nw Nb hNw w1 w2
  · apply fermionic_frequency_injective Nw
    rw [add_freq_bf_spec Nw Nb hNw, subtract_freq_bf_spec Nw Nb hNw]
    ring

theorem C22_mixed_frequency_helpers_witness :
    Even 4 ∧ subtract_freq_fb 4 3 1 2 = 3 ∧ subtract_freq_bf 4 3 2 3 = 2 ∧
      add_freq_bf 4 3 2 (subtract_freq_bf 4 3 2 3) = 3 :=
  ⟨by decide,
    (((C22_mixed_frequency_helpers 4 3 (by decide) 1 2).1 3).1 (by decide)).symm,
    (((C22_mixed_frequency_helpers 4 3 (by decide) 2 3).2.1 2).1 (by decide)).symm,
    (C22_mixed_frequency_helpers 4 3 (by decide) 2 3).2.2.2⟩

/-- For an even size of the bosonic domain `subtract_freq_ff` and `add_freq_ff` return the
index of the difference and of the sum of the two fermionic frequencies. -/
theorem freq_ff_even (Nw Nb : Nat) (h : Even Nb) (w1 w2 : Int) :
    bosonic_frequency Nb (subtract_freq_ff Nw Nb w1 w2) =
        fermionic_frequency Nw w2 - fermionic_frequency Nw w1 ∧
      bosonic_frequency Nb (add_freq_ff Nw Nb w1 w2) =
        fermionic_frequency Nw w1 + fermionic_frequency Nw w2 := by
  have hN := tdiv_even_size Nb h
  simp only [fermionic_frequency, bosonic_frequency, subtract_freq_ff, add_freq_ff]
  have e1 : (2 * (w2 - Int.tdiv (Nw : Int) 2) + 1 - (2 * (w1 - Int.tdiv (Nw : Int) 2) + 1) +
      (Nb : Int)) = 2 * (w2 - w1 + Int.tdiv (Nb : Int) 2) := by
    linear_combination (-1 : Int) * hN
  have e2 : (2 * (w1 - Int.tdiv (Nw : Int) 2) + 1 + (2 * (w2 - Int.tdiv (Nw : Int) 2) + 1) +
      (Nb : Int)) = 2 * (w1 + w2 - 2 * Int.tdiv (Nw : Int) 2 + 1 + Int.tdiv (Nb : Int) 2) := by
    linear_combination (-1 : Int) * hN
  rw [e1, e2, tdiv_two_mul, tdiv_two_mul]
  constructor <;> ring

/-- For an odd size `Nb = 2 * m + 1` of the bosonic domain and two fermionic indices whose
frequencies differ by `-(Nb + 1)`, the frequency just below the domain, `subtract_freq_ff`
returns the index 0, which passes the range check and stands for the frequency
`-(Nb - 1)`. -/
theorem subtract_freq_ff_odd_below (Nw m : Nat) (w1 w2 : Int) (h : w2 - w1 = -((m : Int) + 1)) :
    subtract_freq_ff Nw (2 * m + 1) w1 w2 = 0 ∧
      bosonic_index_skipped (2 * m + 1) (subtract_freq_ff Nw (2 * m + 1) w1 w2) = false ∧
      fermionic_frequency Nw w2 - fermionic_frequency Nw w1 = -(2 * (m : Int) + 2) ∧
      bosonic_frequency (2 * m + 1) 0 = -(2 * (m : Int)) := by
  have e : subtract_freq_ff Nw (2 * m + 1) w1 w2 = 0 := by
    simp only [subtract_freq_ff]
    have : (2 * (w2 - Int.tdiv (Nw : Int) 2) + 1 - (2 * (w1 - Int.tdiv (Nw : Int) 2) + 1) +
        ((2 * m + 1 : Nat) : Int)) = -1 := by
      push_cast
      linarith
    rw [this]
    decide
  refine ⟨e, ?_, ?_, ?_⟩
  · rw [e]
    simp [bosonic_index_skipped]
    omega
  · simp only [fermionic_frequency]
    linarith
  · simp only [bosonic_frequency]
    have : Int.tdiv ((2 * m + 1 : Nat) : Int) 2 = (m : Int) := by
      rw [Int.tdiv_eq_ediv (by positivity) (by decide)]
      push_cast
      omega
    rw [this]
    ring

/-- Claim C23, evaluated at `Nw = 4`, `Nb = 3`: for the fermionic indices 2 and 0 the
difference of the frequencies is -4, which no index of the bosonic domain stands for, yet
`subtract_freq_ff(2, 0)` returns the index 0 of the frequency -2 and the range check of the
callers keeps the term; likewise `add_freq_ff(0, 1)` returns 0 for the sum -4. -/
theorem C23_freq_ff_truncation :
    fermionic_frequency 4 0 - fermionic_frequency 4 2 = -4 ∧
    (∀ j : Int, 0 ≤ j → j < 3 → bosonic_frequency 3 j ≠ -4) ∧
    subtract_freq_ff 4 3 2 0 = 0 ∧
    bosonic_frequency 3 (subtract_freq_ff 4 3 2 0) = -2 ∧
    bosonic_index_skipped 3 (subtract_freq_ff 4 3 2 0) = false ∧
    fermionic_frequency 4 0 + fermionic_frequency 4 1 = -4 ∧
    add_freq_ff 4 3 0 1 = 0 ∧
    bosonic_frequency 3 (add_freq_ff 4 3 0 1) = -2 ∧
    bosonic_index_skipped 3 (add_freq_ff 4 3 0 1) = false := by
  refine ⟨by decide, ?_, by decide, by decide, by decide, by decide, by decide, by decide,
    by decide⟩
  intro j h0 h3 h
  have : Int.tdiv ((3 : Nat) : Int) 2 = 1 := by decide
  simp only [bosonic_frequency, this] at h
  omega

/-! ## HDF5Reader -/

/-- What `begin_step` and `end_step` do: `begin_step` succeeds exactly on a reader that is
not in a step and puts it in a step; `end_step` succeeds exactly on a reader in a step,
adds one to the counter and leaves the reader in the step; so the second of two pairs of
calls fails on every reader. -/
theorem HDF5Reader.steps_spec (r : HDF5Reader) :
    ((∃ r1, r.begin_step = Except.ok r1) ↔ r.in_step_ = false) ∧
    (r.in_step_ = false → r.begin_step = Except.ok { r with in_step_ := true }) ∧
    ((∃ r1, r.end_step = Except.ok r1) ↔ r.in_step_ = true) ∧
    (r.in_step_ = true → r.end_step = Except.ok { r with step_ := r.step_ + 1 }) ∧
    (∀ N : Nat, ∃ e, HDF5Reader.steps (N + 2) r = Except.error e) := by
  rcases r with ⟨flag, n⟩
  cases flag
  · refine ⟨⟨fun _ => rfl, fun _ => ⟨_, rfl⟩⟩, fun _ => rfl, ⟨?_, ?_⟩, ?_, fun N => ⟨_, rfl⟩⟩
    · rintro ⟨r1, h⟩
      cases h
    · intro h
      cases h
    · intro h
      cases h
  · refine ⟨⟨?_, ?_⟩, ?_, ⟨fun _ => rfl, fun _ => ⟨_, rfl⟩⟩, fun _ => rfl, fun N => ⟨_, rfl⟩⟩
    · rintro ⟨r1, h⟩
      cases h
    · intro h
      cases h
    · intro h
      cases h

/-- Claim C30, evaluated on a reader that is not in a step: `begin_step` and `end_step`
succeed once and the counter grows by one, but `end_step` leaves the reader in a step, so
the second `begin_step` throws and two pairs of calls fail. -/
theorem C30_second_begin_step_throws :
    let r : HDF5Reader := { in_step_ := false, step_ := 0 }
    (r.begin_step >>= HDF5Reader.end_step) =
        Except.ok { in_step_ := true, step_ := 1 } ∧
      (r.begin_step >>= HDF5Reader.end_step >>= HDF5Reader.begin_step) =
        Except.error ⟨"HDF5Writer::begin_step() called while already in step!"⟩ ∧
      HDF5Reader.steps 2 r =
        Except.error ⟨"HDF5Writer::begin_step() called while already in step!"⟩ := by
  refine ⟨rfl, rfl, rfl⟩

/-! ## Selection of indices -/

theorem mem_uniqueFrom (a x : Int) (l : List Int) :
    x ∈ uniqueFrom a l ↔ x = a ∨ x ∈ l := by
  induction l generalizing a with
  | nil => simp [uniqueFrom]
  | cons b l ih =>
    by_cases h : a = b
    · subst h
      simp [uniqueFrom, ih]
    · simp [uniqueFrom, h, ih]

theorem mem_unique (x : Int) (l : List Int) : x ∈ unique l ↔ x ∈ l := by
  cases l with
  | nil => simp [unique]
  | cons a l => simp [unique, mem_uniqueFrom]

theorem sorted_uniqueFrom (a : Int) (l : List Int)
    (h : List.Sorted (fun x y => x ≤ y) (a :: l)) :
    List.Sorted (fun x y => x < y) (uniqueFrom a l) := by
  induction l generalizing a with
  | nil => simp [uniqueFrom]
  | cons b l ih =>
    have h1 := List.sorted_cons.1 h
    have h2 := List.sorted_cons.1 h1.2
    by_cases hab : a = b
    · subst hab
      simp only [uniqueFrom, if_true]
      exact ih a (List.sorted_cons.2 ⟨fun x hx => h2.1 x hx, h2.2⟩)
    · simp only [uniqueFrom, hab, if_false]
      refine List.sorted_cons.2 ⟨fun x hx => ?_, ih b h1.2⟩
      have hlt : a < b := lt_of_le_of_ne (h1.1 b (List.mem_cons_self _ _)) hab
      rcases (mem_uniqueFrom b x l).1 hx with rfl | hx
      · exact hlt
      · exact lt_of_lt_of_le hlt (h2.1 x hx)

theorem sorted_sortUnique (l : List Int) :
    List.Sorted (fun x y => x < y) (sortUnique l) := by
  have h := List.sorted_insertionSort (fun a b : Int => a ≤ b) l
  unfold sortUnique
  cases hs : l.insertionSort (fun a b => a ≤ b) with
  | nil => simp [unique]
  | cons a l2 =>
    rw [hs] at h
    exact sorted_uniqueFrom a l2 h

theorem mem_sortUnique (x : Int) (l : List Int) : x ∈ sortUnique l ↔ x ∈ l := by
  unfold sortUnique
  rw [mem_unique, List.mem_insertionSort]

theorem sortUnique_congr (l1 l2 : List Int) (h : ∀ x, x ∈ l1 ↔ x ∈ l2) :
    sortUnique l1 = sortUnique l2 := by
  have s1 := sorted_sortUnique l1
  have s2 := sorted_sortUnique l2
  refine List.eq_of_perm_of_sorted ?_ s1 s2
  refine (List.perm_ext_iff_of_nodup s1.nodup s2.nodup).2 (fun x => ?_)
  rw [mem_sortUnique, mem_sortUnique, h]

theorem getD_zero_mem (l : List Int) (h : l ≠ []) : l.getD 0 0 ∈ l := by
  cases l with
  | nil => exact absurd rfl h
  | cons a l => simp

theorem getLastD_eq_or_mem (l : List Int) (a : Int) : l.getLastD a = a ∨ l.getLastD a ∈ l := by
  induction l generalizing a with
  | nil => exact Or.inl rfl
  | cons b l ih =>
    rw [List.getLastD_cons]
    rcases ih b with h | h
    · exact Or.inr (by rw [h]; exact List.mem_cons_self _ _)
    · exact Or.inr (List.mem_cons_of_mem _ h)

theorem getLastD_mem (l : List Int) (h : l ≠ []) : l.getLastD 0 ∈ l := by
  cases l with
  | nil => exact absurd rfl h
  | cons a l =>
    rw [List.getLastD_cons]
    rcases getLastD_eq_or_mem l a with h1 | h1
    · rw [h1]; exact List.mem_cons_self _ _
    · exact List.mem_cons_of_mem _ h1

theorem length_foldl_set {ι : Type} (L : List ι) (pos : ι → Nat) (val : ι → ℚ) (v : List ℚ) :
    (L.foldl (fun v y => v.set (pos y) (val y)) v).length = v.length := by
  induction L generalizing v with
  | nil => rfl
  | cons y L ih => rw [List.foldl_cons, ih, List.length_set]

theorem getD_set (v : List ℚ) (q p : Nat) (a : ℚ) :
    (v.set q a).getD p 0 = if q = p ∧ p < v.length then a else v.getD p 0 := by
  simp only [List.getD_eq_getElem?_getD, List.getElem?_set]
  by_cases h : q = p
  · subst h
    by_cases h2 : q < v.length
    · simp [h2]
    · simp [h2, List.getElem?_eq_none (not_lt.1 h2)]
  · simp [h]

theorem foldl_set_keeps {ι : Type} (L : List ι) (pos : ι → Nat) (val : ι → ℚ) (p : Nat)
    (c : ℚ) (h : ∀ y ∈ L, pos y = p → val y = c) (v : List ℚ) (hv : v.getD p 0 = c) :
    (L.foldl (fun v y => v.set (pos y) (val y)) v).getD p 0 = c := by
  induction L generalizing v with
  | nil => exact hv
  | cons y L ih =>
    rw [List.foldl_cons]
    refine ih (fun z hz => h z (List.mem_cons_of_mem _ hz)) _ ?_
    rw [getD_set]
    split
    · next hq => exact h y (List.mem_cons_self _ _) hq.1
    · exact hv

/-- The entry at position `p` after a loop of writes, when all writes to `p` write the same
value and there is one. -/
theorem foldl_set_getD {ι : Type} (L : List ι) (pos : ι → Nat) (val : ι → ℚ) (p : Nat)
    (x : ι) (hx : x ∈ L) (hpx : pos x = p) (h : ∀ y ∈ L, pos y = p → val y = val x)
    (v : List ℚ) (hlen : p < v.length) :
    (L.foldl (fun v y => v.set (pos y) (val y)) v).getD p 0 = val x := by
  induction L generalizing v with
  | nil => exact absurd hx (List.not_mem_nil _)
  | cons y L ih =>
    rw [List.foldl_cons]
    by_cases hy : pos y = p
    · refine foldl_set_keeps L pos val p _ (fun z hz => h z (List.mem_cons_of_mem _ hz)) _ ?_
      rw [getD_set, if_pos ⟨hy, hlen⟩]
      exact h y (List.mem_cons_self _ _) hy
    · rcases List.mem_cons.1 hx with rfl | hxL
      · exact absurd hpx hy
      · exact ih hxL (fun z hz => h z (List.mem_cons_of_mem _ hz)) _
          (by rw [List.length_set]; exact hlen)

theorem selectLoops_fst (df_ cov_ : List ℚ) (indices : List Int) :
    (StatisticalTesting.selectLoops df_ cov_ indices).1 =
      (List.range indices.length).foldl
        (fun v i => v.set i (df_.getD (indices.getD i 0).toNat 0))
        (List.replicate indices.length 0) := by
  have key : ∀ (L L1 : List Nat) (st : List ℚ × List ℚ),
      (L1.foldl (fun st i =>
        L.foldl (fun st j => (st.1, st.2.set (i * indices.length + j)
            (cov_.getD (indices.getD i 0 * (df_.length : Int) + indices.getD j 0).toNat 0)))
          (st.1.set i (df_.getD (indices.getD i 0).toNat 0), st.2)) st).1 =
        L1.foldl (fun v i => v.set i (df_.getD (indices.getD i 0).toNat 0)) st.1 := by
    intro L L1
    induction L1 with
    | nil => intro st; rfl
    | cons i L1 ih =>
      intro st
      rw [List.foldl_cons, List.foldl_cons, ih]
      congr 1
      exact foldl_preserves Prod.fst
        (fun j (st : List ℚ × List ℚ) => (st.1, st.2.set (i * indices.length + j)
            (cov_.getD (indices.getD i 0 * (df_.length : Int) + indices.getD j 0).toNat 0)))
        (fun _ _ => rfl) L _
  exact key _ _ _

theorem selectLoops_snd (df_ cov_ : List ℚ) (indices : List Int) :
    (StatisticalTesting.selectLoops df_ cov_ indices).2 =
      ((List.range indices.length).flatMap
          (fun i => (List.range indices.length).map (fun j => (i, j)))).foldl
        (fun v p => v.set (p.1 * indices.length + p.2)
          (cov_.getD (indices.getD p.1 0 * (df_.length : Int) + indices.getD p.2 0).toNat 0))
        (List.replicate (indices.length * indices.length) 0) := by
  have inner : ∀ (L : List Nat) (i : Nat) (st : List ℚ × List ℚ),
      (L.foldl (fun st j => ((st.1, st.2.set (i * indices.length + j)
            (cov_.getD (indices.getD i 0 * (df_.length : Int) + indices.getD j 0).toNat 0)) :
            List ℚ × List ℚ)) st).2 =
        L.foldl (fun v j => v.set (i * indices.length + j)
            (cov_.getD (indices.getD i 0 * (df_.length : Int) + indices.getD j 0).toNat 0))
          st.2 := by
    intro L i
    induction L with
    | nil => intro st; rfl
    | cons j L ih => intro st; rw [List.foldl_cons, List.foldl_cons, ih]
  have key : ∀ (L L1 : List Nat) (st : List ℚ × List ℚ),
      (L1.foldl (fun st i =>
        L.foldl (fun st j => (st.1, st.2.set (i * indices.length + j)
            (cov_.getD (indices.getD i 0 * (df_.length : Int) + indices.getD j 0).toNat 0)))
          (st.1.set i (df_.getD (indices.getD i 0).toNat 0), st.2)) st).2 =
        L1.foldl (fun v i => L.foldl (fun v j => v.set (i * indices.length + j)
            (cov_.getD (indices.getD i 0 * (df_.length : Int) + indices.getD j 0).toNat 0)) v)
          st.2 := by
    intro L L1
    induction L1 with
    | nil => intro st; rfl
    | cons i L1 ih =>
      intro st
      rw [List.foldl_cons, List.foldl_cons, ih, inner]
  refine (key _ _ _).trans ?_
  exact foldl_nested_eq_foldl_pairs
    (fun i j (v : List ℚ) => v.set (i * indices.length + j)
      (cov_.getD (indices.getD i 0 * (df_.length : Int) + indices.getD j 0).toNat 0)) _ _ _

theorem mem_index_pairs (m i j : Nat) :
    (i, j) ∈ (List.range m).flatMap (fun i => (List.range m).map (fun j => (i, j))) ↔
      i < m ∧ j < m := by
  simp [List.mem_flatMap]

theorem row_major_injective (m i j i2 j2 : Nat) (hj : j < m) (hj2 : j2 < m)
    (h : i2 * m + j2 = i * m + j) : i2 = i ∧ j2 = j := by
  have hm : 0 < m := by omega
  have h1 : (i2 * m + j2) / m = i2 := by
    rw [Nat.add_comm, Nat.add_mul_div_right _ _ hm, Nat.div_eq_of_lt hj2, Nat.zero_add]
  have h2 : (i * m + j) / m = i := by
    rw [Nat.add_comm, Nat.add_mul_div_right _ _ hm, Nat.div_eq_of_lt hj, Nat.zero_add]
  have hi : i2 = i := by rw [← h1, ← h2, h]
  subst hi
  exact ⟨rfl, by omega⟩

theorem readsInBounds_of_valid (df_ cov_ : List ℚ) (ks : List Int)
    (hin : ∀ k ∈ ks, 0 ≤ k ∧ k < (df_.length : Int))
    (hcov : cov_.length = df_.length * df_.length) :
    StatisticalTesting.readsInBounds df_ cov_ ks = true := by
  simp only [StatisticalTesting.readsInBounds, List.all_eq_true, Bool.and_eq_true,
    decide_eq_true_eq]
  intro k1 h1
  refine ⟨(hin k1 h1).2, fun k2 h2 => ?_⟩
  have a1 := hin k1 h1
  have a2 := hin k2 h2
  rw [hcov]
  push_cast
  nlinarith

/-- The vectors the loops of `selectIndices` build. -/
theorem selectLoops_spec (df_ cov_ : List ℚ) (ks : List Int) :
    (StatisticalTesting.selectLoops df_ cov_ ks).1.length = ks.length ∧
    (∀ i, i < ks.length →
      (StatisticalTesting.selectLoops df_ cov_ ks).1.getD i 0 =
        df_.getD (ks.getD i 0).toNat 0) ∧
    (StatisticalTesting.selectLoops df_ cov_ ks).2.length = ks.length * ks.length ∧
    (∀ i j, i < ks.length → j < ks.length →
      (StatisticalTesting.selectLoops df_ cov_ ks).2.getD (i * ks.length + j) 0 =
        cov_.getD (ks.getD i 0 * (df_.length : Int) + ks.getD j 0).toNat 0) := by
  rw [selectLoops_fst, selectLoops_snd]
  refine ⟨?_, fun i hi => ?_, ?_, fun i j hi hj => ?_⟩
  · rw [length_foldl_set, List.length_replicate]
  · exact foldl_set_getD (List.range ks.length) (fun i => i)
      (fun i => df_.getD (ks.getD i 0).toNat 0) i i (List.mem_range.2 hi) rfl
      (fun y _ hy => by subst hy; rfl) _ (by rw [List.length_replicate]; exact hi)
  · rw [length_foldl_set, List.length_replicate]
  · refine foldl_set_getD _ (fun p : Nat × Nat => p.1 * ks.length + p.2)
      (fun p : Nat × Nat =>
        cov_.getD (ks.getD p.1 0 * (df_.length : Int) + ks.getD p.2 0).toNat 0)
      (i * ks.length + j) (i, j) ((mem_index_pairs _ i j).2 ⟨hi, hj⟩) rfl ?_ _ ?_
    · rintro ⟨i2, j2⟩ hy hpos
      have hy2 := (mem_index_pairs _ i2 j2).1 hy
      obtain ⟨rfl, rfl⟩ := row_major_injective ks.length i j i2 j2 hj hy2.2 hpos
      rfl
    · rw [List.length_replicate]
      nlinarith

/-- Claim C26: for a non-empty index list with all elements in `[0, n)`, `n` the size of
`df_` (and `cov_` of size `n * n`), `selectIndices` succeeds; it leaves the list as the
strictly increasing list `ks` of its distinct elements, `df_` as the vector of length
`m = ks.length` with entry `i` equal to the old `df_[ks[i]]`, and `cov_` as the vector of
length `m * m` with entry `i * m + j` equal to the old `cov_[ks[i] * n + ks[j]]`, the other
members unchanged; a list with the same set of elements gives the same result. -/
theorem C26_selectIndices_result (t : StatisticalTesting) (indices : List Int)
    (hne : indices ≠ [])
    (hin : ∀ k ∈ indices, 0 ≤ k ∧ k < (t.df_.length : Int))
    (hcov : t.cov_.length = t.df_.length * t.df_.length) :
    ∃ (ks : List Int) (new_df new_cov : List ℚ),
      t.selectIndices indices = (ks, Except.ok { t with df_ := new_df, cov_ := new_cov }) ∧
      List.Sorted (fun x y => x < y) ks ∧ (∀ k, k ∈ ks ↔ k ∈ indices) ∧
      new_df.length = ks.length ∧
      (∀ i, i < ks.length → new_df.getD i 0 = t.df_.getD (ks.getD i 0).toNat 0) ∧
      new_cov.length = ks.length * ks.length ∧
      (∀ i j, i < ks.length → j < ks.length →
        new_cov.getD (i * ks.length + j) 0 =
          t.cov_.getD (ks.getD i 0 * (t.df_.length : Int) + ks.getD j 0).toNat 0) ∧
      (∀ indices2 : List Int, (∀ k, k ∈ indices2 ↔ k ∈ indices) →
        t.selectIndices indices2 = t.selectIndices indices) := by
  have hm := fun k => mem_sortUnique k indices
  have hks : sortUnique indices ≠ [] := by
    obtain ⟨k, hk⟩ := List.exists_mem_of_ne_nil indices hne
    exact List.ne_nil_of_mem ((hm k).2 hk)
  have hin2 : ∀ k ∈ sortUnique indices, 0 ≤ k ∧ k < (t.df_.length : Int) :=
    fun k hk => hin k ((hm k).1 hk)
  have hlen : ¬ (sortUnique indices).length = 0 := fun h => hks (List.length_eq_zero.1 h)
  have hchk : ¬ ((sortUnique indices).getD 0 0 < 0 ∨
      (sortUnique indices).getLastD 0 > (t.df_.length : Int)) := by
    have h0 := hin2 _ (getD_zero_mem _ hks)
    have h1 := hin2 _ (getLastD_mem _ hks)
    omega
  have hrd := readsInBounds_of_valid t.df_ t.cov_ _ hin2 hcov
  have hsp := selectLoops_spec t.df_ t.cov_ (sortUnique indices)
  refine ⟨sortUnique indices, (StatisticalTesting.selectLoops t.df_ t.cov_ _).1,
    (StatisticalTesting.selectLoops t.df_ t.cov_ _).2, ?_, sorted_sortUnique indices, hm,
    hsp.1, hsp.2.1, hsp.2.2.1, hsp.2.2.2, fun indices2 h2 => ?_⟩
  · simp only [StatisticalTesting.selectIndices, hlen, hchk, hrd, if_false]
    simp
  · simp only [StatisticalTesting.selectIndices, sortUnique_congr indices2 indices h2]

theorem C26_selectIndices_result_witness :
    ∃ (ks : List Int) (new_df new_cov : List ℚ),
      sampleStatisticalTesting.selectIndices [1, 0, 1] =
        (ks, Except.ok { sampleStatisticalTesting with df_ := new_df, cov_ := new_cov }) ∧
      ks = [0, 1] ∧ new_df.getD 1 0 = 2 ∧ new_cov.getD (1 * 2 + 1) 0 = 2 := by
  obtain ⟨ks, new_df, new_cov, h, _, _, _, hdf, _, hcov, _⟩ :=
    C26_selectIndices_result sampleStatisticalTesting [1, 0, 1] (by simp)
      (by simp [sampleStatisticalTesting]) rfl
  have hk : ks = [0, 1] := (congrArg Prod.fst h).symm.trans rfl
  subst hk
  exact ⟨_, new_df, new_cov, h, rfl, (hdf 1 (by decide)).trans rfl,
    (hcov 1 1 (by decide) (by decide)).trans rfl⟩

/-- The two exceptions of `selectIndices`: it throws `logic_error` for the empty list only,
and `out_of_range` when the smallest index is negative or the largest index is greater than
the size of `df_`; an index equal to the size is not rejected. -/
theorem selectIndices_throws (t : StatisticalTesting) (indices : List Int) :
    ((t.selectIndices indices).2 =
        Except.error (Fault.thrown (Exception.logic_error "Test is empty.")) ↔
      indices = []) ∧
    ((t.selectIndices indices).2 =
        Except.error (Fault.thrown (Exception.out_of_range "Index out of bounds.")) ↔
      indices ≠ [] ∧ ((sortUnique indices).getD 0 0 < 0 ∨
        (sortUnique indices).getLastD 0 > (t.df_.length : Int))) := by
  have hnil : sortUnique indices = [] ↔ indices = [] := by
    constructor
    · intro h
      by_contra hne
      obtain ⟨k, hk⟩ := List.exists_mem_of_ne_nil indices hne
      have := (mem_sortUnique k indices).2 hk
      rw [h] at this
      exact absurd this (List.not_mem_nil _)
    · intro h
      subst h
      rfl
  by_cases h0 : (sortUnique indices).length = 0
  · have hi : indices = [] := hnil.1 (List.length_eq_zero.1 h0)
    have e : (t.selectIndices indices).2 =
        Except.error (Fault.thrown (Exception.logic_error "Test is empty.")) := by
      simp only [StatisticalTesting.selectIndices, h0, if_true]
    rw [e]
    exact ⟨⟨fun _ => hi, fun _ => rfl⟩, ⟨(fun h => by cases h), fun h => absurd hi h.1⟩⟩
  · have hi : indices ≠ [] := fun h => h0 (List.length_eq_zero.2 (hnil.2 h))
    by_cases h1 : (sortUnique indices).getD 0 0 < 0 ∨
        (sortUnique indices).getLastD 0 > (t.df_.length : Int)
    · have e : (t.selectIndices indices).2 =
          Except.error (Fault.thrown (Exception.out_of_range "Index out of bounds.")) := by
        simp only [StatisticalTesting.selectIndices, h0, h1, if_true, if_false]
      rw [e]
      exact ⟨⟨(fun h => by cases h), fun h => absurd h hi⟩, ⟨fun _ => ⟨hi, h1⟩, fun _ => rfl⟩⟩
    · by_cases h2 : StatisticalTesting.readsInBounds t.df_ t.cov_ (sortUnique indices) = false
      · have e : (t.selectIndices indices).2 = Except.error Fault.out_of_bounds_read := by
          simp only [StatisticalTesting.selectIndices, h0, h1, h2, if_true, if_false]
        rw [e]
        exact ⟨⟨(fun h => by cases h), fun h => absurd h hi⟩,
          ⟨(fun h => by cases h), fun h => absurd h.2 h1⟩⟩
      · have e : ∃ r, (t.selectIndices indices).2 = Except.ok r := by
          refine ⟨{ t with
            df_ := (StatisticalTesting.selectLoops t.df_ t.cov_ (sortUnique indices)).1
            cov_ := (StatisticalTesting.selectLoops t.df_ t.cov_ (sortUnique indices)).2 }, ?_⟩
          simp only [StatisticalTesting.selectIndices, h0, h1, h2, if_false]
          rfl
        obtain ⟨r, e⟩ := e
        rw [e]
        exact ⟨⟨(fun h => by cases h), fun h => absurd h hi⟩,
          ⟨(fun h => by cases h), fun h => absurd h.2 h1⟩⟩

/-- Claim C27, evaluated on a test with two degrees of freedom and the index list `[2]`:
the index is not smaller than the size 2 of `df_`, the bounds check does not reject it, no
exception is thrown, and the loop reads `df_[2]` outside the vector. The empty list gives
`logic_error` and the list `[3]` gives `out_of_range`, both with the list returned. -/
theorem C27_selectIndices_index_equal_to_size :
    sampleStatisticalTesting.df_.length = 2 ∧
    sampleStatisticalTesting.selectIndices [2] = ([2], Except.error Fault.out_of_bounds_read) ∧
    StatisticalTesting.readsInBounds sampleStatisticalTesting.df_
      sampleStatisticalTesting.cov_ [2] = false ∧
    sampleStatisticalTesting.selectIndices [3] =
      ([3], Except.error (Fault.thrown (Exception.out_of_range "Index out of bounds."))) ∧
    sampleStatisticalTesting.selectIndices [] =
      ([], Except.error (Fault.thrown (Exception.logic_error "Test is empty."))) :=
  ⟨rfl, rfl, rfl, rfl, rfl⟩

theorem foldl_discardStep_error (ks : List Int) (f : Fault) (L : List Nat) :
    L.foldl (StatisticalTesting.discardStep ks) (Except.error f) = Except.error f := by
  induction L with
  | nil => rfl
  | cons i L ih => exact ih

/-- The scan of `discardIndices` from the index `a` on, when `compare` stands before the
part `rest` of the list, whose elements are increasing and lie in `[a, n)`: the scan reads
only inside the list exactly when it has no index left (`a = n`) or `rest` holds `n - 1`,
and then it adds to `pick` the indices from `a` on that `rest` does not hold. -/
theorem discardScan_from (n : Nat) (len : Nat) :
    ∀ (a : Nat) (pre rest : List Int) (pick : List Int), a + len = n →
      List.Sorted (fun x y => x < y) rest →
      (∀ k ∈ rest, (a : Int) ≤ k ∧ k < (n : Int)) →
      (List.range' a len).foldl (StatisticalTesting.discardStep (pre ++ rest))
          (Except.ok (pick, pre.length)) =
        if a = n ∨ (n : Int) - 1 ∈ rest then
          Except.ok (pick ++ ((List.range' a len).filter (fun (i : Nat) => decide ((i : Int) ∉ rest))).map
            (fun (i : Nat) => (i : Int)), (pre ++ rest).length)
        else Except.error Fault.out_of_bounds_read := by
  induction len with
  | zero =>
    intro a pre rest pick ha hs hin
    have han : a = n := by omega
    have hr : rest = [] := by
      cases rest with
      | nil => rfl
      | cons k rest =>
        have := hin k (List.mem_cons_self _ _)
        omega
    subst hr
    simp [han]
  | succ len ih =>
    intro a pre rest pick ha hs hin
    have han : a ≠ n := by omega
    rw [List.range'_succ, List.foldl_cons]
    cases rest with
    | nil =>
      have hstep : StatisticalTesting.discardStep (pre ++ []) (Except.ok (pick, pre.length)) a =
          Except.error Fault.out_of_bounds_read := by
        simp [StatisticalTesting.discardStep]
      rw [hstep, foldl_discardStep_error]
      simp [han]
    | cons k rest =>
      have hk := hin k (List.mem_cons_self _ _)
      have hs2 := List.sorted_cons.1 hs
      have hget : (pre ++ k :: rest).getD pre.length 0 = k := by
        rw [List.getD_eq_getElem?_getD, List.getElem?_append_right (le_refl _)]
        simp
      have hlt : pre.length < (pre ++ k :: rest).length := by simp
      by_cases hak : (a : Int) = k
      · have hstep : StatisticalTesting.discardStep (pre ++ k :: rest)
            (Except.ok (pick, pre.length)) a = Except.ok (pick, (pre ++ [k]).length) := by
          rw [List.length_append, List.length_singleton]
          simp only [StatisticalTesting.discardStep, hlt, if_true, hget, ne_eq, hak,
            not_true_eq_false, if_false]
        have hin2 : ∀ x ∈ rest, ((a + 1 : Nat) : Int) ≤ x ∧ x < (n : Int) := by
          intro x hx
          have h1 := hs2.1 x hx
          have h2 := hin x (List.mem_cons_of_mem _ hx)
          push_cast
          omega
        have e := ih (a + 1) (pre ++ [k]) rest pick (by omega) hs2.2 hin2
        have happ : pre ++ [k] ++ rest = pre ++ k :: rest := by simp
        rw [happ] at e
        rw [hstep, e]
        have hcond : (a + 1 = n ∨ (n : Int) - 1 ∈ rest) ↔
            (a = n ∨ (n : Int) - 1 ∈ k :: rest) := by
          rw [List.mem_cons]
          constructor
          · rintro (h | h)
            · exact Or.inr (Or.inl (by omega))
            · exact Or.inr (Or.inr h)
          · rintro (h | h | h)
            · exact absurd h han
            · exact Or.inl (by omega)
            · exact Or.inr h
        have hfil : (a :: List.range' (a + 1) len).filter
              (fun (i : Nat) => decide ((i : Int) ∉ k :: rest)) =
            (List.range' (a + 1) len).filter (fun (i : Nat) => decide ((i : Int) ∉ rest)) := by
          rw [List.filter_cons_of_neg (by simp [hak])]
          refine List.filter_congr (fun i hi => ?_)
          have hi2 := (List.mem_range'_1.1 hi).1
          have hne : (i : Int) ≠ k := by omega
          simp [hne]
        simp only [hcond, hfil]
      · have hak2 : (a : Int) < k := lt_of_le_of_ne hk.1 hak
        have hstep : StatisticalTesting.discardStep (pre ++ k :: rest)
            (Except.ok (pick, pre.length)) a = Except.ok (pick ++ [(a : Int)], pre.length) := by
          simp only [StatisticalTesting.discardStep, hlt, if_true, hget, ne_eq, hak,
            not_false_eq_true]
        have hin2 : ∀ x ∈ k :: rest, ((a + 1 : Nat) : Int) ≤ x ∧ x < (n : Int) := by
          intro x hx
          have h2 := hin x hx
          rcases List.mem_cons.1 hx with rfl | hx2
          · push_cast
            omega
          · have h1 := hs2.1 x hx2
            push_cast
            omega
        have e := ih (a + 1) pre (k :: rest) (pick ++ [(a : Int)]) (by omega) hs hin2
        rw [hstep, e]
        have hcond : (a + 1 = n ∨ (n : Int) - 1 ∈ k :: rest) ↔
            (a = n ∨ (n : Int) - 1 ∈ k :: rest) := by
          constructor
          · rintro (h | h)
            · exfalso
              omega
            · exact Or.inr h
          · rintro (h | h)
            · exact absurd h han
            · exact Or.inr h
        have hnot : (a : Int) ∉ k :: rest := by
          intro hmem
          rcases List.mem_cons.1 hmem with h | h
          · exact hak h
          · have := hs2.1 _ h
            omega
        have hfil : (a :: List.range' (a + 1) len).filter
              (fun (i : Nat) => decide ((i : Int) ∉ k :: rest)) =
            a :: (List.range' (a + 1) len).filter (fun (i : Nat) => decide ((i : Int) ∉ k :: rest)) := by
          rw [List.filter_cons_of_pos (by simpa using hnot)]
        simp only [hcond, hfil, List.map_cons, List.append_assoc, List.singleton_append]

/-- What `discardIndices` does for a non-empty list with all elements in `[0, n)`: when the
list holds the last index `n - 1`, the result is that of `selectIndices` on the increasing
list of the indices the list does not hold; otherwise the scan reads `*compare` at the end
of the list. -/
theorem discardIndices_spec (t : StatisticalTesting) (indices : List Int)
    (hne : indices ≠ [])
    (hin : ∀ k ∈ indices, 0 ≤ k ∧ k < (t.df_.length : Int)) :
    ((t.df_.length : Int) - 1 ∈ indices →
      t.discardIndices indices = (sortUnique indices,
        (t.selectIndices (((List.range t.df_.length).filter
          (fun (i : Nat) => decide ((i : Int) ∉ indices))).map (fun (i : Nat) => (i : Int)))).2)) ∧
    ((t.df_.length : Int) - 1 ∉ indices →
      t.discardIndices indices = (sortUnique indices, Except.error Fault.out_of_bounds_read)) := by
  have hm := fun k => mem_sortUnique k indices
  have hks : sortUnique indices ≠ [] := by
    obtain ⟨k, hk⟩ := List.exists_mem_of_ne_nil indices hne
    exact List.ne_nil_of_mem ((hm k).2 hk)
  have hin2 : ∀ k ∈ sortUnique indices, ((0 : Nat) : Int) ≤ k ∧ k < (t.df_.length : Int) :=
    fun k hk => hin k ((hm k).1 hk)
  have hlen : ¬ (sortUnique indices).length = 0 := fun h => hks (List.length_eq_zero.1 h)
  have hchk : ¬ ((sortUnique indices).getD 0 0 < 0 ∨
      (sortUnique indices).getLastD 0 > (t.df_.length : Int)) := by
    have h0 := hin2 _ (getD_zero_mem _ hks)
    have h1 := hin2 _ (getLastD_mem _ hks)
    simp only [Nat.cast_zero] at h0 h1
    omega
  have hn : ¬ (0 = t.df_.length) := by
    obtain ⟨k, hk⟩ := List.exists_mem_of_ne_nil indices hne
    have := hin k hk
    omega
  have hscan := discardScan_from t.df_.length t.df_.length 0 [] (sortUnique indices) []
    (by omega) (sorted_sortUnique indices) hin2
  rw [← List.range_eq_range'] at hscan
  simp only [List.nil_append, List.length_nil, hn, false_or, hm] at hscan
  have hscan2 : StatisticalTesting.discardScan t.df_.length (sortUnique indices) =
      if (t.df_.length : Int) - 1 ∈ indices then
        Except.ok (((List.range t.df_.length).filter
          (fun (i : Nat) => decide ((i : Int) ∉ indices))).map (fun (i : Nat) => (i : Int)),
          (sortUnique indices).length)
      else Except.error Fault.out_of_bounds_read := hscan
  constructor
  · intro h
    simp only [StatisticalTesting.discardIndices, hlen, hchk, if_false, hscan2, h, if_true]
  · intro h
    simp only [StatisticalTesting.discardIndices, hlen, hchk, if_false, hscan2, h]

/-- Claim C28, evaluated on a test with two degrees of freedom and the index list `[0]`:
`selectIndices` on the complement `[1]` keeps the entry 1 of `df_` and the entry (1, 1) of
`cov_`, but in `discardIndices` the scan has passed the only discarded index after `i = 0`
and reads `*compare` at the end of the list for `i = 1`. With the list `[1]`, which holds
the last index, the scan stays inside the list and the result is that of `selectIndices`
on `[0]`. -/
theorem C28_discardIndices_past_largest :
    (sampleStatisticalTesting.selectIndices [1]).2.toOption.map (fun t => (t.df_, t.cov_)) =
      some ([2], [2]) ∧
    sampleStatisticalTesting.discardIndices [0] =
      ([0], Except.error Fault.out_of_bounds_read) ∧
    (sampleStatisticalTesting.discardIndices [1]).2 =
      (sampleStatisticalTesting.selectIndices [0]).2 ∧
    (sampleStatisticalTesting.discardIndices [1]).2.toOption.map (fun t => (t.df_, t.cov_)) =
      some ([1], [1]) :=
  ⟨rfl, rfl, rfl, rfl⟩

/-- Claim C29: on the empty list `discardIndices` reads `indices[0]` in its bounds check,
whatever the object; and its scan reads `*compare` at the end of the list once the largest
discarded index has been passed: for `n = 2` and the list `[0]` at `i = 1`, for `n = 3` and
the list `[0, 1]` at `i = 2`. -/
theorem C29_discardIndices_reads_outside (t : StatisticalTesting) :
    t.discardIndices [] = ([], Except.error Fault.out_of_bounds_read) ∧
    StatisticalTesting.discardScan 1 [0] = Except.ok ([], 1) ∧
    StatisticalTesting.discardStep [0] (Except.ok ([], 1)) 1 =
      Except.error Fault.out_of_bounds_read ∧
    StatisticalTesting.discardScan 2 [0] = Except.error Fault.out_of_bounds_read ∧
    StatisticalTesting.discardScan 3 [0, 1] = Except.error Fault.out_of_bounds_read ∧
    StatisticalTesting.discardScan 3 [0, 2] = Except.ok ([1], 2) :=
  ⟨rfl, rfl, rfl, rfl, rfl, rfl⟩

/-- Claim C24: after `execute_on_cluster` the total is, at every index,
`2*Sigma_4A + Sigma_4C + Sigma_4D + Sigma_4E + Sigma_4F + Sigma_4G + 2*Sigma_4H + Sigma_4J +
Sigma_4K + Sigma_4L` of the members the ten diagram functions have left, which the
summation does not touch, and the summation gives the same object whatever `Sigma` held
before it. -/
theorem C24_execute_on_cluster_total {K : Type} [Field K] (D : Diagrams K)
    (work : List (Nat × Nat)) (s : sigma_perturbation K) (G Sigma_2 : function_type K) :
    (∀ i, (s.execute_on_cluster D work G Sigma_2).Sigma i =
      2 * (s.execute_on_cluster D work G Sigma_2).Sigma_4A i
        + (s.execute_on_cluster D work G Sigma_2).Sigma_4C i
        + (s.execute_on_cluster D work G Sigma_2).Sigma_4D i
        + (s.execute_on_cluster D work G Sigma_2).Sigma_4E i
        + (s.execute_on_cluster D work G Sigma_2).Sigma_4F i
        + (s.execute_on_cluster D work G Sigma_2).Sigma_4G i
        + 2 * (s.execute_on_cluster D work G Sigma_2).Sigma_4H i
        + (s.execute_on_cluster D work G Sigma_2).Sigma_4J i
        + (s.execute_on_cluster D work G Sigma_2).Sigma_4K i
        + (s.execute_on_cluster D work G Sigma_2).Sigma_4L i) ∧
    s.execute_on_cluster D work G Sigma_2 =
      { s.execute_diagrams D work G Sigma_2 with
        Sigma := (s.execute_on_cluster D work G Sigma_2).Sigma } ∧
    (∀ (r : sigma_perturbation K) (previous : function_type K),
      sigma_perturbation.sum_diagrams { r with Sigma := previous } = r.sum_diagrams) := by
  refine ⟨fun i => ?_, rfl, fun r previous => rfl⟩
  simp only [sigma_perturbation.execute_on_cluster, sigma_perturbation.sum_diagrams]
  ring

/-! ## Diagram 4J -/

theorem addsTo_add_entry {K : Type} [AddMonoid K] (i : Int × Int × Int × Int × Int × Int)
    (v : K) :
    AddsTo (fun f : function_type K => f.add_entry i v) (fun j => if j = i then v else 0) := by
  intro f j
  by_cases h : j = i
  · subst h
    simp [function_type.add_entry]
  · simp [function_type.add_entry, Function.update_noteq h, h]

theorem addsTo_skip {K : Type} [AddMonoid K] (c : Prop) [Decidable c]
    (B : function_type K → function_type K) (d : function_type K) (h : AddsTo B d) :
    AddsTo (fun f => if c then f else B f) (fun j => if c then 0 else d j) := by
  intro f j
  by_cases hc : c
  · simp [hc]
  · simp [hc, h f j]

theorem addsTo_foldl {K ι : Type} [AddMonoid K] (l : List ι)
    (B : ι → function_type K → function_type K)
    (d : ι → function_type K) (h : ∀ a, AddsTo (B a) (d a)) :
    AddsTo (fun f => l.foldl (fun f a => B a f) f)
      (fun j => (l.map (fun a => d a j)).sum) := by
  induction l with
  | nil => intro f j; simp
  | cons a l ih =>
    intro f j
    simp only [List.foldl_cons, List.map_cons, List.sum_cons]
    refine (ih (B a f) j).trans ?_
    rw [h a f j, add_assoc]

theorem addsTo_congr {K : Type} [Add K] (B : function_type K → function_type K)
    (d d2 : function_type K) (h : AddsTo B d) (e : ∀ i, d i = d2 i) : AddsTo B d2 := by
  intro f i
  rw [h f i, e i]

theorem convolution_addsTo {K : Type} [Field K] (s : sigma_perturbation K)
    (G F : function_type K) :
    AddsTo (s.execute_4J_convolution G F)
      (fun i => ((List.range s.w_VERTEX_BOSONIC_size).map (fun (nu_ind : Nat) =>
        ((List.range s.k_size).map (fun (q_ind : Nat) =>
          ((List.range s.w_size).map (fun (w_ind : Nat) =>
            if subtract_freq_fb s.w_size s.w_VERTEX_BOSONIC_size w_ind nu_ind < 0 ∨
              subtract_freq_fb s.w_size s.w_VERTEX_BOSONIC_size w_ind nu_ind ≥ (s.w_size : Int)
            then 0
            else ((List.range s.k_size).map (fun (k_ind : Nat) =>
              if i = (0, 0, 0, 0, (k_ind : Int), (w_ind : Int)) then
                F (0, 0, 0, 0, (q_ind : Int), (nu_ind : Int)) *
                  G (0, 0, 0, 0, s.subtract k_ind q_ind,
                    subtract_freq_fb s.w_size s.w_VERTEX_BOSONIC_size w_ind nu_ind)
              else 0)).sum)).sum)).sum)).sum) := by
  unfold sigma_perturbation.execute_4J_convolution
  apply addsTo_foldl; intro nu_ind
  apply addsTo_foldl; intro q_ind
  apply addsTo_foldl; intro w_ind
  apply addsTo_skip
  apply addsTo_foldl; intro k_ind
  apply addsTo_add_entry

theorem F_addsTo {K : Type} [Field K] (s : sigma_perturbation K) (work : List (Nat × Nat))
    (G : function_type K) :
    AddsTo (s.execute_4J_F work G)
      (fun i => (work.map (fun (l : Nat × Nat) =>
        ((List.range s.w_size).map (fun (w1_ind : Nat) =>
          if subtract_freq_fb s.w_size s.w_VERTEX_BOSONIC_size w1_ind l.1 < 0 ∨
              subtract_freq_fb s.w_size s.w_VERTEX_BOSONIC_size w1_ind l.1 ≥ (s.w_size : Int)
          then 0
          else ((List.range s.k_size).map (fun (p1_ind : Nat) =>
            ((List.range s.w_size).map (fun (w2_ind : Nat) =>
              if subtract_freq_fb s.w_size s.w_VERTEX_BOSONIC_size w2_ind l.1 < 0 ∨
                  subtract_freq_fb s.w_size s.w_VERTEX_BOSONIC_size w2_ind l.1 ≥
                    (s.w_size : Int)
              then 0
              else if subtract_freq_ff s.w_size s.w_VERTEX_BOSONIC_size w2_ind
                    (subtract_freq_fb s.w_size s.w_VERTEX_BOSONIC_size w1_ind l.1) < 0 ∨
                  subtract_freq_ff s.w_size s.w_VERTEX_BOSONIC_size w2_ind
                    (subtract_freq_fb s.w_size s.w_VERTEX_BOSONIC_size w1_ind l.1) ≥
                      (s.w_VERTEX_BOSONIC_size : Int)
              then 0
              else ((List.range s.k_size).map (fun (p2_ind : Nat) =>
                if i = (0, 0, 0, 0, (l.2 : Int), (l.1 : Int)) then
                  s.term_4J G l.1 l.2 w1_ind p1_ind w2_ind p2_ind
                else 0)).sum)).sum)).sum)).sum)).sum) := by
  unfold sigma_perturbation.execute_4J_F
  apply addsTo_foldl; intro l
  apply addsTo_foldl; intro w1_ind
  apply addsTo_skip
  apply addsTo_foldl; intro p1_ind
  apply addsTo_foldl; intro w2_ind
  apply addsTo_skip
  apply addsTo_skip
  apply addsTo_foldl; intro p2_ind
  apply addsTo_add_entry

theorem old_loops_addsTo {K : Type} [Field K] (s : sigma_perturbation K)
    (G : function_type K) :
    AddsTo (s.execute_4J_old_loops G)
      (fun i => ((List.range s.w_VERTEX_BOSONIC_size).map (fun (nu_ind : Nat) =>
        ((List.range s.k_size).map (fun (q_ind : Nat) =>
        ((List.range s.w_size).map (fun (w1_ind : Nat) =>
          if subtract_freq_fb s.w_size s.w_VERTEX_BOSONIC_size w1_ind nu_ind < 0 ∨
              subtract_freq_fb s.w_size s.w_VERTEX_BOSONIC_size w1_ind nu_ind ≥
                (s.w_size : Int)
          then 0
          else ((List.range s.k_size).map (fun (p1_ind : Nat) =>
            ((List.range s.w_size).map (fun (w2_ind : Nat) =>
              if subtract_freq_fb s.w_size s.w_VERTEX_BOSONIC_size w2_ind nu_ind < 0 ∨
                  subtract_freq_fb s.w_size s.w_VERTEX_BOSONIC_size w2_ind nu_ind ≥
                    (s.w_size : Int)
              then 0
              else if subtract_freq_ff s.w_size s.w_VERTEX_BOSONIC_size w2_ind
                    (subtract_freq_fb s.w_size s.w_VERTEX_BOSONIC_size w1_ind nu_ind) < 0 ∨
                  subtract_freq_ff s.w_size s.w_VERTEX_BOSONIC_size w2_ind
                    (subtract_freq_fb s.w_size s.w_VERTEX_BOSONIC_size w1_ind nu_ind) ≥
                      (s.w_VERTEX_BOSONIC_size : Int)
              then 0
              else ((List.range s.k_size).map (fun (p2_ind : Nat) =>
                ((List.range s.w_size).map (fun (w_ind : Nat) =>
                  if subtract_freq_fb s.w_size s.w_VERTEX_BOSONIC_size w_ind nu_ind < 0 ∨
                      subtract_freq_fb s.w_size s.w_VERTEX_BOSONIC_size w_ind nu_ind ≥
                        (s.w_size : Int)
                  then 0
                  else ((List.range s.k_size).map (fun (k_ind : Nat) =>
                    if i = (0, 0, 0, 0, (k_ind : Int), (w_ind : Int)) then
                      s.term_4J G nu_ind q_ind w1_ind p1_ind w2_ind p2_ind *
                        G (0, 0, 0, 0, s.subtract k_ind q_ind,
                          subtract_freq_fb s.w_size s.w_VERTEX_BOSONIC_size w_ind nu_ind)
                    else 0)).sum)).sum)).sum)).sum)).sum)).sum)).sum)).sum) := by
  unfold sigma_perturbation.execute_4J_old_loops
  apply addsTo_foldl; intro nu_ind
  apply addsTo_foldl; intro q_ind
  apply addsTo_foldl; intro w1_ind
  apply addsTo_skip
  apply addsTo_foldl; intro p1_ind
  apply addsTo_foldl; intro w2_ind
  apply addsTo_skip
  apply addsTo_skip
  apply addsTo_foldl; intro p2_ind
  apply addsTo_foldl; intro w_ind
  apply addsTo_skip
  apply addsTo_foldl; intro k_ind
  apply addsTo_add_entry

theorem term_mul_outer {K : Type} [Field K] (s : sigma_perturbation K) (G : function_type K)
    (nu_ind q_ind : Nat) (i : Int × Int × Int × Int × Int × Int) (T : K) :
    ((List.range s.w_size).map (fun (w_ind : Nat) =>
      if subtract_freq_fb s.w_size s.w_VERTEX_BOSONIC_size w_ind nu_ind < 0 ∨
          subtract_freq_fb s.w_size s.w_VERTEX_BOSONIC_size w_ind nu_ind ≥ (s.w_size : Int)
      then 0
      else ((List.range s.k_size).map (fun (k_ind : Nat) =>
        if i = (0, 0, 0, 0, (k_ind : Int), (w_ind : Int)) then
          T * G (0, 0, 0, 0, s.subtract k_ind q_ind,
            subtract_freq_fb s.w_size s.w_VERTEX_BOSONIC_size w_ind nu_ind)
        else 0)).sum)).sum = T * s.outer_4J G nu_ind q_ind i := by
  simp only [sigma_perturbation.outer_4J, ← List.sum_map_mul_left, mul_ite, mul_zero]

/-- The sum of the direct loops for one pair (`nu_ind`, `q_ind`) factorises. -/
theorem old_pair_eq {K : Type} [Field K] (s : sigma_perturbation K) (G : function_type K)
    (nu_ind q_ind : Nat) (i : Int × Int × Int × Int × Int × Int) :
    ((List.range s.w_size).map (fun (w1_ind : Nat) =>
      if subtract_freq_fb s.w_size s.w_VERTEX_BOSONIC_size w1_ind nu_ind < 0 ∨
          subtract_freq_fb s.w_size s.w_VERTEX_BOSONIC_size w1_ind nu_ind ≥
            (s.w_size : Int)
      then 0
      else ((List.range s.k_size).map (fun (p1_ind : Nat) =>
        ((List.range s.w_size).map (fun (w2_ind : Nat) =>
          if subtract_freq_fb s.w_size s.w_VERTEX_BOSONIC_size w2_ind nu_ind < 0 ∨
              subtract_freq_fb s.w_size s.w_VERTEX_BOSONIC_size w2_ind nu_ind ≥
                (s.w_size : Int)
          then 0
          else if subtract_freq_ff s.w_size s.w_VERTEX_BOSONIC_size w2_ind
                (subtract_freq_fb s.w_size s.w_VERTEX_BOSONIC_size w1_ind nu_ind) < 0 ∨
              subtract_freq_ff s.w_size s.w_VERTEX_BOSONIC_size w2_ind
                (subtract_freq_fb s.w_size s.w_VERTEX_BOSONIC_size w1_ind nu_ind) ≥
                  (s.w_VERTEX_BOSONIC_size : Int)
          then 0
          else ((List.range s.k_size).map (fun (p2_ind : Nat) =>
            ((List.range s.w_size).map (fun (w_ind : Nat) =>
              if subtract_freq_fb s.w_size s.w_VERTEX_BOSONIC_size w_ind nu_ind < 0 ∨
                  subtract_freq_fb s.w_size s.w_VERTEX_BOSONIC_size w_ind nu_ind ≥
                    (s.w_size : Int)
              then 0
              else ((List.range s.k_size).map (fun (k_ind : Nat) =>
                if i = (0, 0, 0, 0, (k_ind : Int), (w_ind : Int)) then
                  s.term_4J G nu_ind q_ind w1_ind p1_ind w2_ind p2_ind *
                    G (0, 0, 0, 0, s.subtract k_ind q_ind,
                      subtract_freq_fb s.w_size s.w_VERTEX_BOSONIC_size w_ind nu_ind)
                else 0)).sum)).sum)).sum)).sum)).sum)).sum =
      s.inner_4J G nu_ind q_ind * s.outer_4J G nu_ind q_ind i := by
  simp only [term_mul_outer]
  simp only [sigma_perturbation.inner_4J, ← List.sum_map_mul_right, ite_mul, zero_mul]

theorem old_loops_eq_direct {K : Type} [Field K] (s : sigma_perturbation K)
    (G : function_type K) : AddsTo (s.execute_4J_old_loops G) (s.direct_4J G) := by
  refine addsTo_congr _ _ _ (old_loops_addsTo s G) (fun i => ?_)
  simp only [old_pair_eq]
  rfl

theorem sum_map_ite_eq_count {K : Type} [Field K] (work : List (Nat × Nat)) (x : Nat × Nat)
    (g : Nat × Nat → K) :
    (work.map (fun l => if l = x then g l else 0)).sum = (work.count x : K) * g x := by
  induction work with
  | nil => simp
  | cons a work ih =>
    rw [List.map_cons, List.sum_cons, ih, List.count_cons]
    by_cases h : a = x
    · subst h
      simp
      ring
    · have h2 : ¬ (a == x) = true := by simpa using h
      simp [h, h2]

theorem F_pair_eq {K : Type} [Field K] (s : sigma_perturbation K) (G : function_type K)
    (l : Nat × Nat) (i : Int × Int × Int × Int × Int × Int) :
    ((List.range s.w_size).map (fun (w1_ind : Nat) =>
      if subtract_freq_fb s.w_size s.w_VERTEX_BOSONIC_size w1_ind l.1 < 0 ∨
          subtract_freq_fb s.w_size s.w_VERTEX_BOSONIC_size w1_ind l.1 ≥ (s.w_size : Int)
      then 0
      else ((List.range s.k_size).map (fun (p1_ind : Nat) =>
        ((List.range s.w_size).map (fun (w2_ind : Nat) =>
          if subtract_freq_fb s.w_size s.w_VERTEX_BOSONIC_size w2_ind l.1 < 0 ∨
              subtract_freq_fb s.w_size s.w_VERTEX_BOSONIC_size w2_ind l.1 ≥
                (s.w_size : Int)
          then 0
          else if subtract_freq_ff s.w_size s.w_VERTEX_BOSONIC_size w2_ind
                (subtract_freq_fb s.w_size s.w_VERTEX_BOSONIC_size w1_ind l.1) < 0 ∨
              subtract_freq_ff s.w_size s.w_VERTEX_BOSONIC_size w2_ind
                (subtract_freq_fb s.w_size s.w_VERTEX_BOSONIC_size w1_ind l.1) ≥
                  (s.w_VERTEX_BOSONIC_size : Int)
          then 0
          else ((List.range s.k_size).map (fun (p2_ind : Nat) =>
            if i = (0, 0, 0, 0, (l.2 : Int), (l.1 : Int)) then
              s.term_4J G l.1 l.2 w1_ind p1_ind w2_ind p2_ind
            else 0)).sum)).sum)).sum)).sum =
      if i = (0, 0, 0, 0, (l.2 : Int), (l.1 : Int)) then s.inner_4J G l.1 l.2 else 0 := by
  by_cases h : i = (0, 0, 0, 0, (l.2 : Int), (l.1 : Int))
  · simp only [h, if_true]
    rfl
  · simp [h]

/-- The entry of `F` for a pair that the work list holds once. -/
theorem F_entry {K : Type} [Field K] (s : sigma_perturbation K) (work : List (Nat × Nat))
    (G : function_type K) (nu_ind q_ind : Nat) (h : work.count (nu_ind, q_ind) = 1) :
    s.execute_4J_F work G (fun _ => 0) (0, 0, 0, 0, (q_ind : Int), (nu_ind : Int)) =
      s.inner_4J G nu_ind q_ind := by
  rw [F_addsTo s work G, zero_add]
  simp only [F_pair_eq]
  have e : ∀ l : Nat × Nat,
      (((0 : Int), (0 : Int), (0 : Int), (0 : Int), (q_ind : Int), (nu_ind : Int)) =
        (0, 0, 0, 0, (l.2 : Int), (l.1 : Int))) = (l = (nu_ind, q_ind)) := by
    rintro ⟨a, b⟩
    simp only [Prod.mk.injEq, true_and, Nat.cast_inj, eq_iff_iff]
    constructor
    · rintro ⟨h1, h2⟩; exact ⟨h2.symm, h1.symm⟩
    · rintro ⟨h1, h2⟩; exact ⟨h2.symm, h1.symm⟩
  simp only [e]
  rw [sum_map_ite_eq_count work (nu_ind, q_ind) (fun l => s.inner_4J G l.1 l.2), h]
  simp

theorem new_loops_eq_direct {K : Type} [Field K] (s : sigma_perturbation K)
    (work : List (Nat × Nat)) (G : function_type K)
    (hwork : ∀ nu_ind q_ind : Nat, nu_ind < s.w_VERTEX_BOSONIC_size → q_ind < s.k_size →
      work.count (nu_ind, q_ind) = 1) :
    AddsTo (s.execute_4J_convolution G (s.execute_4J_F work G (fun _ => 0)))
      (s.direct_4J G) := by
  refine addsTo_congr _ _ _ (convolution_addsTo s G _) (fun i => ?_)
  simp only [term_mul_outer]
  unfold sigma_perturbation.direct_4J
  refine congrArg List.sum (List.map_congr_left (fun nu_ind hnu => ?_))
  refine congrArg List.sum (List.map_congr_left (fun q_ind hq => ?_))
  rw [F_entry s work G nu_ind q_ind
    (hwork nu_ind q_ind (List.mem_range.1 hnu) (List.mem_range.1 hq))]

/-- Claim C25: when the work list of the sum manager holds every pair (`nu_ind`, `q_ind`)
of the bosonic frequency and momentum domains once, the factorised `execute_4J` leaves the
same object, so the same `Sigma_4J`, as the direct sum `execute_4J_old`, for every `G` and
`chi` over any field; before the copy to the second spin and the prefactor, each entry is
the sum over the pairs of the `k`-independent part times the convolution factor. -/
theorem C25_execute_4J_factorised {K : Type} [Field K] (s : sigma_perturbation K)
    (work : List (Nat × Nat)) (G : function_type K)
    (hwork : ∀ nu_ind q_ind : Nat, nu_ind < s.w_VERTEX_BOSONIC_size → q_ind < s.k_size →
      work.count (nu_ind, q_ind) = 1) :
    s.execute_4J work G = s.execute_4J_old G ∧
    s.execute_4J_convolution G (s.execute_4J_F work G (fun _ => 0)) (fun _ => 0) =
      s.direct_4J G ∧
    s.execute_4J_old_loops G (fun _ => 0) = s.direct_4J G := by
  have h1 : s.execute_4J_convolution G (s.execute_4J_F work G (fun _ => 0)) (fun _ => 0) =
      s.direct_4J G := by
    funext i
    rw [new_loops_eq_direct s work G hwork, zero_add]
  have h2 : s.execute_4J_old_loops G (fun _ => 0) = s.direct_4J G := by
    funext i
    rw [old_loops_eq_direct s G, zero_add]
  refine ⟨?_, h1, h2⟩
  simp only [sigma_perturbation.execute_4J, sigma_perturbation.execute_4J_old, h1, h2]

theorem C25_execute_4J_factorised_witness :
    (∀ nu_ind q_ind : Nat, nu_ind < 1 → q_ind < 2 →
      List.count (nu_ind, q_ind) [(0, 1), (0, 0)] = 1) ∧
    sampleSigma.execute_4J [(0, 1), (0, 0)] sampleG = sampleSigma.execute_4J_old sampleG := by
  have h : ∀ nu_ind q_ind : Nat, nu_ind < 1 → q_ind < 2 →
      List.count (nu_ind, q_ind) [(0, 1), (0, 0)] = 1 := by
    intro nu_ind q_ind hnu hq
    interval_cases nu_ind
    interval_cases q_ind <;> decide
  exact ⟨h, (C25_execute_4J_factorised sampleSigma [(0, 1), (0, 0)] sampleG h).1⟩

end DCA
